import Mathlib

/-!
# The Fabric message envelope (`types/message.js`)

A shallow embedding of the `Message` class: the 48-byte header, the payload,
the `type` and `data` accessors, `asRaw`, `fromRaw`, `fromVector` and `id`.

The class runs on Node.js.  The parts of the platform it calls are modelled
first: `Buffer` (byte sequences, `slice`, `readUInt32BE`, `writeUInt32BE`,
`concat`), the UTF-8 codec behind `Buffer#toString('utf8')`, `Buffer.from(string)`
and `hash.update(string)`, and SHA-256.  A thrown exception is a value of
`Error`; a method that throws after it has assigned some fields reports both
the exception and the object as it stands.
-/

namespace Fabric

/-! ## Platform: bytes, strings, exceptions -/

/-- Contents of a `Buffer`: one number below 256 per byte. -/
abbrev Bytes := List Nat

/-- A JavaScript string: its UTF-16 code units. -/
abbrev JSString := List Nat

/-- Every element is a byte. -/
def IsBytes (b : Bytes) : Prop := ∀ x ∈ b, x < 256

instance (b : Bytes) : Decidable (IsBytes b) := by unfold IsBytes; infer_instance

/-- The method `isWellFormed()`: no lone surrogate (and every element is a code unit). -/
def isWellFormed : JSString → Bool
  | [] => true
  | u :: rest =>
    if 0xD800 ≤ u ∧ u < 0xDC00 then
      match rest with
      | v :: rest2 => decide (0xDC00 ≤ v ∧ v < 0xE000) && isWellFormed rest2
      | [] => false
    else decide (u < 0xD800 ∨ (0xE000 ≤ u ∧ u < 0x10000)) && isWellFormed rest

/-- Exceptions the envelope code can raise. -/
inductive Error where
  /-- The `new Error('Unknown message type: ...')` of the `type` setter. -/
  | unknownType (name : String)
  /-- A `RangeError` of `readUInt32BE` or `writeUInt32BE`. -/
  | rangeError
  /-- A `TypeError` of `Buffer.concat`. -/
  | typeError
  deriving DecidableEq, Repr

instance instDecidableEqExcept {ε α : Type} [DecidableEq ε] [DecidableEq α] :
    DecidableEq (Except ε α)
  | .ok a, .ok b =>
    if h : a = b then isTrue (congrArg Except.ok h) else isFalse (fun h2 => h (Except.ok.inj h2))
  | .error a, .error b =>
    if h : a = b then isTrue (congrArg Except.error h)
    else isFalse (fun h2 => h (Except.error.inj h2))
  | .ok _, .error _ => isFalse (fun h => Except.noConfusion h)
  | .error _, .ok _ => isFalse (fun h => Except.noConfusion h)

/-- The function `Buffer.alloc(n)`: `n` zero bytes. -/
def Buffer.alloc (n : Nat) : Bytes := List.replicate n 0

/-- The method `buf.slice(start, stop)` for non-negative indices; both are clamped to the length. -/
def Buffer.slice (b : Bytes) (start stop : Nat) : Bytes := (b.take stop).drop start

/-- The method `buf.readUInt32BE()` at offset 0; a buffer shorter than 4 bytes raises a `RangeError`. -/
def Buffer.readUInt32BE (b : Bytes) : Except Error Nat :=
  match b with
  | b0 :: b1 :: b2 :: b3 :: _ => .ok (b0 * 16777216 + b1 * 65536 + b2 * 256 + b3)
  | _ => .error .rangeError

/-- The four bytes `writeUInt32BE` stores for a value below `2 ^ 32`. -/
def uint32BE (value : Nat) : Bytes :=
  [value / 16777216 % 256, value / 65536 % 256, value / 256 % 256, value % 256]

/-- The method `buf.writeUInt32BE(value)` at offset 0, for a number `value`: a value above
`0xFFFFFFFF` raises a `RangeError`, and so does a buffer shorter than 4 bytes. The result is
the buffer after the write. -/
def Buffer.writeUInt32BE (b : Bytes) (value : Nat) : Except Error Bytes :=
  if value > 4294967295 then .error .rangeError
  else
    match b with
    | _ :: _ :: _ :: _ :: rest => .ok (uint32BE value ++ rest)
    | _ => .error .rangeError

/-- The method `buf.writeUInt32BE(value)` when `value` is a function or an object: `+value` is
`NaN`, which passes the range comparison and is stored as zero bytes. -/
def Buffer.writeUInt32BENaN (b : Bytes) : Except Error Bytes :=
  match b with
  | _ :: _ :: _ :: _ :: rest => .ok (0 :: 0 :: 0 :: 0 :: rest)
  | _ => .error .rangeError

/-! ## Platform: UTF-8 -/

/-- UTF-8 bytes of one code point. -/
def utf8CodePoint (c : Nat) : Bytes :=
  if c < 0x80 then [c]
  else if c < 0x800 then [0xC0 + c / 64, 0x80 + c % 64]
  else if c < 0x10000 then [0xE0 + c / 4096, 0x80 + c / 64 % 64, 0x80 + c % 64]
  else [0xF0 + c / 262144, 0x80 + c / 4096 % 64, 0x80 + c / 64 % 64, 0x80 + c % 64]

/-- The bytes of U+FFFD, written for a lone surrogate. -/
def utf8Replacement : Bytes := [0xEF, 0xBF, 0xBD]

/-- A string to its UTF-8 bytes, as `Buffer.from(string)` and `hash.update(string)` do: a
surrogate pair is one code point, a lone surrogate becomes U+FFFD. -/
def utf8Write : JSString → Bytes
  | [] => []
  | u :: rest =>
    if 0xD800 ≤ u ∧ u < 0xDC00 then
      match rest with
      | v :: rest2 =>
        if 0xDC00 ≤ v ∧ v < 0xE000 then
          utf8CodePoint (0x10000 + (u - 0xD800) * 1024 + (v - 0xDC00)) ++ utf8Write rest2
        else utf8Replacement ++ utf8Write (v :: rest2)
      | [] => utf8Replacement
    else if 0xDC00 ≤ u ∧ u < 0xE000 then utf8Replacement ++ utf8Write rest
    else utf8CodePoint u ++ utf8Write rest

/-- A continuation byte. -/
def isCont (b : Nat) : Prop := 0x80 ≤ b ∧ b ≤ 0xBF

instance (b : Nat) : Decidable (isCont b) := by unfold isCont; infer_instance

/-- The second byte a three-byte lead admits (no overlong form, no surrogate). -/
def isSecond3 (b0 b1 : Nat) : Prop :=
  (if b0 = 0xE0 then 0xA0 else 0x80) ≤ b1 ∧ b1 ≤ (if b0 = 0xED then 0x9F else 0xBF)

instance (b0 b1 : Nat) : Decidable (isSecond3 b0 b1) := by unfold isSecond3; infer_instance

/-- The second byte a four-byte lead admits (no overlong form, nothing above U+10FFFF). -/
def isSecond4 (b0 b1 : Nat) : Prop :=
  (if b0 = 0xF0 then 0x90 else 0x80) ≤ b1 ∧ b1 ≤ (if b0 = 0xF4 then 0x8F else 0xBF)

instance (b0 b1 : Nat) : Decidable (isSecond4 b0 b1) := by unfold isSecond4; infer_instance

/-- UTF-16 code units of one decoded code point. -/
def utf16CodePoint (c : Nat) : JSString :=
  if c < 0x10000 then [c]
  else [0xD800 + (c - 0x10000) / 1024, 0xDC00 + (c - 0x10000) % 1024]

/-- UTF-8 bytes to a string, as `buf.toString('utf8')` does: every maximal ill-formed
subsequence becomes one U+FFFD, and decoding resumes at the byte that broke the sequence. -/
def utf8Slice : Bytes → JSString
  | [] => []
  | b0 :: rest =>
    if b0 < 0x80 then b0 :: utf8Slice rest
    else if 0xC2 ≤ b0 ∧ b0 ≤ 0xDF then
      match rest with
      | b1 :: r1 =>
        if isCont b1 then ((b0 - 0xC0) * 64 + (b1 - 0x80)) :: utf8Slice r1
        else 0xFFFD :: utf8Slice (b1 :: r1)
      | [] => [0xFFFD]
    else if 0xE0 ≤ b0 ∧ b0 ≤ 0xEF then
      match rest with
      | b1 :: r1 =>
        if isSecond3 b0 b1 then
          match r1 with
          | b2 :: r2 =>
            if isCont b2 then
              ((b0 - 0xE0) * 4096 + (b1 - 0x80) * 64 + (b2 - 0x80)) :: utf8Slice r2
            else 0xFFFD :: utf8Slice (b2 :: r2)
          | [] => [0xFFFD]
        else 0xFFFD :: utf8Slice (b1 :: r1)
      | [] => [0xFFFD]
    else if 0xF0 ≤ b0 ∧ b0 ≤ 0xF4 then
      match rest with
      | b1 :: r1 =>
        if isSecond4 b0 b1 then
          match r1 with
          | b2 :: r2 =>
            if isCont b2 then
              match r2 with
              | b3 :: r3 =>
                if isCont b3 then
                  utf16CodePoint ((b0 - 0xF0) * 262144 + (b1 - 0x80) * 4096
                    + (b2 - 0x80) * 64 + (b3 - 0x80)) ++ utf8Slice r3
                else 0xFFFD :: utf8Slice (b3 :: r3)
              | [] => [0xFFFD]
            else 0xFFFD :: utf8Slice (b2 :: r2)
          | [] => [0xFFFD]
        else 0xFFFD :: utf8Slice (b1 :: r1)
      | [] => [0xFFFD]
    else 0xFFFD :: utf8Slice rest

/-! ## Platform: SHA-256 (FIPS 180-4), on 32-bit words held as natural numbers -/

/-- The round constants. -/
def sha256K : List Nat := [
  0x428a2f98, 0x71374491, 0xb5c0fbcf, 0xe9b5dba5, 0x3956c25b, 0x59f111f1, 0x923f82a4, 0xab1c5ed5,
  0xd807aa98, 0x12835b01, 0x243185be, 0x550c7dc3, 0x72be5d74, 0x80deb1fe, 0x9bdc06a7, 0xc19bf174,
  0xe49b69c1, 0xefbe4786, 0x0fc19dc6, 0x240ca1cc, 0x2de92c6f, 0x4a7484aa, 0x5cb0a9dc, 0x76f988da,
  0x983e5152, 0xa831c66d, 0xb00327c8, 0xbf597fc7, 0xc6e00bf3, 0xd5a79147, 0x06ca6351, 0x14292967,
  0x27b70a85, 0x2e1b2138, 0x4d2c6dfc, 0x53380d13, 0x650a7354, 0x766a0abb, 0x81c2c92e, 0x92722c85,
  0xa2bfe8a1, 0xa81a664b, 0xc24b8b70, 0xc76c51a3, 0xd192e819, 0xd6990624, 0xf40e3585, 0x106aa070,
  0x19a4c116, 0x1e376c08, 0x2748774c, 0x34b0bcb5, 0x391c0cb3, 0x4ed8aa4a, 0x5b9cca4f, 0x682e6ff3,
  0x748f82ee, 0x78a5636f, 0x84c87814, 0x8cc70208, 0x90befffa, 0xa4506ceb, 0xbef9a3f7, 0xc67178f2]

/-- The initial hash value. -/
def sha256Init : List Nat := [
  0x6a09e667, 0xbb67ae85, 0x3c6ef372, 0xa54ff53a, 0x510e527f, 0x9b05688c, 0x1f83d9ab, 0x5be0cd19]

def rotr32 (x n : Nat) : Nat := (x >>> n ||| x <<< (32 - n)) % 4294967296

def add32 (a b : Nat) : Nat := (a + b) % 4294967296

def not32 (x : Nat) : Nat := 4294967295 - x % 4294967296

def bsig0 (x : Nat) : Nat := rotr32 x 2 ^^^ rotr32 x 13 ^^^ rotr32 x 22

def bsig1 (x : Nat) : Nat := rotr32 x 6 ^^^ rotr32 x 11 ^^^ rotr32 x 25

def ssig0 (x : Nat) : Nat := rotr32 x 7 ^^^ rotr32 x 18 ^^^ x >>> 3

def ssig1 (x : Nat) : Nat := rotr32 x 17 ^^^ rotr32 x 19 ^^^ x >>> 10

def ch (x y z : Nat) : Nat := (x &&& y) ^^^ (not32 x &&& z)

def maj (x y z : Nat) : Nat := (x &&& y) ^^^ (x &&& z) ^^^ (y &&& z)

/-- Padding: a 0x80 byte, zero bytes up to 56 modulo 64, then the bit length on 8 bytes. -/
def sha256Pad (msg : Bytes) : Bytes :=
  msg ++ 128 :: List.replicate ((119 - msg.length % 64) % 64) 0 ++
    (List.range 8).map (fun i => 8 * msg.length / 256 ^ (7 - i) % 256)

/-- The big-endian word at the head of `b`. -/
def wordBE (b : Bytes) : Nat :=
  b.getD 0 0 % 256 * 16777216 + b.getD 1 0 % 256 * 65536 + b.getD 2 0 % 256 * 256 + b.getD 3 0 % 256

/-- The sixteen words of a 64-byte block. -/
def blockWords (block : Bytes) : List Nat :=
  (List.range 16).map (fun i => wordBE (block.drop (4 * i)))

/-- Message schedule: `n` further words appended to the words so far. -/
def schedule : Nat → List Nat → List Nat
  | 0, w => w
  | n + 1, w =>
    schedule n (w ++ [add32 (add32 (ssig1 (w.getD (w.length - 2) 0)) (w.getD (w.length - 7) 0))
      (add32 (ssig0 (w.getD (w.length - 15) 0)) (w.getD (w.length - 16) 0))])

/-- One round on the eight working variables, with round constant `kw.1` and schedule word `kw.2`. -/
def sha256Round (s : List Nat) (kw : Nat × Nat) : List Nat :=
  match s with
  | [a, b, c, d, e, f, g, h] =>
    [add32 (add32 (add32 (add32 h (bsig1 e)) (add32 (ch e f g) kw.1)) kw.2)
        (add32 (bsig0 a) (maj a b c)),
      a, b, c,
      add32 d (add32 (add32 (add32 h (bsig1 e)) (add32 (ch e f g) kw.1)) kw.2),
      e, f, g]
  | _ => s

/-- The compression function on one 64-byte block. -/
def sha256Compress (h : List Nat) (block : Bytes) : List Nat :=
  List.zipWith add32 h ((sha256K.zip (schedule 48 (blockWords block))).foldl sha256Round h)

/-- The hash value after `n` blocks of `bytes`. -/
def sha256Blocks : Nat → List Nat → Bytes → List Nat
  | 0, h, _ => h
  | n + 1, h, bytes => sha256Blocks n (sha256Compress h (bytes.take 64)) (bytes.drop 64)

def wordBytes (w : Nat) : Bytes :=
  [w / 16777216 % 256, w / 65536 % 256, w / 256 % 256, w % 256]

/-- SHA-256 of a byte sequence: the 32-byte digest. -/
def sha256 (msg : Bytes) : Bytes :=
  (sha256Blocks ((sha256Pad msg).length / 64) sha256Init (sha256Pad msg)).flatMap wordBytes

/-- Hexadecimal text of a byte sequence, two lower-case digits per byte (`digest('hex')`). -/
def hex (b : Bytes) : JSString :=
  b.flatMap (fun x => [(Nat.digitChar (x / 16 % 16)).toNat, (Nat.digitChar (x % 16)).toNat])

/-! ## Protocol constants

`message.js` imports them from the `constants` module; their numeric values are parameters of
the model. -/

/-- The constants `message.js` imports and uses. -/
structure Constants where
  MAGIC_BYTES : Nat
  VERSION_NUMBER : Nat
  P2P_IDENT_REQUEST : Nat
  P2P_IDENT_RESPONSE : Nat
  P2P_PING : Nat
  P2P_PONG : Nat
  P2P_INSTRUCTION : Nat
  P2P_BASE_MESSAGE : Nat
  P2P_STATE_ROOT : Nat
  P2P_STATE_COMMITTMENT : Nat
  P2P_STATE_CHANGE : Nat
  deriving DecidableEq, Repr

/-- Modelled from the spec: the constant `HEADER_SIZE`, defined in the `constants` module and
not in `message.js`; the header is 4+4+4+4+32 = 48 bytes and the payload starts at offset 48. -/
def HEADER_SIZE : Nat := 48

/-- One concrete assignment of the constants, in which `P2P_STATE_ROOT` is `0x00000000`; it
instantiates the general statements. -/
def sampleConstants : Constants where
  MAGIC_BYTES := 0xC0D3F33D
  VERSION_NUMBER := 0x01
  P2P_IDENT_REQUEST := 0x01
  P2P_IDENT_RESPONSE := 0x11
  P2P_PING := 0x12
  P2P_PONG := 0x13
  P2P_INSTRUCTION := 0x20
  P2P_BASE_MESSAGE := 0x31
  P2P_STATE_ROOT := 0x00
  P2P_STATE_COMMITTMENT := 0x32
  P2P_STATE_CHANGE := 0x33

/-! ## The envelope -/

/-- A value assigned to `data`: absent (`undefined` or `null`), a string, or a `Buffer`. -/
inductive Value where
  | undefined
  | string (s : JSString)
  | buffer (b : Bytes)
  deriving DecidableEq, Repr

/-- JavaScript falsiness, `!value`: absent values and the empty string; a `Buffer` is an object
and is truthy even when empty. -/
def Value.falsy : Value → Bool
  | .undefined => true
  | .string s => s.isEmpty
  | .buffer _ => false

/-- The call `value.toString('utf8')` on a truthy value: a string is itself, a `Buffer` is decoded. -/
def Value.toStringUtf8 : Value → JSString
  | .undefined => []
  | .string s => s
  | .buffer b => utf8Slice b

/-- The call `Buffer.from(value)` on a truthy value: the UTF-8 bytes of a string, a copy of a `Buffer`. -/
def Buffer.ofValue : Value → Bytes
  | .undefined => []
  | .string s => utf8Write s
  | .buffer b => b

/-- The object `this.raw`; `data` is `none` while it is `null` or missing. -/
structure Raw where
  magic : Bytes
  version : Bytes
  type : Bytes
  size : Bytes
  hash : Bytes
  data : Option Bytes
  deriving DecidableEq, Repr

/-- The state of a `Message`: `this.raw` and `this['@type']`. The fields the `Vector` base
class keeps are read by none of the methods below. -/
structure Message where
  raw : Raw
  atType : Option String
  deriving DecidableEq, Repr

/-- What a setter leaves behind: the object after the call and the exception it threw, if any. -/
structure Outcome where
  message : Message
  thrown : Option Error
  deriving DecidableEq, Repr

/-- The object after a call that completed, the exception otherwise. -/
def Outcome.result (o : Outcome) : Except Error Message :=
  match o.thrown with
  | none => .ok o.message
  | some e => .error e

/-- The constructor, `new Message()`: zeroed fields, then magic and version written big-endian. -/
def Message.new (cs : Constants) : Except Error Message := do
  let magic ← Buffer.writeUInt32BE (Buffer.alloc 4) cs.MAGIC_BYTES
  let version ← Buffer.writeUInt32BE (Buffer.alloc 4) cs.VERSION_NUMBER
  pure {
    raw := {
      magic := magic
      version := version
      type := Buffer.alloc 4
      size := Buffer.alloc 4
      hash := Buffer.alloc 32
      data := none }
    atType := none }

/-- The getter `header`: the five raw fields concatenated. -/
def Message.header (m : Message) : Bytes :=
  m.raw.magic ++ m.raw.version ++ m.raw.type ++ m.raw.size ++ m.raw.hash

/-- The method `asRaw()`: header and payload concatenated; `Buffer.concat` raises a `TypeError`
on a payload that was never set. -/
def Message.asRaw (m : Message) : Except Error Bytes :=
  match m.raw.data with
  | some d => .ok (m.header ++ d)
  | none => .error .typeError

/-- The getter `id`: hexadecimal SHA-256 of `asRaw()`. -/
def Message.id (m : Message) : Except Error JSString := do
  let raw ← m.asRaw
  pure (hex (sha256 raw))

/-- The getter `types`: the object literal, as its key and value pairs in source order. -/
def Message.types (cs : Constants) : List (String × Nat) := [
  ("IdentityRequest", cs.P2P_IDENT_REQUEST),
  ("IdentityResponse", cs.P2P_IDENT_RESPONSE),
  ("Ping", cs.P2P_PING),
  ("Pong", cs.P2P_PONG),
  ("PeerInstruction", cs.P2P_INSTRUCTION),
  ("PeerMessage", cs.P2P_BASE_MESSAGE),
  ("StateRoot", cs.P2P_STATE_ROOT),
  ("StateCommitment", cs.P2P_STATE_COMMITTMENT),
  ("StateChange", cs.P2P_STATE_CHANGE)]

/-- Property names every object literal inherits from `Object.prototype`. -/
def objectPrototypeKeys : List String := [
  "constructor", "__defineGetter__", "__defineSetter__", "hasOwnProperty", "__lookupGetter__",
  "__lookupSetter__", "isPrototypeOf", "propertyIsEnumerable", "toString", "valueOf",
  "__proto__", "toLocaleString"]

/-- What `this.types[value]` evaluates to. -/
inductive Lookup where
  /-- No such property. -/
  | undefined
  /-- An own property of the literal: the numeric code. -/
  | number (code : Nat)
  /-- A function or object found on `Object.prototype`. -/
  | inherited
  deriving DecidableEq, Repr

/-- The expression `this.types[value]`: own properties first, then the prototype. -/
def Message.typesLookup (cs : Constants) (value : String) : Lookup :=
  match (Message.types cs).lookup value with
  | some code => .number code
  | none => if value ∈ objectPrototypeKeys then .inherited else .undefined

/-- The getter `size`. -/
def Message.size (m : Message) : Except Error Nat := Buffer.readUInt32BE m.raw.size

/-- The getter `version`. -/
def Message.version (m : Message) : Except Error Nat := Buffer.readUInt32BE m.raw.version

/-- The getter `magic`. -/
def Message.magic (m : Message) : Bytes := m.raw.magic

/-- The getter of `type`: a `switch` on the code, its cases tried in source order, `default`
when none matches (the `console.warn` notice it prints is not modelled). -/
def Message.getType (cs : Constants) (m : Message) : Except Error String := do
  let code ← Buffer.readUInt32BE m.raw.type
  if code = cs.P2P_IDENT_REQUEST then pure "IdentityRequest"
  else if code = cs.P2P_IDENT_RESPONSE then pure "IdentityResponse"
  else if code = cs.P2P_STATE_ROOT then pure "StateRoot"
  else if code = cs.P2P_STATE_CHANGE then pure "StateChange"
  else pure "GenericMessage"

/-- The setter of `type`. `!code` holds for a missing property and for the number 0; otherwise
`this['@type']` is assigned and the code is written into `raw.type`. -/
def Message.setType (cs : Constants) (m : Message) (value : String) : Outcome :=
  match Message.typesLookup cs value with
  | .undefined => ⟨m, some (.unknownType value)⟩
  | .number code =>
    if code = 0 then ⟨m, some (.unknownType value)⟩
    else
      match Buffer.writeUInt32BE m.raw.type code with
      | .ok t => ⟨{ m with atType := some value, raw := { m.raw with type := t } }, none⟩
      | .error e => ⟨{ m with atType := some value }, some e⟩
  | .inherited =>
    match Buffer.writeUInt32BENaN m.raw.type with
    | .ok t => ⟨{ m with atType := some value, raw := { m.raw with type := t } }, none⟩
    | .error e => ⟨{ m with atType := some value }, some e⟩

/-- The getter of `data`: the payload decoded as UTF-8, the empty string when there is none. -/
def Message.getData (m : Message) : JSString :=
  match m.raw.data with
  | none => []
  | some d => utf8Slice d

/-- The setter of `data`: a falsy value becomes the empty string; the hash is SHA-256 of
`value.toString('utf8')`, which `update` encodes as UTF-8; the payload is `Buffer.from(value)`;
its length is then written into `raw.size`. -/
def Message.setData (m : Message) (value : Value) : Outcome :=
  let value := if value.falsy then Value.string [] else value
  let hash := sha256 (utf8Write value.toStringUtf8)
  let data := Buffer.ofValue value
  match Buffer.writeUInt32BE m.raw.size data.length with
  | .ok size => ⟨{ m with raw := { m.raw with hash := hash, data := some data, size := size } }, none⟩
  | .error e => ⟨{ m with raw := { m.raw with hash := hash, data := some data } }, some e⟩

/-- The static method `fromRaw(input)`: `null` for an absent input (`!input`; a `Buffer`, even
an empty one, is truthy). Otherwise the header fields are slices of the input; the test
`if (message.raw.size)` always passes, the slice being an object; the size is read back from
its slice and the payload slice goes through the `data` setter. This is the call on byte
values: what the envelope returned reads as when the call returns. The header fields are
windows on `input`, not copies, and the setter writes the size through one of them;
`Envelope.fromRaw` below is the call with the buffers in memory, and `snapshot_fromRaw` shows
that it returns an envelope that reads as given here. -/
def Message.fromRaw (cs : Constants) (input : Option Bytes) : Except Error (Option Message) :=
  match input with
  | none => .ok none
  | some input => do
    let message ← Message.new cs
    let message : Message := { message with
      raw := {
        magic := Buffer.slice input 0 4
        version := Buffer.slice input 4 8
        type := Buffer.slice input 8 12
        size := Buffer.slice input 12 16
        hash := Buffer.slice input 16 48
        data := none } }
    let size ← Buffer.readUInt32BE message.raw.size
    let message ← (message.setData
      (.buffer (Buffer.slice input HEADER_SIZE (HEADER_SIZE + size)))).result
    pure (some message)

/-- The static method `fromVector(vector)`, with `vector[0]` the type name and `vector[1]` the payload. -/
def Message.fromVector (cs : Constants) (type : String) (data : Value) : Except Error Message := do
  let message ← Message.new cs
  let message ← (message.setType cs type).result
  let message ← (message.setData data).result
  pure message

/-! ## Reachable envelopes -/

/-- A payload value is well-typed: the elements of a string are 16-bit code units, those of a
`Buffer` are bytes. -/
def Value.valid : Value → Prop
  | .undefined => True
  | .string s => ∀ u ∈ s, u < 65536
  | .buffer b => IsBytes b

instance (v : Value) : Decidable v.valid := by
  cases v <;> unfold Value.valid <;> infer_instance

/-- What an envelope a caller holds can read as, as long as nothing but its own setters writes
its buffers: what the constructor, `fromVector` and `fromRaw` return, and the object as it
stands after a `type =` or `data =` assignment on such an envelope, whether the assignment
completed or threw. An envelope returned by `fromRaw` shares its header fields with the buffer
it was parsed from; `Live` below follows envelopes in memory, writes by other code
included. -/
inductive Reachable (cs : Constants) : Message → Prop where
  | new {m : Message} (made : Message.new cs = .ok m) : Reachable cs m
  | fromVector {n : String} {v : Value} {m : Message} (typed : v.valid)
      (made : Message.fromVector cs n v = .ok m) : Reachable cs m
  | fromRaw {input : Bytes} {m : Message}
      (made : Message.fromRaw cs (some input) = .ok (some m)) : Reachable cs m
  | setType {m : Message} (n : String) (before : Reachable cs m) :
      Reachable cs (m.setType cs n).message
  | setData {m : Message} (v : Value) (typed : v.valid) (before : Reachable cs m) :
      Reachable cs (m.setData v).message

/-- Envelopes built by the constructor followed by `type =` and `data =` assignments that
completed. -/
inductive Built (cs : Constants) : Message → Prop where
  | new {m : Message} (made : Message.new cs = .ok m) : Built cs m
  | setType {m : Message} (n : String) (before : Built cs m)
      (done : (m.setType cs n).thrown = none) : Built cs (m.setType cs n).message
  | setData {m : Message} (v : Value) (typed : v.valid) (before : Built cs m)
      (done : (m.setData v).thrown = none) : Built cs (m.setData v).message

/-- The invariant of reachable envelopes: the header fields have their fixed widths, the hash
is the digest of the stored payload's text form, and the size field holds the payload length
whenever that length fits 32 bits. -/
def Sound (m : Message) : Prop :=
  m.raw.magic.length = 4 ∧ m.raw.version.length = 4 ∧ m.raw.type.length = 4 ∧
    m.raw.size.length = 4 ∧ m.raw.hash.length = 32 ∧
    ∀ d, m.raw.data = some d →
      m.raw.hash = sha256 (utf8Write (utf8Slice d)) ∧
        (d.length < 4294967296 → m.raw.size = uint32BE d.length)

/-! ## Sample envelopes, to instantiate the general statements -/

/-- The envelope `new Message()` under `sampleConstants`. -/
def sampleFresh : Message :=
  { raw := {
      magic := [0xC0, 0xD3, 0xF3, 0x3D]
      version := [0, 0, 0, 1]
      type := [0, 0, 0, 0]
      size := [0, 0, 0, 0]
      hash := Buffer.alloc 32
      data := none }
    atType := none }

/-- The text `'hello'`. -/
def sampleHello : JSString := [0x68, 0x65, 0x6C, 0x6C, 0x6F]

/-- The envelope after `type = 'Ping'` and `data = 'hello'` on `sampleFresh`. -/
def samplePing : Message :=
  ((sampleFresh.setType sampleConstants "Ping").message.setData (.string sampleHello)).message

/-- The envelope after `type = 'Pong'` and `data = 'hello'` on `sampleFresh`. -/
def samplePong : Message :=
  ((sampleFresh.setType sampleConstants "Pong").message.setData (.string sampleHello)).message

/-- A 20-byte input: magic, version and type `07 07 07 07`, declared size 5, four more bytes. -/
def sampleShort : Bytes := List.replicate 12 7 ++ [0, 0, 0, 5] ++ [1, 2, 3, 4]

/-! ## Buffers as views of shared memory

A Node.js `Buffer` is a window on an allocation, and `buf.slice` returns a window on the same
allocation.  `fromRaw` keeps such windows of its input as header fields, and the setters write
through them: the input buffer, and every other envelope parsed from it, see the write.
`Message` above is what one envelope reads as at one moment (`Envelope.snapshot`); the
definitions below keep track of which bytes are shared. -/

/-- A `Buffer` object: the allocation it looks into, the offset of its first byte there, and
its length. -/
structure View where
  mem : Nat
  off : Nat
  len : Nat
  deriving DecidableEq, Repr

/-- The allocations made so far, in the order they were made. -/
structure Memory where
  blocks : List Bytes
  deriving DecidableEq, Repr

/-- The contents of allocation `i` (empty when there is none). -/
def Memory.block (h : Memory) (i : Nat) : Bytes := h.blocks.getD i []

/-- The bytes a `Buffer` reads as. -/
def Memory.bytes (h : Memory) (v : View) : Bytes := ((h.block v.mem).drop v.off).take v.len

/-- A new allocation holding `b`, and the `Buffer` that covers it (`Buffer.alloc`,
`Buffer.from`, `hash.digest()`). -/
def Memory.alloc (h : Memory) (b : Bytes) : Memory × View :=
  (⟨h.blocks ++ [b]⟩, ⟨h.blocks.length, 0, b.length⟩)

/-- An in-place write: the bytes `v` covers are replaced by `b`. -/
def Memory.put (h : Memory) (v : View) (b : Bytes) : Memory :=
  ⟨h.blocks.set v.mem
    ((h.block v.mem).take v.off ++ b ++ (h.block v.mem).drop (v.off + v.len))⟩

/-- The method `buf.slice(start, stop)` for non-negative indices: a window on the same
allocation, both indices clamped to the length. -/
def View.slice (v : View) (start stop : Nat) : View :=
  ⟨v.mem, v.off + min start v.len, min stop v.len - min start v.len⟩

/-- The `Buffer` lies within its allocation. -/
def View.inside (h : Memory) (v : View) : Prop :=
  v.mem < h.blocks.length ∧ v.off + v.len ≤ (h.block v.mem).length

instance (h : Memory) (v : View) : Decidable (v.inside h) := by
  unfold View.inside; infer_instance

/-- Two `Buffer`s share no byte. -/
def View.apart (v w : View) : Prop :=
  v.mem ≠ w.mem ∨ v.off + v.len ≤ w.off ∨ w.off + w.len ≤ v.off

instance (v w : View) : Decidable (v.apart w) := by
  unfold View.apart; infer_instance

/-- What any code can do to memory: allocate, and write in place; an allocation is never
resized or removed. -/
def Memory.grows (h h1 : Memory) : Prop :=
  h.blocks.length ≤ h1.blocks.length ∧
    ∀ i, i < h.blocks.length → (h1.block i).length = (h.block i).length

instance (h h1 : Memory) : Decidable (h.grows h1) := by
  unfold Memory.grows; infer_instance

/-- The method `buf.writeUInt32BE(value)` on a `Buffer` in memory: the write is in place. -/
def Memory.writeUInt32BE (h : Memory) (v : View) (value : Nat) : Except Error Memory :=
  match Buffer.writeUInt32BE (h.bytes v) value with
  | .ok b => .ok (h.put v b)
  | .error e => .error e

/-- The method `buf.writeUInt32BE(value)` on a `Buffer` in memory, for a `value` that is a
function or an object. -/
def Memory.writeUInt32BENaN (h : Memory) (v : View) : Except Error Memory :=
  match Buffer.writeUInt32BENaN (h.bytes v) with
  | .ok b => .ok (h.put v b)
  | .error e => .error e

/-- The object `this.raw`, each field the `Buffer` object it refers to. -/
structure RawViews where
  magic : View
  version : View
  type : View
  size : View
  hash : View
  data : Option View
  deriving DecidableEq, Repr

/-- A `Message` object: the `Buffer`s `this.raw` refers to, and `this['@type']`. -/
structure Envelope where
  raw : RawViews
  atType : Option String
  deriving DecidableEq, Repr

/-- What the envelope reads as in memory `h`. -/
def Envelope.snapshot (h : Memory) (e : Envelope) : Message :=
  { raw := {
      magic := h.bytes e.raw.magic
      version := h.bytes e.raw.version
      type := h.bytes e.raw.type
      size := h.bytes e.raw.size
      hash := h.bytes e.raw.hash
      data := e.raw.data.map h.bytes }
    atType := e.atType }

/-- A value assigned to `data`: absent, a string, or a `Buffer` object. -/
inductive Arg where
  | undefined
  | string (s : JSString)
  | buffer (v : View)
  deriving DecidableEq, Repr

/-- What the argument reads as in memory `h`. -/
def Arg.value (h : Memory) : Arg → Value
  | .undefined => .undefined
  | .string s => .string s
  | .buffer v => .buffer (h.bytes v)

/-- The argument is well-typed: the elements of a string are 16-bit code units, a `Buffer`
lies within its allocation. -/
def Arg.valid (h : Memory) : Arg → Prop
  | .undefined => True
  | .string s => ∀ u ∈ s, u < 65536
  | .buffer v => v.inside h

instance (h : Memory) (a : Arg) : Decidable (a.valid h) := by
  cases a <;> unfold Arg.valid <;> infer_instance

/-- What a setter leaves behind: memory and the object after the call, and the exception it
threw, if any. -/
structure Effect where
  memory : Memory
  envelope : Envelope
  thrown : Option Error
  deriving DecidableEq, Repr

/-- The constructor, `new Message()`: five allocations of zero bytes, then magic and version
written big-endian. -/
def Envelope.new (cs : Constants) (h : Memory) : Except Error (Memory × Envelope) := do
  let magic := h.alloc (Buffer.alloc 4)
  let version := magic.1.alloc (Buffer.alloc 4)
  let type := version.1.alloc (Buffer.alloc 4)
  let size := type.1.alloc (Buffer.alloc 4)
  let hash := size.1.alloc (Buffer.alloc 32)
  let h ← hash.1.writeUInt32BE magic.2 cs.MAGIC_BYTES
  let h ← h.writeUInt32BE version.2 cs.VERSION_NUMBER
  pure (h, {
    raw := {
      magic := magic.2
      version := version.2
      type := type.2
      size := size.2
      hash := hash.2
      data := none }
    atType := none })

/-- The setter of `type`: the code is written in place, through `this.raw.type`. -/
def Envelope.setType (cs : Constants) (h : Memory) (e : Envelope) (value : String) : Effect :=
  match Message.typesLookup cs value with
  | .undefined => ⟨h, e, some (.unknownType value)⟩
  | .number code =>
    if code = 0 then ⟨h, e, some (.unknownType value)⟩
    else
      match h.writeUInt32BE e.raw.type code with
      | .ok h1 => ⟨h1, { e with atType := some value }, none⟩
      | .error err => ⟨h, { e with atType := some value }, some err⟩
  | .inherited =>
    match h.writeUInt32BENaN e.raw.type with
    | .ok h1 => ⟨h1, { e with atType := some value }, none⟩
    | .error err => ⟨h, { e with atType := some value }, some err⟩

/-- The setter of `data`: `hash.digest()` and `Buffer.from(value)` are new allocations, which
`this.raw.hash` and `this.raw.data` then refer to (`Buffer.from` copies a `Buffer`); the length
is written in place, through `this.raw.size`. -/
def Envelope.setData (h : Memory) (e : Envelope) (arg : Arg) : Effect :=
  let value := if (arg.value h).falsy then Value.string [] else arg.value h
  let hash := h.alloc (sha256 (utf8Write value.toStringUtf8))
  let data := hash.1.alloc (Buffer.ofValue value)
  let e1 : Envelope := { e with raw := { e.raw with hash := hash.2, data := some data.2 } }
  match data.1.writeUInt32BE e.raw.size (Buffer.ofValue value).length with
  | .ok h1 => ⟨h1, e1, none⟩
  | .error err => ⟨data.1, e1, some err⟩

/-- The static method `fromRaw(input)`: the header fields are `input.slice(...)`, windows on
the caller's buffer; the `data` setter then copies the payload slice and writes its length
through the size window, that is into bytes 12..15 of `input`. -/
def Envelope.fromRaw (cs : Constants) (h : Memory) (input : Option View) :
    Except Error (Memory × Option Envelope) :=
  match input with
  | none => .ok (h, none)
  | some input => do
    let (h, message) ← Envelope.new cs h
    let message : Envelope := { message with
      raw := {
        magic := input.slice 0 4
        version := input.slice 4 8
        type := input.slice 8 12
        size := input.slice 12 16
        hash := input.slice 16 48
        data := none } }
    let size ← Buffer.readUInt32BE (h.bytes message.raw.size)
    let after := message.setData h (.buffer (input.slice HEADER_SIZE (HEADER_SIZE + size)))
    match after.thrown with
    | none => pure (after.memory, some after.envelope)
    | some err => throw err

/-- The static method `fromVector(vector)`. -/
def Envelope.fromVector (cs : Constants) (h : Memory) (type : String) (data : Arg) :
    Except Error (Memory × Envelope) := do
  let (h, message) ← Envelope.new cs h
  let typed := message.setType cs h type
  match typed.thrown with
  | some err => throw err
  | none =>
    let filled := typed.envelope.setData typed.memory data
    match filled.thrown with
    | some err => throw err
    | none => pure (filled.memory, filled.envelope)

/-- The `Buffer`s other code must not write for `size` to stay what the `data` setter wrote. -/
def Envelope.sizeField (e : Envelope) : List View := [e.raw.size]

/-- The `Buffer`s the `data` setter fills: size, hash and payload. -/
def Envelope.dataFields (e : Envelope) : List View :=
  [e.raw.size, e.raw.hash] ++ e.raw.data.toList

/-- No `Buffer` at all: other code may write anywhere. -/
def Envelope.noField (_ : Envelope) : List View := []

/-- Envelopes a caller can hold, and the memory they live in: what the constructor,
`fromVector` and `fromRaw` return, the envelope after a `type =` or `data =` assignment,
whether it completed or threw, and the envelope after any other code has run. Other code
allocates and writes in place at will (it may hold the buffer once given to `fromRaw`, another
envelope parsed from it, or `raw` itself), except that it leaves the bytes of the buffers
listed by `guard` as they are. -/
inductive Live (cs : Constants) (guard : Envelope → List View) : Memory → Envelope → Prop where
  | new {h h1 : Memory} {e : Envelope} (made : Envelope.new cs h = .ok (h1, e)) :
      Live cs guard h1 e
  | fromVector {h h1 : Memory} {n : String} {a : Arg} {e : Envelope} (typed : a.valid h)
      (made : Envelope.fromVector cs h n a = .ok (h1, e)) : Live cs guard h1 e
  | fromRaw {h h1 : Memory} {input : View} {e : Envelope} (within : input.inside h)
      (made : Envelope.fromRaw cs h (some input) = .ok (h1, some e)) : Live cs guard h1 e
  | setType {h : Memory} {e : Envelope} (n : String) (before : Live cs guard h e) :
      Live cs guard (e.setType cs h n).memory (e.setType cs h n).envelope
  | setData {h : Memory} {e : Envelope} (a : Arg) (typed : a.valid h)
      (before : Live cs guard h e) :
      Live cs guard (e.setData h a).memory (e.setData h a).envelope
  | elsewhere {h h1 : Memory} {e : Envelope} (before : Live cs guard h e) (grown : h.grows h1)
      (kept : ∀ v ∈ guard e, h1.bytes v = h.bytes v) : Live cs guard h1 e

/-- The four header fields an envelope keeps for life: each lies within its allocation and is
4 bytes wide; the type field and the size field, which the setters write in place, share no
byte with each other, with magic or with version. -/
def Framed (h : Memory) (e : Envelope) : Prop :=
  (e.raw.magic.inside h ∧ e.raw.magic.len = 4) ∧
  (e.raw.version.inside h ∧ e.raw.version.len = 4) ∧
  (e.raw.type.inside h ∧ e.raw.type.len = 4) ∧
  (e.raw.size.inside h ∧ e.raw.size.len = 4) ∧
  (e.raw.magic.apart e.raw.type ∧ e.raw.version.apart e.raw.type ∧
    e.raw.size.apart e.raw.type) ∧
  (e.raw.magic.apart e.raw.size ∧ e.raw.version.apart e.raw.size ∧
    e.raw.type.apart e.raw.size)

/-- The invariant of envelopes in memory: the four header fields are as `Framed` says, the hash
field is 32 bytes wide, and hash field and payload lie within their allocations and share no
byte with the type field or the size field. -/
def Wide (h : Memory) (e : Envelope) : Prop :=
  Framed h e ∧
  (e.raw.hash.inside h ∧ e.raw.hash.len = 32 ∧ e.raw.hash.apart e.raw.type ∧
    e.raw.hash.apart e.raw.size) ∧
  ∀ d, e.raw.data = some d → d.inside h ∧ d.apart e.raw.type ∧ d.apart e.raw.size

/-- The header fields have their fixed widths 4, 4, 4, 4 and 32. -/
def FixedWidth (m : Message) : Prop :=
  m.raw.magic.length = 4 ∧ m.raw.version.length = 4 ∧ m.raw.type.length = 4 ∧
    m.raw.size.length = 4 ∧ m.raw.hash.length = 32

instance (m : Message) : Decidable (FixedWidth m) := by
  unfold FixedWidth; infer_instance

/-- A 53-byte message on the wire: magic, version 1, type `P2P_PING`, size 5, 32 hash bytes
(zero) and the payload `'hello'`. -/
def sampleWire : Bytes :=
  [0xC0, 0xD3, 0xF3, 0x3D] ++ [0, 0, 0, 1] ++ [0, 0, 0, 0x12] ++ [0, 0, 0, 5] ++
    Buffer.alloc 32 ++ sampleHello

/-- Memory holding two buffers, each with the bytes of `sampleWire`. -/
def sampleMemory : Memory := ⟨[sampleWire, sampleWire]⟩

/-- The first buffer in `sampleMemory`. -/
def sampleInput : View := ⟨0, 0, 53⟩

/-- The second buffer in `sampleMemory`. -/
def sampleCopy : View := ⟨1, 0, 53⟩

/-- Memory holding two 48-byte buffers that differ in their first four bytes only: magic
`01 01 01 01` and magic `02 02 02 02`, then zero bytes (size 0, no payload). -/
def sampleMagics : Memory := ⟨[[1, 1, 1, 1] ++ List.replicate 44 0, [2, 2, 2, 2] ++ List.replicate 44 0]⟩

/-! ## Platform lemmas -/

theorem readUInt32BE_uint32BE (n : Nat) (rest : Bytes) (h : n < 4294967296) :
    Buffer.readUInt32BE (uint32BE n ++ rest) = .ok n := by
  simp only [uint32BE, Buffer.readUInt32BE, List.cons_append, List.nil_append]
  congr 1
  omega

theorem writeUInt32BE_ok (b : Bytes) (n : Nat) (hb : 4 ≤ b.length) (hn : n < 4294967296) :
    Buffer.writeUInt32BE b n = .ok (uint32BE n ++ b.drop 4) := by
  match b, hb with
  | _ :: _ :: _ :: _ :: rest, _ =>
    have : ¬ n > 4294967295 := by omega
    simp [Buffer.writeUInt32BE, this]

theorem readUInt32BE_length {b : Bytes} {n : Nat} (h : Buffer.readUInt32BE b = .ok n) :
    4 ≤ b.length := by
  match b, h with
  | _ :: _ :: _ :: _ :: rest, _ => simp

theorem readUInt32BE_lt {b : Bytes} {n : Nat} (hb : IsBytes b)
    (h : Buffer.readUInt32BE b = .ok n) : n < 4294967296 := by
  match b, h with
  | b0 :: b1 :: b2 :: b3 :: rest, h =>
    simp only [Buffer.readUInt32BE, Except.ok.injEq] at h
    have h0 := hb b0 (by simp)
    have h1 := hb b1 (by simp)
    have h2 := hb b2 (by simp)
    have h3 := hb b3 (by simp)
    omega

theorem slice_length (b : Bytes) (i j : Nat) :
    (Buffer.slice b i j).length = min j b.length - i := by
  simp [Buffer.slice]

theorem isBytes_slice {b : Bytes} (hb : IsBytes b) (i j : Nat) : IsBytes (Buffer.slice b i j) := by
  intro x hx
  exact hb x (List.mem_of_mem_take (List.mem_of_mem_drop hx))

theorem sha256Round_length (s : List Nat) (kw : Nat × Nat) :
    (sha256Round s kw).length = s.length := by
  unfold sha256Round
  split <;> simp

theorem foldl_sha256Round_length (l : List (Nat × Nat)) (s : List Nat) :
    (l.foldl sha256Round s).length = s.length := by
  induction l generalizing s with
  | nil => rfl
  | cons kw l ih => simp [List.foldl, ih, sha256Round_length]

theorem sha256Compress_length (h : List Nat) (block : Bytes) :
    (sha256Compress h block).length = h.length := by
  simp [sha256Compress, foldl_sha256Round_length]

theorem sha256Blocks_length (n : Nat) (h : List Nat) (bytes : Bytes) :
    (sha256Blocks n h bytes).length = h.length := by
  induction n generalizing h bytes with
  | zero => rfl
  | succ n ih => simp [sha256Blocks, ih, sha256Compress_length]

theorem flatMap_wordBytes_length (l : List Nat) : (l.flatMap wordBytes).length = 4 * l.length := by
  induction l with
  | nil => rfl
  | cons w l ih => simp [List.flatMap_cons, wordBytes, ih]; omega

/-- A SHA-256 digest is 32 bytes long. -/
theorem sha256_length (msg : Bytes) : (sha256 msg).length = 32 := by
  rw [sha256, flatMap_wordBytes_length, sha256Blocks_length]
  rfl

/-! ## Envelope lemmas -/

theorem new_eq (cs : Constants) (hm : cs.MAGIC_BYTES < 4294967296)
    (hv : cs.VERSION_NUMBER < 4294967296) :
    Message.new cs = .ok
      { raw := {
          magic := uint32BE cs.MAGIC_BYTES
          version := uint32BE cs.VERSION_NUMBER
          type := Buffer.alloc 4
          size := Buffer.alloc 4
          hash := Buffer.alloc 32
          data := none }
        atType := none } := by
  have h1 : ¬ cs.MAGIC_BYTES > 4294967295 := by omega
  have h2 : ¬ cs.VERSION_NUMBER > 4294967295 := by omega
  simp [Message.new, Buffer.writeUInt32BE, Buffer.alloc, List.replicate, h1, h2, bind, Except.bind, pure,
    Except.pure]

theorem new_error (cs : Constants) (e : Error) (h : Message.new cs = .error e) :
    e = .rangeError := by
  by_cases h1 : cs.MAGIC_BYTES > 4294967295
  · simp [Message.new, Buffer.writeUInt32BE, h1, bind, Except.bind] at h
    exact h.symm
  · by_cases h2 : cs.VERSION_NUMBER > 4294967295
    · simp [Message.new, Buffer.writeUInt32BE, Buffer.alloc, List.replicate, h1, h2, bind,
        Except.bind] at h
      exact h.symm
    · simp [Message.new, Buffer.writeUInt32BE, Buffer.alloc, List.replicate, h1, h2, bind,
        Except.bind, pure, Except.pure] at h

theorem setData_buffer (m : Message) (p : Bytes) (hsize : 4 ≤ m.raw.size.length)
    (hp : p.length < 4294967296) :
    m.setData (.buffer p) =
      ⟨{ m with raw := { m.raw with
          hash := sha256 (utf8Write (utf8Slice p))
          data := some p
          size := uint32BE p.length ++ m.raw.size.drop 4 } }, none⟩ := by
  simp [Message.setData, Value.falsy, Value.toStringUtf8, Buffer.ofValue,
    writeUInt32BE_ok _ _ hsize hp]

theorem fromRaw_eq (cs : Constants) (input : Bytes) (s : Nat)
    (hm : cs.MAGIC_BYTES < 4294967296) (hv : cs.VERSION_NUMBER < 4294967296)
    (hs : Buffer.readUInt32BE (Buffer.slice input 12 16) = .ok s)
    (hp : (Buffer.slice input 48 (48 + s)).length < 4294967296) :
    Message.fromRaw cs (some input) = .ok (some
      { raw := {
          magic := Buffer.slice input 0 4
          version := Buffer.slice input 4 8
          type := Buffer.slice input 8 12
          size := uint32BE (Buffer.slice input 48 (48 + s)).length
          hash := sha256 (utf8Write (utf8Slice (Buffer.slice input 48 (48 + s))))
          data := some (Buffer.slice input 48 (48 + s)) }
        atType := none }) := by
  have h4 := readUInt32BE_length hs
  have h4' : (Buffer.slice input 12 16).length ≤ 4 := by rw [slice_length]; omega
  have hdrop : (Buffer.slice input 12 16).drop 4 = [] := by
    apply List.drop_eq_nil_of_le; exact h4'
  simp only [Message.fromRaw, new_eq cs hm hv, bind, Except.bind, hs, HEADER_SIZE]
  rw [setData_buffer _ _ h4 hp]
  simp [Outcome.result, hdrop, pure, Except.pure]

theorem slice_append (pre mid post : Bytes) :
    Buffer.slice (pre ++ mid ++ post) pre.length (pre.length + mid.length) = mid := by
  unfold Buffer.slice
  rw [List.take_left' (by simp), List.drop_left' rfl]

theorem uint32BE_length (n : Nat) : (uint32BE n).length = 4 := rfl

theorem setData_eq (m : Message) (v : Value) (hsize : 4 ≤ m.raw.size.length)
    (hp : (Buffer.ofValue v).length < 4294967296) :
    m.setData v =
      ⟨{ m with raw := { m.raw with
          hash := sha256 (utf8Write v.toStringUtf8)
          data := some (Buffer.ofValue v)
          size := uint32BE (Buffer.ofValue v).length ++ m.raw.size.drop 4 } }, none⟩ := by
  cases v with
  | undefined =>
    simp [Message.setData, Value.falsy, Value.toStringUtf8, Buffer.ofValue, utf8Write,
      writeUInt32BE_ok _ _ hsize]
  | string s =>
    cases s with
    | nil =>
      simp [Message.setData, Value.falsy, Value.toStringUtf8, Buffer.ofValue, utf8Write,
        writeUInt32BE_ok _ _ hsize]
    | cons u rest =>
      simp only [Buffer.ofValue] at hp
      simp [Message.setData, Value.falsy, Value.toStringUtf8, Buffer.ofValue,
        writeUInt32BE_ok _ _ hsize hp]
  | buffer b =>
    simp only [Buffer.ofValue] at hp
    simp [Message.setData, Value.falsy, Value.toStringUtf8, Buffer.ofValue,
      writeUInt32BE_ok _ _ hsize hp]

theorem setType_eq (cs : Constants) (m : Message) (n : String) (code : Nat)
    (hn : (Message.types cs).lookup n = some code) (h0 : code ≠ 0) (hc : code < 4294967296)
    (ht : 4 ≤ m.raw.type.length) :
    m.setType cs n =
      ⟨{ m with atType := some n, raw := { m.raw with type := uint32BE code ++ m.raw.type.drop 4 } },
        none⟩ := by
  simp [Message.setType, Message.typesLookup, hn, h0, writeUInt32BE_ok _ _ ht hc]

theorem fromVector_eq (cs : Constants) (n : String) (code : Nat) (v : Value)
    (hm : cs.MAGIC_BYTES < 4294967296) (hv : cs.VERSION_NUMBER < 4294967296)
    (hn : (Message.types cs).lookup n = some code) (h0 : code ≠ 0) (hc : code < 4294967296)
    (hp : (Buffer.ofValue v).length < 4294967296) :
    Message.fromVector cs n v = .ok
      { raw := {
          magic := uint32BE cs.MAGIC_BYTES
          version := uint32BE cs.VERSION_NUMBER
          type := uint32BE code
          size := uint32BE (Buffer.ofValue v).length
          hash := sha256 (utf8Write v.toStringUtf8)
          data := some (Buffer.ofValue v) }
        atType := some n } := by
  simp only [Message.fromVector, new_eq cs hm hv, bind, Except.bind]
  rw [setType_eq cs _ n code hn h0 hc (by simp [Buffer.alloc])]
  simp only [Outcome.result]
  rw [setData_eq _ v (by simp [Buffer.alloc]) hp]
  simp [Buffer.alloc, pure, Except.pure]

/-- Parsing the wire form of an envelope whose integer fields are 4 bytes long, whose hash is
32 bytes long and whose size field encodes the payload length. -/
theorem fromRaw_wire (cs : Constants) (a b c h p : Bytes)
    (hm : cs.MAGIC_BYTES < 4294967296) (hv : cs.VERSION_NUMBER < 4294967296)
    (ha : a.length = 4) (hb : b.length = 4) (hc : c.length = 4) (hh : h.length = 32)
    (hp : p.length < 4294967296) :
    Message.fromRaw cs (some (a ++ b ++ c ++ uint32BE p.length ++ h ++ p)) = .ok (some
      { raw := {
          magic := a
          version := b
          type := c
          size := uint32BE p.length
          hash := sha256 (utf8Write (utf8Slice p))
          data := some p }
        atType := none }) := by
  have e0 : Buffer.slice (a ++ b ++ c ++ uint32BE p.length ++ h ++ p) 0 4 = a := by
    have := slice_append [] a (b ++ c ++ uint32BE p.length ++ h ++ p)
    simpa [ha, List.append_assoc] using this
  have e1 : Buffer.slice (a ++ b ++ c ++ uint32BE p.length ++ h ++ p) 4 8 = b := by
    have := slice_append a b (c ++ uint32BE p.length ++ h ++ p)
    simpa [ha, hb, List.append_assoc] using this
  have e2 : Buffer.slice (a ++ b ++ c ++ uint32BE p.length ++ h ++ p) 8 12 = c := by
    have := slice_append (a ++ b) c (uint32BE p.length ++ h ++ p)
    simpa [ha, hb, hc, List.append_assoc] using this
  have e3 : Buffer.slice (a ++ b ++ c ++ uint32BE p.length ++ h ++ p) 12 16
      = uint32BE p.length := by
    have := slice_append (a ++ b ++ c) (uint32BE p.length) (h ++ p)
    simpa [ha, hb, hc, uint32BE_length, List.append_assoc] using this
  have e4 : Buffer.slice (a ++ b ++ c ++ uint32BE p.length ++ h ++ p) 48 (48 + p.length) = p := by
    have := slice_append (a ++ b ++ c ++ uint32BE p.length ++ h) p []
    simpa [ha, hb, hc, hh, uint32BE_length, List.append_assoc] using this
  have hs : Buffer.readUInt32BE (Buffer.slice (a ++ b ++ c ++ uint32BE p.length ++ h ++ p) 12 16)
      = .ok p.length := by
    rw [e3]
    simpa using readUInt32BE_uint32BE p.length [] hp
  rw [fromRaw_eq cs _ p.length hm hv hs (by rw [e4]; exact hp), e0, e1, e2, e4]

theorem readUInt32BE_slice (input : Bytes) :
    Buffer.readUInt32BE (Buffer.slice input 12 16) = Buffer.readUInt32BE (input.drop 12) := by
  unfold Buffer.slice
  rw [List.drop_take]
  generalize input.drop 12 = l
  match l with
  | [] => rfl
  | [_] => rfl
  | [_, _] => rfl
  | [_, _, _] => rfl
  | _ :: _ :: _ :: _ :: rest => rfl

/-! ## UTF-8: decoding what was encoded -/

theorem utf8Slice_one (b0 : Nat) (rest : Bytes) (h0 : b0 < 0x80) :
    utf8Slice (b0 :: rest) = b0 :: utf8Slice rest := by
  rw [utf8Slice.eq_def]
  simp only [h0, if_true]

theorem utf8Slice_two (b0 b1 : Nat) (rest : Bytes) (h0 : 0xC2 ≤ b0 ∧ b0 ≤ 0xDF)
    (h1 : isCont b1) :
    utf8Slice (b0 :: b1 :: rest) = ((b0 - 0xC0) * 64 + (b1 - 0x80)) :: utf8Slice rest := by
  have n0 : ¬ b0 < 0x80 := by omega
  rw [utf8Slice.eq_def]
  simp only [n0, h0, h1, if_true, if_false, and_self]

theorem utf8Slice_three (b0 b1 b2 : Nat) (rest : Bytes) (h0 : 0xE0 ≤ b0 ∧ b0 ≤ 0xEF)
    (h1 : isSecond3 b0 b1) (h2 : isCont b2) :
    utf8Slice (b0 :: b1 :: b2 :: rest) =
      ((b0 - 0xE0) * 4096 + (b1 - 0x80) * 64 + (b2 - 0x80)) :: utf8Slice rest := by
  have n0 : ¬ b0 < 0x80 := by omega
  have n1 : ¬ (0xC2 ≤ b0 ∧ b0 ≤ 0xDF) := by omega
  rw [utf8Slice.eq_def]
  simp only [n0, n1, h0, h1, h2, if_true, if_false, and_self]

theorem utf8Slice_four (b0 b1 b2 b3 : Nat) (rest : Bytes) (h0 : 0xF0 ≤ b0 ∧ b0 ≤ 0xF4)
    (h1 : isSecond4 b0 b1) (h2 : isCont b2) (h3 : isCont b3) :
    utf8Slice (b0 :: b1 :: b2 :: b3 :: rest) =
      utf16CodePoint ((b0 - 0xF0) * 262144 + (b1 - 0x80) * 4096 + (b2 - 0x80) * 64 + (b3 - 0x80))
        ++ utf8Slice rest := by
  have n0 : ¬ b0 < 0x80 := by omega
  have n1 : ¬ (0xC2 ≤ b0 ∧ b0 ≤ 0xDF) := by omega
  have n2 : ¬ (0xE0 ≤ b0 ∧ b0 ≤ 0xEF) := by omega
  rw [utf8Slice.eq_def]
  simp only [n0, n1, n2, h0, h1, h2, h3, if_true, if_false, and_self]

/-- Decoding the UTF-8 form of a scalar value yields its UTF-16 form. -/
theorem utf8Slice_utf8CodePoint (c : Nat) (rest : Bytes)
    (hc : c < 0xD800 ∨ (0xE000 ≤ c ∧ c < 0x110000)) :
    utf8Slice (utf8CodePoint c ++ rest) = utf16CodePoint c ++ utf8Slice rest := by
  unfold utf8CodePoint
  by_cases h1 : c < 0x80
  · have h3 : c < 0x10000 := by omega
    simp only [h1, if_true, List.cons_append, List.nil_append, utf16CodePoint, h3]
    exact utf8Slice_one c rest h1
  · by_cases h2 : c < 0x800
    · have h3 : c < 0x10000 := by omega
      have a2 : 0xC2 ≤ 0xC0 + c / 64 ∧ 0xC0 + c / 64 ≤ 0xDF := by omega
      have a3 : isCont (0x80 + c % 64) := by unfold isCont; omega
      have a4 : (0xC0 + c / 64 - 0xC0) * 64 + (0x80 + c % 64 - 0x80) = c := by omega
      simp only [h1, h2, if_true, if_false, List.cons_append, List.nil_append, utf16CodePoint, h3]
      rw [utf8Slice_two _ _ _ a2 a3, a4]
    · by_cases h3 : c < 0x10000
      · have a3 : 0xE0 ≤ 0xE0 + c / 4096 ∧ 0xE0 + c / 4096 ≤ 0xEF := by omega
        have a4 : isSecond3 (0xE0 + c / 4096) (0x80 + c / 64 % 64) := by
          unfold isSecond3
          split <;> split <;> omega
        have a5 : isCont (0x80 + c % 64) := by unfold isCont; omega
        have a6 : (0xE0 + c / 4096 - 0xE0) * 4096 + (0x80 + c / 64 % 64 - 0x80) * 64
            + (0x80 + c % 64 - 0x80) = c := by omega
        simp only [h1, h2, h3, if_true, if_false, List.cons_append, List.nil_append,
          utf16CodePoint]
        rw [utf8Slice_three _ _ _ _ a3 a4 a5, a6]
      · have a4 : 0xF0 ≤ 0xF0 + c / 262144 ∧ 0xF0 + c / 262144 ≤ 0xF4 := by omega
        have a5 : isSecond4 (0xF0 + c / 262144) (0x80 + c / 4096 % 64) := by
          unfold isSecond4
          split <;> split <;> omega
        have a6 : isCont (0x80 + c / 64 % 64) := by unfold isCont; omega
        have a7 : isCont (0x80 + c % 64) := by unfold isCont; omega
        have a8 : (0xF0 + c / 262144 - 0xF0) * 262144 + (0x80 + c / 4096 % 64 - 0x80) * 4096
            + (0x80 + c / 64 % 64 - 0x80) * 64 + (0x80 + c % 64 - 0x80) = c := by omega
        simp only [h1, h2, h3, if_false, List.cons_append, List.nil_append]
        rw [utf8Slice_four _ _ _ _ _ a4 a5 a6 a7, a8]

theorem isWellFormed_cons (u : Nat) (rest : JSString) (hu : ¬ (0xD800 ≤ u ∧ u < 0xDC00)) :
    isWellFormed (u :: rest) =
      (decide (u < 0xD800 ∨ (0xE000 ≤ u ∧ u < 0x10000)) && isWellFormed rest) := by
  rw [isWellFormed.eq_def]
  simp only [hu, if_false]

theorem utf8Write_cons (u : Nat) (rest : JSString) (hu : ¬ (0xD800 ≤ u ∧ u < 0xDC00))
    (hl : ¬ (0xDC00 ≤ u ∧ u < 0xE000)) :
    utf8Write (u :: rest) = utf8CodePoint u ++ utf8Write rest := by
  rw [utf8Write.eq_def]
  simp only [hu, hl, if_false]

/-- Well-formed text survives the trip through UTF-8: `Buffer.from(s).toString('utf8')` is `s`. -/
theorem utf8Slice_utf8Write (s : JSString) (hs : isWellFormed s = true) :
    utf8Slice (utf8Write s) = s := by
  induction s using utf8Write.induct with
  | case1 => rfl
  | case2 u hu v rest hv ih =>
    have hw : isWellFormed rest = true := by
      simp only [isWellFormed, hu, hv, and_self, if_true, decide_True, Bool.true_and] at hs
      exact hs
    have hc : 0x10000 + (u - 0xD800) * 1024 + (v - 0xDC00) < 0xD800 ∨
        (0xE000 ≤ 0x10000 + (u - 0xD800) * 1024 + (v - 0xDC00) ∧
          0x10000 + (u - 0xD800) * 1024 + (v - 0xDC00) < 0x110000) := by omega
    have h16 : utf16CodePoint (0x10000 + (u - 0xD800) * 1024 + (v - 0xDC00)) = [u, v] := by
      unfold utf16CodePoint
      have n : ¬ (0x10000 + (u - 0xD800) * 1024 + (v - 0xDC00) < 0x10000) := by omega
      have e1 : 0xD800 + (0x10000 + (u - 0xD800) * 1024 + (v - 0xDC00) - 0x10000) / 1024 = u := by
        omega
      have e2 : 0xDC00 + (0x10000 + (u - 0xD800) * 1024 + (v - 0xDC00) - 0x10000) % 1024 = v := by
        omega
      simp only [n, if_false, e1, e2]
    simp only [utf8Write, hu, hv, if_true, and_self]
    rw [utf8Slice_utf8CodePoint _ _ hc, h16, ih hw]
    rfl
  | case3 u hu v rest hv ih =>
    simp [isWellFormed, hu, hv] at hs
  | case4 u hu =>
    simp [isWellFormed, hu] at hs
  | case5 u rest hu hl ih =>
    exfalso
    rw [isWellFormed_cons u rest hu] at hs
    simp only [Bool.and_eq_true, decide_eq_true_eq] at hs
    omega
  | case6 u rest hu hl ih =>
    rw [isWellFormed_cons u rest hu] at hs
    simp only [Bool.and_eq_true, decide_eq_true_eq] at hs
    have hc : u < 0xD800 ∨ (0xE000 ≤ u ∧ u < 0x110000) := by omega
    have h16 : utf16CodePoint u = [u] := by
      unfold utf16CodePoint
      have : u < 0x10000 := by omega
      simp only [this, if_true]
    rw [utf8Write_cons u rest hu hl, utf8Slice_utf8CodePoint _ _ hc, h16, ih hs.2]
    rfl

/-- A name found neither in the registry nor on `Object.prototype` is rejected, and the
envelope is left as it was. -/
theorem setType_unknown (cs : Constants) (m : Message) (n : String)
    (h1 : (Message.types cs).lookup n = none) (h2 : n ∉ objectPrototypeKeys) :
    m.setType cs n = ⟨m, some (.unknownType n)⟩ := by
  simp [Message.setType, Message.typesLookup, h1, h2]

/-- For a text payload the stored hash is SHA-256 of the stored payload. -/
theorem setData_hash_string (m : Message) (s : JSString) :
    (m.setData (.string s)).message.raw.data = some (utf8Write s) ∧
      (m.setData (.string s)).message.raw.hash = sha256 (utf8Write s) := by
  cases s with
  | nil =>
    simp only [Message.setData, Value.falsy, List.isEmpty, if_true, Value.toStringUtf8,
      Buffer.ofValue]
    split <;> exact ⟨rfl, rfl⟩
  | cons u rest =>
    simp only [Message.setData, Value.falsy, List.isEmpty, Value.toStringUtf8, Buffer.ofValue]
    split <;> exact ⟨rfl, rfl⟩

/-! ## The claims -/

/-- C1 (round trip). For every type name `n` the registry maps to a nonzero 32-bit code and
every payload `p` of fewer than `2 ^ 32` bytes, `fromVector([n, p])` builds an envelope `m`,
`m.asRaw()` succeeds, and `fromRaw` of those bytes returns an envelope with the same type
bytes, size bytes, hash and payload as `m`; the payload is `p`. -/
theorem fromRaw_asRaw_roundTrip (cs : Constants) (n : String) (code : Nat) (p : Bytes)
    (hm : cs.MAGIC_BYTES < 4294967296) (hv : cs.VERSION_NUMBER < 4294967296)
    (hn : (Message.types cs).lookup n = some code) (h0 : code ≠ 0) (hc : code < 4294967296)
    (hp : p.length < 4294967296) :
    ∃ m raw r, Message.fromVector cs n (.buffer p) = .ok m ∧ m.asRaw = .ok raw ∧
      Message.fromRaw cs (some raw) = .ok (some r) ∧ m.raw.data = some p ∧
      r.raw.type = m.raw.type ∧ r.raw.size = m.raw.size ∧ r.raw.hash = m.raw.hash ∧
      r.raw.data = m.raw.data :=
  ⟨_, _, _, fromVector_eq cs n code (.buffer p) hm hv hn h0 hc hp, rfl,
    fromRaw_wire cs _ _ _ _ p hm hv rfl rfl rfl (sha256_length _) hp, rfl, rfl, rfl, rfl, rfl⟩

theorem fromRaw_asRaw_roundTrip_witness :
    ∃ m raw r, Message.fromVector sampleConstants "Ping" (.buffer [0, 255, 104]) = .ok m ∧
      m.asRaw = .ok raw ∧ Message.fromRaw sampleConstants (some raw) = .ok (some r) ∧
      m.raw.data = some [0, 255, 104] ∧
      r.raw.type = m.raw.type ∧ r.raw.size = m.raw.size ∧ r.raw.hash = m.raw.hash ∧
      r.raw.data = m.raw.data :=
  fromRaw_asRaw_roundTrip sampleConstants "Ping" 0x12 [0, 255, 104] (by decide) (by decide)
    (by decide) (by decide) (by decide) (by decide)

/-- C2 (hash invariant), at the payload `Buffer.from([0xFF])`: the setter completes and stores
the byte `0xFF`, but the hash it stores is SHA-256 of `EF BF BD`, the UTF-8 form of the
replacement character, which is not SHA-256 of the stored payload. -/
theorem setData_hash_invalid_utf8 :
    ∃ m, Message.new sampleConstants = .ok m ∧
      (m.setData (.buffer [0xFF])).thrown = none ∧
      (m.setData (.buffer [0xFF])).message.raw.data = some [0xFF] ∧
      (m.setData (.buffer [0xFF])).message.raw.hash = sha256 [0xEF, 0xBF, 0xBD] ∧
      (m.setData (.buffer [0xFF])).message.raw.hash ≠ sha256 [0xFF] := by
  refine ⟨_, new_eq sampleConstants (by decide) (by decide), ?_⟩
  rw [setData_buffer _ [0xFF] (by decide) (by decide)]
  have e : utf8Write (utf8Slice [0xFF]) = [0xEF, 0xBF, 0xBD] := by decide
  refine ⟨rfl, rfl, ?_, ?_⟩
  · show sha256 (utf8Write (utf8Slice [0xFF])) = _
    rw [e]
  · show sha256 (utf8Write (utf8Slice [0xFF])) ≠ _
    rw [e]
    decide

/-- C3 (size invariant). On an envelope whose size field holds at least 4 bytes, for every
payload value `p` (absent, text or bytes) whose byte form is shorter than `2 ^ 32`, the `data`
setter completes, stores the byte form of `p`, and the `size` getter then reads the length of
the stored payload; an absent or empty `p` stores the empty payload. -/
theorem setData_size (m : Message) (p : Value) (hsize : 4 ≤ m.raw.size.length)
    (hp : (Buffer.ofValue p).length < 4294967296) :
    ∃ d, (m.setData p).thrown = none ∧ (m.setData p).message.raw.data = some d ∧
      d = Buffer.ofValue p ∧ (m.setData p).message.size = .ok d.length ∧
      (p = .undefined ∨ p = .string [] ∨ p = .buffer [] → d = []) := by
  refine ⟨Buffer.ofValue p, ?_, ?_, rfl, ?_, ?_⟩
  · rw [setData_eq m p hsize hp]
  · rw [setData_eq m p hsize hp]
  · rw [setData_eq m p hsize hp]
    exact readUInt32BE_uint32BE _ _ hp
  · rintro (h | h | h) <;> subst h <;> rfl

theorem setData_size_witness :
    ∃ d, ((Message.mk ⟨[1, 2, 3, 4], [0, 0, 0, 1], [0, 0, 0, 0], [0, 0, 0, 0], [], none⟩ none).setData
        (.string [0x68, 0xE9])).thrown = none ∧
      ((Message.mk ⟨[1, 2, 3, 4], [0, 0, 0, 1], [0, 0, 0, 0], [0, 0, 0, 0], [], none⟩ none).setData
        (.string [0x68, 0xE9])).message.raw.data = some d ∧
      d = Buffer.ofValue (.string [0x68, 0xE9]) ∧
      ((Message.mk ⟨[1, 2, 3, 4], [0, 0, 0, 1], [0, 0, 0, 0], [0, 0, 0, 0], [], none⟩ none).setData
        (.string [0x68, 0xE9])).message.size = .ok d.length ∧
      (Value.string [0x68, 0xE9] = .undefined ∨ Value.string [0x68, 0xE9] = .string [] ∨
        Value.string [0x68, 0xE9] = .buffer [] → d = []) :=
  setData_size (Message.mk ⟨[1, 2, 3, 4], [0, 0, 0, 1], [0, 0, 0, 0], [0, 0, 0, 0], [], none⟩ none)
    (.string [0x68, 0xE9]) (by decide) (by decide)

/-- C4 (type bijection), at the registered pair `('Ping', P2P_PING)`: the setter stores the code
of `'Ping'`, and the getter then reads `'GenericMessage'`, not `'Ping'`: its `switch` has no
case for that code. -/
theorem getType_setType_ping :
    ∃ m, Message.new sampleConstants = .ok m ∧
      (Message.types sampleConstants).lookup "Ping" = some sampleConstants.P2P_PING ∧
      (m.setType sampleConstants "Ping").thrown = none ∧
      (m.setType sampleConstants "Ping").message.raw.type = uint32BE sampleConstants.P2P_PING ∧
      (m.setType sampleConstants "Ping").message.getType sampleConstants = .ok "GenericMessage" := by
  refine ⟨_, new_eq sampleConstants (by decide) (by decide), ?_⟩
  decide

/-- C5 (wire scenario), at `n = 'Ping'`, `s = 'hello'`: `fromVector`, `asRaw` and `fromRaw` all
succeed and the parsed envelope reads `data == 'hello'`, but its `type` reads
`'GenericMessage'`, not `'Ping'`. -/
theorem fromRaw_fromVector_ping_hello :
    ∃ m raw r, Message.fromVector sampleConstants "Ping" (.string [0x68, 0x65, 0x6C, 0x6C, 0x6F]) = .ok m ∧
      m.asRaw = .ok raw ∧ Message.fromRaw sampleConstants (some raw) = .ok (some r) ∧
      r.getData = [0x68, 0x65, 0x6C, 0x6C, 0x6F] ∧
      r.getType sampleConstants = .ok "GenericMessage" :=
  ⟨_, _, _,
    fromVector_eq sampleConstants "Ping" 0x12 (.string [0x68, 0x65, 0x6C, 0x6C, 0x6F]) (by decide)
      (by decide) (by decide) (by decide) (by decide) (by decide),
    rfl,
    fromRaw_wire sampleConstants _ _ _ _ (utf8Write [0x68, 0x65, 0x6C, 0x6C, 0x6F]) (by decide)
      (by decide) rfl rfl rfl (sha256_length _) (by decide),
    by decide, by decide⟩

/-- C6 (null-safety): `fromRaw(undefined)` returns `null`, but `fromRaw` of an empty buffer
raises a `RangeError`, whatever the constants: the empty buffer is truthy, and `readUInt32BE`
finds no 4 bytes in the empty size slice. -/
theorem fromRaw_undefined_and_empty (cs : Constants) :
    Message.fromRaw cs none = .ok none ∧ Message.fromRaw cs (some []) = .error .rangeError := by
  refine ⟨rfl, ?_⟩
  cases hnew : Message.new cs with
  | error e =>
    have := new_error cs e hnew
    subst this
    simp [Message.fromRaw, hnew, bind, Except.bind]
  | ok m =>
    simp [Message.fromRaw, hnew, bind, Except.bind, Buffer.slice, Buffer.readUInt32BE]

/-- C7 (unknown name rejection), at the name `'constructor'`, which is not a registered type
name: `this.types['constructor']` finds the function inherited from `Object.prototype`, the
`!code` test lets it pass, and the assignment completes: no unknown-type error, `'@type'` is
`'constructor'` and the type field is zero. -/
theorem setType_constructor :
    ∃ m, Message.new sampleConstants = .ok m ∧
      (Message.types sampleConstants).lookup "constructor" = none ∧
      m.setType sampleConstants "constructor" =
        ⟨{ m with atType := some "constructor" }, none⟩ := by
  refine ⟨_, new_eq sampleConstants (by decide) (by decide), ?_⟩
  decide

/-- C8 (type write success), at the registered name `'StateRoot'` when the constants give it
the code 0: the `!code` test takes 0 for a missing entry, and the assignment throws the
unknown-type error, leaving the envelope as it was. -/
theorem setType_stateRoot_zero :
    ∃ m, Message.new sampleConstants = .ok m ∧
      (Message.types sampleConstants).lookup "StateRoot" = some 0 ∧
      m.setType sampleConstants "StateRoot" = ⟨m, some (.unknownType "StateRoot")⟩ := by
  refine ⟨_, new_eq sampleConstants (by decide) (by decide), ?_⟩
  decide

/-- C9 (unknown code tolerance). For every code that no registry entry carries, the `type`
getter of an envelope whose type field reads as that code returns `'GenericMessage'` and does
not throw. -/
theorem getType_unregistered (cs : Constants) (m : Message) (code : Nat)
    (hcode : Buffer.readUInt32BE m.raw.type = .ok code)
    (hunreg : ∀ q ∈ Message.types cs, q.2 ≠ code) :
    m.getType cs = .ok "GenericMessage" := by
  have h1 := hunreg ("IdentityRequest", cs.P2P_IDENT_REQUEST) (by simp [Message.types])
  have h2 := hunreg ("IdentityResponse", cs.P2P_IDENT_RESPONSE) (by simp [Message.types])
  have h3 := hunreg ("StateRoot", cs.P2P_STATE_ROOT) (by simp [Message.types])
  have h4 := hunreg ("StateChange", cs.P2P_STATE_CHANGE) (by simp [Message.types])
  simp only [] at h1 h2 h3 h4
  simp [Message.getType, hcode, bind, Except.bind, Ne.symm h1, Ne.symm h2, Ne.symm h3, Ne.symm h4,
    pure, Except.pure]

theorem getType_unregistered_witness :
    ∃ r, Message.fromRaw sampleConstants (some ([0xC0, 0xD3, 0xF3, 0x3D] ++ [0, 0, 0, 1] ++
        [0xFF, 0xFF, 0xFF, 0xFF] ++ uint32BE 0 ++ Buffer.alloc 32 ++ [])) = .ok (some r) ∧
      (∀ q ∈ Message.types sampleConstants, q.2 ≠ 0xFFFFFFFF) ∧
      r.getType sampleConstants = .ok "GenericMessage" :=
  ⟨_, fromRaw_wire sampleConstants _ _ _ _ [] (by decide) (by decide) rfl rfl rfl rfl (by decide),
    by decide,
    getType_unregistered sampleConstants _ 0xFFFFFFFF rfl (by decide)⟩

/-- C10 (fromRaw layout). For every input whose big-endian 32-bit value `s` at offset 12
satisfies `48 + s ≤ len(input)` (so the input has at least 48 bytes), `fromRaw` returns an envelope whose magic is
`input[0:4]`, version `input[4:8]`, type field `input[8:12]` and payload `input[48:48+s]`; no
condition is put on the magic or version bytes. -/
theorem fromRaw_layout (cs : Constants) (input : Bytes) (s : Nat)
    (hm : cs.MAGIC_BYTES < 4294967296) (hv : cs.VERSION_NUMBER < 4294967296)
    (hb : IsBytes input)
    (hs : Buffer.readUInt32BE (input.drop 12) = .ok s) (hfit : 48 + s ≤ input.length) :
    ∃ r, Message.fromRaw cs (some input) = .ok (some r) ∧
      r.raw.magic = Buffer.slice input 0 4 ∧ r.raw.version = Buffer.slice input 4 8 ∧
      r.raw.type = Buffer.slice input 8 12 ∧
      r.raw.data = some (Buffer.slice input 48 (48 + s)) := by
  have hs' : Buffer.readUInt32BE (Buffer.slice input 12 16) = .ok s := by
    rw [readUInt32BE_slice]; exact hs
  have hlt : s < 4294967296 := readUInt32BE_lt (isBytes_slice hb 12 16) hs'
  have hp : (Buffer.slice input 48 (48 + s)).length < 4294967296 := by
    rw [slice_length]; omega
  exact ⟨_, fromRaw_eq cs input s hm hv hs' hp, rfl, rfl, rfl, rfl⟩

theorem fromRaw_layout_witness :
    ∃ r, Message.fromRaw sampleConstants (some (List.replicate 12 7 ++ [0, 0, 0, 2] ++ List.replicate 34 9))
        = .ok (some r) ∧
      r.raw.magic = [7, 7, 7, 7] ∧ r.raw.version = [7, 7, 7, 7] ∧ r.raw.type = [7, 7, 7, 7] ∧
      r.raw.data = some [9, 9] :=
  fromRaw_layout sampleConstants (List.replicate 12 7 ++ [0, 0, 0, 2] ++ List.replicate 34 9) 2
    (by decide) (by decide) (by decide) (by decide) (by decide)

/-! ## Lemmas on the setters, for any outcome -/

theorem new_ok {cs : Constants} {m : Message} (h : Message.new cs = .ok m) :
    cs.MAGIC_BYTES < 4294967296 ∧ cs.VERSION_NUMBER < 4294967296 ∧
      m = { raw := {
              magic := uint32BE cs.MAGIC_BYTES
              version := uint32BE cs.VERSION_NUMBER
              type := Buffer.alloc 4
              size := Buffer.alloc 4
              hash := Buffer.alloc 32
              data := none }
            atType := none } := by
  by_cases h1 : cs.MAGIC_BYTES > 4294967295
  · simp [Message.new, Buffer.writeUInt32BE, h1, bind, Except.bind] at h
  · by_cases h2 : cs.VERSION_NUMBER > 4294967295
    · simp [Message.new, Buffer.writeUInt32BE, Buffer.alloc, List.replicate, h1, h2, bind,
        Except.bind] at h
    · have hm : cs.MAGIC_BYTES < 4294967296 := by omega
      have hv : cs.VERSION_NUMBER < 4294967296 := by omega
      rw [new_eq cs hm hv] at h
      exact ⟨hm, hv, (Except.ok.inj h).symm⟩

theorem writeUInt32BE_inv {b t : Bytes} {v : Nat} (h : Buffer.writeUInt32BE b v = .ok t) :
    v < 4294967296 ∧ 4 ≤ b.length ∧ t = uint32BE v ++ b.drop 4 := by
  unfold Buffer.writeUInt32BE at h
  by_cases hv : v > 4294967295
  · simp [hv] at h
  · simp only [hv, if_false] at h
    match b, h with
    | _ :: _ :: _ :: _ :: rest, h =>
      simp only [Except.ok.injEq] at h
      refine ⟨by omega, by simp, ?_⟩
      simp [← h]

theorem writeUInt32BE_error {b : Bytes} {v : Nat} {e : Error}
    (h : Buffer.writeUInt32BE b v = .error e) : e = .rangeError := by
  unfold Buffer.writeUInt32BE at h
  by_cases hv : v > 4294967295
  · simp only [hv, if_true, Except.error.injEq] at h
    exact h.symm
  · simp only [hv, if_false] at h
    split at h
    · cases h
    · exact (Except.error.inj h).symm

theorem writeUInt32BE_big (b : Bytes) (v : Nat) (hv : ¬ v < 4294967296) :
    Buffer.writeUInt32BE b v = .error .rangeError := by
  have : v > 4294967295 := by omega
  simp [Buffer.writeUInt32BE, this]

theorem writeUInt32BENaN_inv {b t : Bytes} (h : Buffer.writeUInt32BENaN b = .ok t) :
    4 ≤ b.length ∧ t = uint32BE 0 ++ b.drop 4 := by
  match b, h with
  | _ :: _ :: _ :: _ :: rest, h =>
    simp only [Buffer.writeUInt32BENaN, Except.ok.injEq] at h
    refine ⟨by simp, ?_⟩
    simp [← h, uint32BE]

theorem uint32BE_append_drop (v : Nat) (b : Bytes) (hb : b.length = 4) :
    uint32BE v ++ b.drop 4 = uint32BE v := by
  rw [List.drop_eq_nil_of_le (by omega), List.append_nil]

/-- The falsy-value replacement changes neither the text form nor the byte form. -/
theorem setData_unfold (m : Message) (v : Value) :
    m.setData v =
      match Buffer.writeUInt32BE m.raw.size (Buffer.ofValue v).length with
      | .ok size =>
        ⟨{ m with raw := { m.raw with
            hash := sha256 (utf8Write v.toStringUtf8)
            data := some (Buffer.ofValue v)
            size := size } }, none⟩
      | .error e =>
        ⟨{ m with raw := { m.raw with
            hash := sha256 (utf8Write v.toStringUtf8)
            data := some (Buffer.ofValue v) } }, some e⟩ := by
  cases v with
  | undefined => rfl
  | string s =>
    cases s with
    | nil => rfl
    | cons u rest => rfl
  | buffer b => rfl

/-! ## UTF-8: encoding is stable under a decode and encode -/

theorem utf8Write_pair (u v : Nat) (rest : JSString) (hu : 0xD800 ≤ u ∧ u < 0xDC00)
    (hv : 0xDC00 ≤ v ∧ v < 0xE000) :
    utf8Write (u :: v :: rest) =
      utf8CodePoint (0x10000 + (u - 0xD800) * 1024 + (v - 0xDC00)) ++ utf8Write rest := by
  rw [utf8Write.eq_def]
  simp only [hu, hv, if_true, and_self]

theorem utf8Slice_replacement (rest : Bytes) :
    utf8Slice (utf8Replacement ++ rest) = 0xFFFD :: utf8Slice rest :=
  utf8Slice_utf8CodePoint 0xFFFD rest (by omega)

theorem utf8Write_replacement (rest : JSString) :
    utf8Write (0xFFFD :: rest) = utf8Replacement ++ utf8Write rest :=
  utf8Write_cons 0xFFFD rest (by omega) (by omega)

/-- Encoding a string, decoding the bytes and encoding again gives the bytes of the first
encoding: what `utf8Write` produces is well-formed UTF-8. -/
theorem utf8Write_utf8Slice_utf8Write (s : JSString) (hs : ∀ u ∈ s, u < 65536) :
    utf8Write (utf8Slice (utf8Write s)) = utf8Write s := by
  induction s using utf8Write.induct with
  | case1 => rfl
  | case2 u hu v rest hv ih =>
    have hrest : ∀ x ∈ rest, x < 65536 := fun x hx => hs x (by simp [hx])
    have hc : 0x10000 + (u - 0xD800) * 1024 + (v - 0xDC00) < 0xD800 ∨
        (0xE000 ≤ 0x10000 + (u - 0xD800) * 1024 + (v - 0xDC00) ∧
          0x10000 + (u - 0xD800) * 1024 + (v - 0xDC00) < 0x110000) := by omega
    have h16 : utf16CodePoint (0x10000 + (u - 0xD800) * 1024 + (v - 0xDC00)) = [u, v] := by
      unfold utf16CodePoint
      have n : ¬ (0x10000 + (u - 0xD800) * 1024 + (v - 0xDC00) < 0x10000) := by omega
      have e1 : 0xD800 + (0x10000 + (u - 0xD800) * 1024 + (v - 0xDC00) - 0x10000) / 1024 = u := by
        omega
      have e2 : 0xDC00 + (0x10000 + (u - 0xD800) * 1024 + (v - 0xDC00) - 0x10000) % 1024 = v := by
        omega
      simp only [n, if_false, e1, e2]
    rw [utf8Write_pair u v rest hu hv, utf8Slice_utf8CodePoint _ _ hc, h16]
    show utf8Write (u :: v :: utf8Slice (utf8Write rest)) = _
    rw [utf8Write_pair u v _ hu hv, ih hrest]
  | case3 u hu v rest hv ih =>
    have hrest : ∀ x ∈ v :: rest, x < 65536 := fun x hx => hs x (List.mem_cons_of_mem u hx)
    have e : utf8Write (u :: v :: rest) = utf8Replacement ++ utf8Write (v :: rest) := by
      rw [utf8Write.eq_def]
      simp only [hu, hv, if_true, if_false, and_self]
    rw [e, utf8Slice_replacement, utf8Write_replacement, ih hrest]
  | case4 u hu =>
    have e : utf8Write [u] = utf8Replacement := by
      rw [utf8Write.eq_def]
      simp only [hu, if_true, and_self]
    rw [e]
    decide
  | case5 u rest hu hl ih =>
    have hrest : ∀ x ∈ rest, x < 65536 := fun x hx => hs x (List.mem_cons_of_mem u hx)
    have e : utf8Write (u :: rest) = utf8Replacement ++ utf8Write rest := by
      rw [utf8Write.eq_def]
      simp only [hu, hl, if_true, if_false, and_self]
    rw [e, utf8Slice_replacement, utf8Write_replacement, ih hrest]
  | case6 u rest hu hl ih =>
    have hrest : ∀ x ∈ rest, x < 65536 := fun x hx => hs x (List.mem_cons_of_mem u hx)
    have hu16 : u < 65536 := hs u (by simp)
    have hc : u < 0xD800 ∨ (0xE000 ≤ u ∧ u < 0x110000) := by omega
    have h16 : utf16CodePoint u = [u] := by
      unfold utf16CodePoint
      simp only [hu16, if_true]
    rw [utf8Write_cons u rest hu hl, utf8Slice_utf8CodePoint _ _ hc, h16]
    show utf8Write (u :: utf8Slice (utf8Write rest)) = _
    rw [utf8Write_cons u _ hu hl, ih hrest]

/-- The bytes the `data` setter hashes are a function of the bytes it stores. -/
theorem utf8Write_toStringUtf8 (v : Value) (hv : v.valid) :
    utf8Write v.toStringUtf8 = utf8Write (utf8Slice (Buffer.ofValue v)) := by
  cases v with
  | undefined => rfl
  | string s => exact (utf8Write_utf8Slice_utf8Write s hv).symm
  | buffer b => rfl

/-- What the `type` setter can change, for any outcome: only `raw.type` (to a buffer of the same
length) and `'@type'`; nothing in `raw` when it throws; nothing at all when it throws the
unknown-type error. -/
theorem setType_frame (cs : Constants) (m : Message) (n : String) :
    (∃ t, (m.setType cs n).message.raw = { m.raw with type := t } ∧
      t.length = m.raw.type.length) ∧
    ((m.setType cs n).thrown ≠ none → (m.setType cs n).message.raw = m.raw) ∧
    (∀ x, (m.setType cs n).thrown = some (.unknownType x) → (m.setType cs n).message = m) := by
  cases hl : Message.typesLookup cs n with
  | undefined =>
    have e : m.setType cs n = ⟨m, some (.unknownType n)⟩ := by simp [Message.setType, hl]
    rw [e]
    exact ⟨⟨m.raw.type, rfl, rfl⟩, fun _ => rfl, fun _ _ => rfl⟩
  | number code =>
    by_cases h0 : code = 0
    · have e : m.setType cs n = ⟨m, some (.unknownType n)⟩ := by simp [Message.setType, hl, h0]
      rw [e]
      exact ⟨⟨m.raw.type, rfl, rfl⟩, fun _ => rfl, fun _ _ => rfl⟩
    · cases hw : Buffer.writeUInt32BE m.raw.type code with
      | ok t =>
        have e : m.setType cs n =
            ⟨{ m with atType := some n, raw := { m.raw with type := t } }, none⟩ := by
          simp [Message.setType, hl, h0, hw]
        obtain ⟨_, h4, ht⟩ := writeUInt32BE_inv hw
        rw [e]
        refine ⟨⟨t, rfl, ?_⟩, fun h => absurd rfl h, fun x h => by cases h⟩
        rw [ht, List.length_append, uint32BE_length, List.length_drop]
        omega
      | error err =>
        have he := writeUInt32BE_error hw
        subst he
        have e : m.setType cs n = ⟨{ m with atType := some n }, some .rangeError⟩ := by
          simp [Message.setType, hl, h0, hw]
        rw [e]
        exact ⟨⟨m.raw.type, rfl, rfl⟩, fun _ => rfl, fun x h => by cases h⟩
  | inherited =>
    cases hw : Buffer.writeUInt32BENaN m.raw.type with
    | ok t =>
      have e : m.setType cs n =
          ⟨{ m with atType := some n, raw := { m.raw with type := t } }, none⟩ := by
        simp [Message.setType, hl, hw]
      obtain ⟨h4, ht⟩ := writeUInt32BENaN_inv hw
      rw [e]
      refine ⟨⟨t, rfl, ?_⟩, fun h => absurd rfl h, fun x h => by cases h⟩
      rw [ht, List.length_append, uint32BE_length, List.length_drop]
      omega
    | error err =>
      have he : err = .rangeError := by
        unfold Buffer.writeUInt32BENaN at hw
        split at hw
        · cases hw
        · exact (Except.error.inj hw).symm
      subst he
      have e : m.setType cs n = ⟨{ m with atType := some n }, some .rangeError⟩ := by
        simp [Message.setType, hl, hw]
      rw [e]
      exact ⟨⟨m.raw.type, rfl, rfl⟩, fun _ => rfl, fun x h => by cases h⟩

/-- What the `data` setter does, for any outcome: hash and payload are assigned; the size is
written when it fits 32 bits; magic, version, type field and `'@type'` are left alone. -/
theorem setData_frame (m : Message) (v : Value) :
    (m.setData v).message.raw.magic = m.raw.magic ∧
    (m.setData v).message.raw.version = m.raw.version ∧
    (m.setData v).message.raw.type = m.raw.type ∧
    (m.setData v).message.atType = m.atType ∧
    (m.setData v).message.raw.hash = sha256 (utf8Write v.toStringUtf8) ∧
    (m.setData v).message.raw.data = some (Buffer.ofValue v) ∧
    (m.setData v).message.raw.size.length = m.raw.size.length ∧
    (4 ≤ m.raw.size.length → (Buffer.ofValue v).length < 4294967296 →
      (m.setData v).thrown = none ∧
      (m.setData v).message.raw.size = uint32BE (Buffer.ofValue v).length ++ m.raw.size.drop 4) := by
  rw [setData_unfold]
  cases hw : Buffer.writeUInt32BE m.raw.size (Buffer.ofValue v).length with
  | ok size =>
    obtain ⟨_, h4, ht⟩ := writeUInt32BE_inv hw
    refine ⟨rfl, rfl, rfl, rfl, rfl, rfl, ?_, fun _ _ => ⟨rfl, ht⟩⟩
    show size.length = _
    rw [ht, List.length_append, uint32BE_length, List.length_drop]
    omega
  | error e =>
    refine ⟨rfl, rfl, rfl, rfl, rfl, rfl, rfl, fun h4 hlt => ?_⟩
    rw [writeUInt32BE_ok _ _ h4 hlt] at hw
    cases hw

/-! ## Invariants of reachable envelopes -/

theorem result_ok {o : Outcome} {m : Message} (h : o.result = .ok m) :
    o.thrown = none ∧ o.message = m := by
  unfold Outcome.result at h
  split at h
  · rename_i hn
    exact ⟨hn, Except.ok.inj h⟩
  · cases h

theorem fromVector_ok {cs : Constants} {n : String} {v : Value} {m : Message}
    (h : Message.fromVector cs n v = .ok m) :
    ∃ m0, Message.new cs = .ok m0 ∧ (m0.setType cs n).thrown = none ∧
      ((m0.setType cs n).message.setData v).thrown = none ∧
      m = ((m0.setType cs n).message.setData v).message := by
  unfold Message.fromVector at h
  cases hnew : Message.new cs with
  | error e => simp [hnew, bind, Except.bind] at h
  | ok m0 =>
    cases h1 : (m0.setType cs n).result with
    | error e => simp [hnew, h1, bind, Except.bind] at h
    | ok m1 =>
      cases h2 : (m1.setData v).result with
      | error e => simp [hnew, h1, h2, bind, Except.bind] at h
      | ok m2 =>
        simp [hnew, h1, h2, bind, Except.bind, pure, Except.pure] at h
        obtain ⟨t1, e1⟩ := result_ok h1
        obtain ⟨t2, e2⟩ := result_ok h2
        subst e1
        exact ⟨m0, rfl, t1, t2, by rw [← h, e2]⟩

theorem fromRaw_ok {cs : Constants} {input : Bytes} {m : Message}
    (h : Message.fromRaw cs (some input) = .ok (some m)) :
    ∃ s, cs.MAGIC_BYTES < 4294967296 ∧ cs.VERSION_NUMBER < 4294967296 ∧
      Buffer.readUInt32BE (Buffer.slice input 12 16) = .ok s ∧
      (Buffer.slice input 48 (48 + s)).length < 4294967296 ∧ 16 ≤ input.length ∧
      m = { raw := {
              magic := Buffer.slice input 0 4
              version := Buffer.slice input 4 8
              type := Buffer.slice input 8 12
              size := uint32BE (Buffer.slice input 48 (48 + s)).length
              hash := sha256 (utf8Write (utf8Slice (Buffer.slice input 48 (48 + s))))
              data := some (Buffer.slice input 48 (48 + s)) }
            atType := none } := by
  cases hnew : Message.new cs with
  | error e => simp [Message.fromRaw, hnew, bind, Except.bind] at h
  | ok m0 =>
    obtain ⟨hm, hv, _⟩ := new_ok hnew
    cases hs : Buffer.readUInt32BE (Buffer.slice input 12 16) with
    | error e => simp [Message.fromRaw, hnew, hs, bind, Except.bind] at h
    | ok s =>
      have h16 : 16 ≤ input.length := by
        have := readUInt32BE_length hs
        rw [slice_length] at this
        omega
      by_cases hp : (Buffer.slice input 48 (48 + s)).length < 4294967296
      · rw [fromRaw_eq cs input s hm hv hs hp] at h
        exact ⟨s, hm, hv, rfl, hp, h16, (Option.some.inj (Except.ok.inj h)).symm⟩
      · exfalso
        simp [Message.fromRaw, hnew, hs, bind, Except.bind, setData_unfold, HEADER_SIZE,
          Buffer.ofValue, writeUInt32BE_big _ _ hp, Outcome.result] at h

theorem sound_setType (cs : Constants) (m : Message) (n : String) (h : Sound m) :
    Sound (m.setType cs n).message := by
  obtain ⟨⟨t, e, ht⟩, _, _⟩ := setType_frame cs m n
  obtain ⟨h1, h2, h3, h4, h5, h6⟩ := h
  unfold Sound
  rw [e]
  exact ⟨h1, h2, by rw [← h3]; exact ht, h4, h5, h6⟩

theorem sound_setData (m : Message) (v : Value) (hv : v.valid) (h : Sound m) :
    Sound (m.setData v).message := by
  obtain ⟨f1, f2, f3, _, f5, f6, f7, f8⟩ := setData_frame m v
  obtain ⟨h1, h2, h3, h4, h5, _⟩ := h
  refine ⟨by rw [f1]; exact h1, by rw [f2]; exact h2, by rw [f3]; exact h3,
    by rw [f7]; exact h4, by rw [f5]; exact sha256_length _, ?_⟩
  intro d hd
  rw [f6] at hd
  have hd' : Buffer.ofValue v = d := Option.some.inj hd
  refine ⟨by rw [f5, utf8Write_toStringUtf8 v hv, hd'], fun hlt => ?_⟩
  have := (f8 (by omega) (by rw [hd']; exact hlt)).2
  rw [this, hd', uint32BE_append_drop _ _ h4]

theorem sound_new {cs : Constants} {m : Message} (h : Message.new cs = .ok m) : Sound m := by
  obtain ⟨_, _, e⟩ := new_ok h
  subst e
  exact ⟨rfl, rfl, rfl, rfl, rfl, fun d hd => by cases hd⟩

theorem sound_fromRaw {cs : Constants} {input : Bytes} {m : Message}
    (h : Message.fromRaw cs (some input) = .ok (some m)) : Sound m := by
  obtain ⟨s, _, _, _, hp, h16, e⟩ := fromRaw_ok h
  subst e
  refine ⟨by simp only [slice_length]; omega, by simp only [slice_length]; omega,
    by simp only [slice_length]; omega, rfl, sha256_length _, ?_⟩
  intro d hd
  have hd' : Buffer.slice input 48 (48 + s) = d := Option.some.inj hd
  exact ⟨by show sha256 _ = _; rw [hd'], fun _ => by show uint32BE _ = _; rw [hd']⟩

theorem reachable_sound {cs : Constants} {m : Message} (h : Reachable cs m) : Sound m := by
  induction h with
  | new made => exact sound_new made
  | fromVector typed made =>
    obtain ⟨m0, hnew, _, _, e⟩ := fromVector_ok made
    rw [e]
    exact sound_setData _ _ typed (sound_setType _ _ _ (sound_new hnew))
  | fromRaw made => exact sound_fromRaw made
  | setType n _ ih => exact sound_setType _ _ n ih
  | setData v typed _ ih => exact sound_setData _ v typed ih

/-! ## Envelopes built from the constructor -/

theorem setType_done {cs : Constants} {m : Message} {n : String}
    (h : (m.setType cs n).thrown = none) :
    ∃ code, code < 4294967296 ∧
      (Message.typesLookup cs n = .number code ∨
        (Message.typesLookup cs n = .inherited ∧ code = 0)) ∧
      (m.setType cs n).message =
        { m with atType := some n, raw := { m.raw with type := uint32BE code ++ m.raw.type.drop 4 } } := by
  cases hl : Message.typesLookup cs n with
  | undefined => simp [Message.setType, hl] at h
  | number code =>
    by_cases h0 : code = 0
    · simp [Message.setType, hl, h0] at h
    · cases hw : Buffer.writeUInt32BE m.raw.type code with
      | ok t =>
        obtain ⟨hlt, _, ht⟩ := writeUInt32BE_inv hw
        refine ⟨code, hlt, Or.inl rfl, ?_⟩
        simp [Message.setType, hl, h0, hw, ht]
      | error e => simp [Message.setType, hl, h0, hw] at h
  | inherited =>
    cases hw : Buffer.writeUInt32BENaN m.raw.type with
    | ok t =>
      obtain ⟨_, ht⟩ := writeUInt32BENaN_inv hw
      refine ⟨0, by omega, Or.inr ⟨rfl, rfl⟩, ?_⟩
      simp [Message.setType, hl, hw, ht]
    | error e => simp [Message.setType, hl, hw] at h

theorem setData_done {m : Message} {v : Value} (h : (m.setData v).thrown = none) :
    (Buffer.ofValue v).length < 4294967296 ∧
      (m.setData v).message.raw.size = uint32BE (Buffer.ofValue v).length ++ m.raw.size.drop 4 := by
  rw [setData_unfold] at h ⊢
  cases hw : Buffer.writeUInt32BE m.raw.size (Buffer.ofValue v).length with
  | ok size =>
    obtain ⟨hlt, _, ht⟩ := writeUInt32BE_inv hw
    exact ⟨hlt, ht⟩
  | error e => simp [hw] at h

/-- The fields of an envelope built from the constructor by completed assignments. -/
theorem built_fields {cs : Constants} {m : Message} (h : Built cs m) :
    m.raw.magic = uint32BE cs.MAGIC_BYTES ∧ m.raw.version = uint32BE cs.VERSION_NUMBER ∧
    (∃ code, code < 4294967296 ∧ m.raw.type = uint32BE code ∧
      match m.atType with
      | none => code = 0
      | some n => Message.typesLookup cs n = .number code ∨
          (Message.typesLookup cs n = .inherited ∧ code = 0)) ∧
    m.raw.size = uint32BE (m.raw.data.getD []).length ∧
    m.raw.hash.length = 32 ∧
    match m.raw.data with
    | none => m.raw.hash = Buffer.alloc 32
    | some d => m.raw.hash = sha256 (utf8Write (utf8Slice d)) := by
  induction h with
  | new made =>
    obtain ⟨_, _, e⟩ := new_ok made
    subst e
    have z : Buffer.alloc 4 = uint32BE 0 := by decide
    exact ⟨rfl, rfl, ⟨0, by omega, z, rfl⟩, z, rfl, rfl⟩
  | @setType m n before done ih =>
    obtain ⟨h1, h2, ⟨c0, hc0, ht0, _⟩, h4, h5, h6⟩ := ih
    obtain ⟨code, hlt, hlink, e⟩ := setType_done done
    rw [e]
    have hlen : m.raw.type.length = 4 := by rw [ht0]; rfl
    refine ⟨h1, h2, ⟨code, hlt, uint32BE_append_drop _ _ hlen, hlink⟩, h4, h5, h6⟩
  | @setData m v typed before done ih =>
    obtain ⟨h1, h2, h3, h4, h5, _⟩ := ih
    obtain ⟨f1, f2, f3, f4, f5, f6, _, _⟩ := setData_frame m v
    obtain ⟨_, hsz⟩ := setData_done done
    have hlen : m.raw.size.length = 4 := by rw [h4]; rfl
    refine ⟨by rw [f1]; exact h1, by rw [f2]; exact h2, ?_, ?_, by rw [f5]; exact sha256_length _,
      ?_⟩
    · rw [f3, f4]
      exact h3
    · rw [hsz, f6, uint32BE_append_drop _ _ hlen]
      rfl
    · rw [f6]
      show (m.setData v).message.raw.hash = _
      rw [f5, utf8Write_toStringUtf8 v typed]

/-! ## Identifiers -/

theorem digitChar_inj : ∀ a, a < 16 → ∀ b, b < 16 →
    (Nat.digitChar a).toNat = (Nat.digitChar b).toNat → a = b := by
  decide

theorem hex_cons (x : Nat) (b : Bytes) :
    hex (x :: b) =
      (Nat.digitChar (x / 16 % 16)).toNat :: (Nat.digitChar (x % 16)).toNat :: hex b := by
  simp [hex, List.flatMap_cons]

/-- Hexadecimal encoding loses nothing on byte sequences. -/
theorem hex_injective (b1 b2 : Bytes) (h1 : IsBytes b1) (h2 : IsBytes b2)
    (h : hex b1 = hex b2) : b1 = b2 := by
  induction b1 generalizing b2 with
  | nil =>
    cases b2 with
    | nil => rfl
    | cons y b2 => rw [hex_cons] at h; cases h
  | cons x b1 ih =>
    cases b2 with
    | nil => rw [hex_cons] at h; cases h
    | cons y b2 =>
      rw [hex_cons, hex_cons] at h
      simp only [List.cons.injEq] at h
      obtain ⟨e1, e2, e3⟩ := h
      have hx : x < 256 := h1 x (by simp)
      have hy : y < 256 := h2 y (by simp)
      have d1 := digitChar_inj _ (by omega) _ (by omega) e1
      have d2 := digitChar_inj _ (by omega) _ (by omega) e2
      have hxy : x = y := by omega
      have hb := ih b2 (fun z hz => h1 z (List.mem_cons_of_mem x hz))
        (fun z hz => h2 z (List.mem_cons_of_mem y hz)) e3
      rw [hxy, hb]

theorem sha256_isBytes (msg : Bytes) : IsBytes (sha256 msg) := by
  intro x hx
  simp only [sha256, List.mem_flatMap, wordBytes, List.mem_cons, List.mem_singleton,
    List.not_mem_nil, or_false] at hx
  obtain ⟨w, _, hw⟩ := hx
  rcases hw with hw | hw | hw | hw <;> omega

theorem id_eq {m : Message} {d : Bytes} (h : m.raw.data = some d) :
    m.id = .ok (hex (sha256 (m.header ++ d))) := by
  simp [Message.id, Message.asRaw, h, bind, Except.bind, pure, Except.pure]

/-- Two wire forms with headers of the fixed widths are equal only if every field is. -/
theorem wire_inj {m1 m2 : Message} {d1 d2 : Bytes} (s1 : Sound m1) (s2 : Sound m2)
    (h : m1.header ++ d1 = m2.header ++ d2) :
    m1.raw.magic = m2.raw.magic ∧ m1.raw.version = m2.raw.version ∧
      m1.raw.type = m2.raw.type ∧ m1.raw.size = m2.raw.size ∧ m1.raw.hash = m2.raw.hash ∧
      d1 = d2 := by
  obtain ⟨a1, a2, a3, a4, a5, _⟩ := s1
  obtain ⟨b1, b2, b3, b4, b5, _⟩ := s2
  unfold Message.header at h
  obtain ⟨h5, hd⟩ := List.append_inj h (by simp [a1, a2, a3, a4, a5, b1, b2, b3, b4, b5])
  obtain ⟨h4, hh⟩ := List.append_inj h5 (by simp [a1, a2, a3, a4, b1, b2, b3, b4])
  obtain ⟨h3, hs⟩ := List.append_inj h4 (by simp [a1, a2, a3, b1, b2, b3])
  obtain ⟨h2, ht⟩ := List.append_inj h3 (by simp [a1, a2, b1, b2])
  obtain ⟨hm, hv⟩ := List.append_inj h2 (by simp [a1, b1])
  exact ⟨hm, hv, ht, hs, hh, hd⟩

/-! ## Parsing, case by case -/

theorem fromRaw_some (cs : Constants) (input : Bytes) :
    Message.fromRaw cs (some input) =
      match Message.new cs with
      | .error e => .error e
      | .ok _ =>
        match Buffer.readUInt32BE (Buffer.slice input 12 16) with
        | .error e => .error e
        | .ok s =>
          if (Buffer.slice input 48 (48 + s)).length < 4294967296 then
            .ok (some
              { raw := {
                  magic := Buffer.slice input 0 4
                  version := Buffer.slice input 4 8
                  type := Buffer.slice input 8 12
                  size := uint32BE (Buffer.slice input 48 (48 + s)).length
                  hash := sha256 (utf8Write (utf8Slice (Buffer.slice input 48 (48 + s))))
                  data := some (Buffer.slice input 48 (48 + s)) }
                atType := none })
          else .error .rangeError := by
  cases hnew : Message.new cs with
  | error e => simp [Message.fromRaw, hnew, bind, Except.bind]
  | ok m0 =>
    obtain ⟨hm, hv, _⟩ := new_ok hnew
    cases hs : Buffer.readUInt32BE (Buffer.slice input 12 16) with
    | error e => simp [Message.fromRaw, hnew, hs, bind, Except.bind]
    | ok s =>
      by_cases hp : (Buffer.slice input 48 (48 + s)).length < 4294967296
      · simp only [hp, if_true]
        exact fromRaw_eq cs input s hm hv hs hp
      · simp only [hp, if_false]
        simp [Message.fromRaw, hnew, hs, bind, Except.bind, setData_unfold, HEADER_SIZE,
          Buffer.ofValue, writeUInt32BE_big _ _ hp, Outcome.result]

theorem slice_take (input : Bytes) (a b n : Nat) (hb : b ≤ n) :
    Buffer.slice (input.take n) a b = Buffer.slice input a b := by
  unfold Buffer.slice
  rw [List.take_take, Nat.min_eq_left hb]

theorem slice_drop (input : Bytes) (a s : Nat) :
    Buffer.slice input a (a + s) = (input.drop a).take s := by
  unfold Buffer.slice
  rw [List.drop_take, Nat.add_sub_cancel_left]

theorem built_reachable {cs : Constants} {m : Message} (h : Built cs m) : Reachable cs m := by
  induction h with
  | new made => exact Reachable.new made
  | setType n _ _ ih => exact Reachable.setType n ih
  | setData v typed _ _ ih => exact Reachable.setData v typed ih

/-- Two envelopes built from the constructor under the same constants, with the same type
field and the same payload, have the same id. -/
theorem id_eq_of_built {cs : Constants} {m1 m2 : Message} {d : Bytes} (b1 : Built cs m1)
    (b2 : Built cs m2) (hd1 : m1.raw.data = some d) (hd2 : m2.raw.data = some d)
    (ht : m1.raw.type = m2.raw.type) : m1.id = m2.id := by
  obtain ⟨a1, a2, _, a4, _, a6⟩ := built_fields b1
  obtain ⟨c1, c2, _, c4, _, c6⟩ := built_fields b2
  rw [hd1] at a4 a6
  rw [hd2] at c4 c6
  rw [id_eq hd1, id_eq hd2]
  unfold Message.header
  rw [a1, a2, a4, a6, c1, c2, c4, c6, ht]

/-! ## Facts about the sample envelopes -/

theorem sampleFresh_new : Message.new sampleConstants = .ok sampleFresh := by decide

theorem samplePing_built : Built sampleConstants samplePing :=
  Built.setData (.string sampleHello) (by decide)
    (Built.setType "Ping" (Built.new sampleFresh_new) (by decide)) (by decide)

theorem samplePing_reachable : Reachable sampleConstants samplePing :=
  Reachable.setData (.string sampleHello) (by decide)
    (Reachable.setType "Ping" (Reachable.new sampleFresh_new))

theorem samplePong_reachable : Reachable sampleConstants samplePong :=
  Reachable.setData (.string sampleHello) (by decide)
    (Reachable.setType "Pong" (Reachable.new sampleFresh_new))

theorem samplePing_data : samplePing.raw.data = some sampleHello := by decide

theorem samplePong_data : samplePong.raw.data = some sampleHello := by decide

theorem sampleShort_fromRaw :
    Message.fromRaw sampleConstants (some sampleShort) = .ok (some
      { raw := {
          magic := Buffer.slice sampleShort 0 4
          version := Buffer.slice sampleShort 4 8
          type := Buffer.slice sampleShort 8 12
          size := uint32BE (Buffer.slice sampleShort 48 (48 + 5)).length
          hash := sha256 (utf8Write (utf8Slice (Buffer.slice sampleShort 48 (48 + 5))))
          data := some (Buffer.slice sampleShort 48 (48 + 5)) }
        atType := none }) :=
  fromRaw_eq sampleConstants sampleShort 5 (by decide) (by decide) (by decide) (by decide)

/-! ## Memory lemmas -/

theorem block_alloc (h : Memory) (b : Bytes) (i : Nat) (hi : i < h.blocks.length) :
    (h.alloc b).1.block i = h.block i := by
  simp only [Memory.alloc, Memory.block]
  exact List.getD_append _ _ _ _ hi

theorem block_alloc_new (h : Memory) (b : Bytes) :
    (h.alloc b).1.block (h.alloc b).2.mem = b := by
  simp [Memory.alloc, Memory.block, List.getD_eq_getElem?_getD]

theorem bytes_alloc (h : Memory) (b : Bytes) (v : View) (hv : v.mem < h.blocks.length) :
    (h.alloc b).1.bytes v = h.bytes v := by
  unfold Memory.bytes
  rw [block_alloc h b _ hv]

theorem bytes_alloc_new (h : Memory) (b : Bytes) : (h.alloc b).1.bytes (h.alloc b).2 = b := by
  unfold Memory.bytes
  rw [block_alloc_new]
  simp [Memory.alloc]

theorem grows_refl (h : Memory) : h.grows h := ⟨Nat.le_refl _, fun _ _ => rfl⟩

theorem grows_trans {h1 h2 h3 : Memory} (a : h1.grows h2) (b : h2.grows h3) : h1.grows h3 :=
  ⟨Nat.le_trans a.1 b.1, fun i hi => by rw [b.2 i (by have := a.1; omega), a.2 i hi]⟩

theorem grows_alloc (h : Memory) (b : Bytes) : h.grows (h.alloc b).1 :=
  ⟨by simp [Memory.alloc], fun i hi => by rw [block_alloc h b i hi]⟩

theorem inside_grows {h h1 : Memory} {v : View} (hv : v.inside h) (g : h.grows h1) :
    v.inside h1 :=
  ⟨by have := g.1; have := hv.1; omega, by rw [g.2 _ hv.1]; exact hv.2⟩

theorem bytes_length {h : Memory} {v : View} (hv : v.inside h) : (h.bytes v).length = v.len := by
  have := hv.2
  simp only [Memory.bytes, List.length_take, List.length_drop]
  omega

theorem block_put_ne (h : Memory) (v : View) (b : Bytes) (i : Nat) (hi : i ≠ v.mem) :
    (h.put v b).block i = h.block i := by
  simp only [Memory.put, Memory.block, List.getD_eq_getElem?_getD]
  rw [List.getElem?_set_ne (Ne.symm hi)]

theorem block_put (h : Memory) (v : View) (b : Bytes) (hv : v.mem < h.blocks.length) :
    (h.put v b).block v.mem =
      (h.block v.mem).take v.off ++ b ++ (h.block v.mem).drop (v.off + v.len) := by
  simp only [Memory.put, Memory.block, List.getD_eq_getElem?_getD]
  rw [List.getElem?_set_self hv]
  rfl

theorem grows_put {h : Memory} {v : View} {b : Bytes} (hv : v.inside h)
    (hb : b.length = v.len) : h.grows (h.put v b) := by
  refine ⟨by simp [Memory.put], fun i _ => ?_⟩
  by_cases hi : i = v.mem
  · subst hi
    rw [block_put h v b hv.1]
    have := hv.2
    simp only [List.length_append, List.length_take, List.length_drop]
    omega
  · rw [block_put_ne h v b i hi]

theorem bytes_put {h : Memory} {v : View} {b : Bytes} (hv : v.inside h)
    (hb : b.length = v.len) : (h.put v b).bytes v = b := by
  unfold Memory.bytes
  rw [block_put h v b hv.1]
  have h1 : ((h.block v.mem).take v.off).length = v.off := by
    have := hv.2
    simp only [List.length_take]
    omega
  rw [List.append_assoc, List.drop_left' h1, List.take_left' hb]

/-- An in-place write leaves every buffer that shares no byte with the target as it was. -/
theorem bytes_put_apart {h : Memory} {v w : View} {b : Bytes} (hv : v.inside h)
    (hb : b.length = v.len) (hw : w.apart v) : (h.put v b).bytes w = h.bytes w := by
  by_cases hm : w.mem = v.mem
  · unfold Memory.bytes
    rw [hm, block_put h v b hv.1]
    have hlen := hv.2
    have h1 : ((h.block v.mem).take v.off).length = v.off := by
      simp only [List.length_take]
      omega
    apply List.ext_getElem?
    intro n
    simp only [List.getElem?_take, List.getElem?_drop]
    by_cases hn : n < w.len
    · simp only [hn, if_true]
      rcases hw with hw | hw | hw
      · exact absurd hm hw
      · rw [List.append_assoc, List.getElem?_append_left (by omega), List.getElem?_take]
        simp only [show w.off + n < v.off by omega, if_true]
      · rw [List.getElem?_append_right (by simp only [List.length_append, h1, hb]; omega),
          List.getElem?_drop]
        congr 1
        simp only [List.length_append, h1, hb]
        omega
    · simp only [hn, if_false]
  · unfold Memory.bytes
    rw [block_put_ne h v b _ hm]

theorem bytes_slice (h : Memory) (v : View) (a b : Nat) :
    h.bytes (v.slice a b) = Buffer.slice (h.bytes v) a b := by
  simp only [Memory.bytes, View.slice, Buffer.slice]
  rw [List.take_take, List.drop_take, List.drop_drop]
  by_cases ha : a ≤ v.len
  · rw [Nat.min_eq_left ha]
  · have e1 : min b v.len - min a v.len = 0 := by omega
    have e2 : min b v.len - a = 0 := by omega
    rw [e1, e2, List.take_zero, List.take_zero]

theorem inside_slice {h : Memory} {v : View} (hv : v.inside h) (a b : Nat) :
    (v.slice a b).inside h := by
  have := hv.2
  refine ⟨hv.1, ?_⟩
  show v.off + min a v.len + (min b v.len - min a v.len) ≤ (h.block v.mem).length
  omega

/-- What `writeUInt32BE` does to memory when it completes. -/
theorem memory_writeUInt32BE {h h1 : Memory} {v : View} {n : Nat} (hv : v.inside h)
    (hw : h.writeUInt32BE v n = .ok h1) :
    n < 4294967296 ∧ 4 ≤ v.len ∧ h.grows h1 ∧
      h1.bytes v = uint32BE n ++ (h.bytes v).drop 4 ∧
      ∀ w : View, w.apart v → h1.bytes w = h.bytes w := by
  unfold Memory.writeUInt32BE at hw
  cases hb : Buffer.writeUInt32BE (h.bytes v) n with
  | error e => rw [hb] at hw; cases hw
  | ok b =>
    rw [hb] at hw
    have e : h1 = h.put v b := (Except.ok.inj hw).symm
    obtain ⟨i1, i2, i3⟩ := writeUInt32BE_inv hb
    have hl : b.length = v.len := by
      rw [i3, List.length_append, List.length_drop, bytes_length hv]
      rw [bytes_length hv] at i2
      simp only [uint32BE, List.length_cons, List.length_nil]
      omega
    rw [bytes_length hv] at i2
    subst e
    exact ⟨i1, i2, grows_put hv hl, by rw [bytes_put hv hl, i3],
      fun w hw => bytes_put_apart hv hl hw⟩

theorem memory_writeUInt32BE_ok {h : Memory} {v : View} {n : Nat} (hv : v.inside h)
    (hl : 4 ≤ v.len) (hn : n < 4294967296) : ∃ h1, h.writeUInt32BE v n = .ok h1 := by
  unfold Memory.writeUInt32BE
  rw [writeUInt32BE_ok _ _ (by rw [bytes_length hv]; exact hl) hn]
  exact ⟨_, rfl⟩

/-- What `writeUInt32BE` does to memory when it is given a function or an object. -/
theorem memory_writeUInt32BENaN {h h1 : Memory} {v : View} (hv : v.inside h)
    (hw : h.writeUInt32BENaN v = .ok h1) :
    4 ≤ v.len ∧ h.grows h1 ∧ h1.bytes v = uint32BE 0 ++ (h.bytes v).drop 4 ∧
      ∀ w : View, w.apart v → h1.bytes w = h.bytes w := by
  unfold Memory.writeUInt32BENaN at hw
  cases hb : Buffer.writeUInt32BENaN (h.bytes v) with
  | error e => rw [hb] at hw; cases hw
  | ok b =>
    rw [hb] at hw
    have e : h1 = h.put v b := (Except.ok.inj hw).symm
    obtain ⟨i2, i3⟩ := writeUInt32BENaN_inv hb
    have hl : b.length = v.len := by
      rw [i3, List.length_append, List.length_drop, bytes_length hv]
      rw [bytes_length hv] at i2
      simp only [uint32BE, List.length_cons, List.length_nil]
      omega
    rw [bytes_length hv] at i2
    subst e
    exact ⟨i2, grows_put hv hl, by rw [bytes_put hv hl, i3],
      fun w hw => bytes_put_apart hv hl hw⟩

/-! ## Envelopes in memory -/

theorem alloc_view (h : Memory) (b : Bytes) :
    (h.alloc b).2 = ⟨h.blocks.length, 0, b.length⟩ ∧
      (h.alloc b).1.blocks.length = h.blocks.length + 1 ∧ (h.alloc b).2.inside (h.alloc b).1 := by
  refine ⟨rfl, by simp [Memory.alloc], ?_⟩
  refine ⟨by simp [Memory.alloc], ?_⟩
  rw [block_alloc_new]
  simp [Memory.alloc]

/-- The falsy-value replacement changes neither the text form nor the byte form. -/
theorem envelope_setData_unfold (h : Memory) (e : Envelope) (a : Arg) :
    e.setData h a =
      match ((h.alloc (sha256 (utf8Write (a.value h).toStringUtf8))).1.alloc
          (Buffer.ofValue (a.value h))).1.writeUInt32BE e.raw.size
          (Buffer.ofValue (a.value h)).length with
      | .ok h1 =>
        ⟨h1, { e with raw := { e.raw with
            hash := ⟨h.blocks.length, 0, 32⟩
            data := some ⟨h.blocks.length + 1, 0, (Buffer.ofValue (a.value h)).length⟩ } }, none⟩
      | .error err =>
        ⟨((h.alloc (sha256 (utf8Write (a.value h).toStringUtf8))).1.alloc
          (Buffer.ofValue (a.value h))).1, { e with raw := { e.raw with
            hash := ⟨h.blocks.length, 0, 32⟩
            data := some ⟨h.blocks.length + 1, 0, (Buffer.ofValue (a.value h)).length⟩ } },
          some err⟩ := by
  have hv (v : Value) : (if v.falsy then Value.string [] else v).toStringUtf8 = v.toStringUtf8 ∧
      Buffer.ofValue (if v.falsy then Value.string [] else v) = Buffer.ofValue v := by
    cases v with
    | undefined => exact ⟨rfl, rfl⟩
    | string s =>
      cases s with
      | nil => exact ⟨rfl, rfl⟩
      | cons u rest => exact ⟨rfl, rfl⟩
    | buffer b => exact ⟨rfl, rfl⟩
  simp only [Envelope.setData, (hv (a.value h)).1, (hv (a.value h)).2]
  have e1 : (h.alloc (sha256 (utf8Write (a.value h).toStringUtf8))).2 = ⟨h.blocks.length, 0, 32⟩ := by
    simp [Memory.alloc, sha256_length]
  have e2 : ((h.alloc (sha256 (utf8Write (a.value h).toStringUtf8))).1.alloc
      (Buffer.ofValue (a.value h))).2 = ⟨h.blocks.length + 1, 0, (Buffer.ofValue (a.value h)).length⟩ := by
    simp [Memory.alloc]
  rw [e1, e2]

/-- Two allocations in a row: the new buffers hold what they were given, the old ones what
they held. -/
theorem alloc_two (h : Memory) (b c : Bytes) :
    h.grows ((h.alloc b).1.alloc c).1 ∧
      View.inside ((h.alloc b).1.alloc c).1 ⟨h.blocks.length, 0, b.length⟩ ∧
      View.inside ((h.alloc b).1.alloc c).1 ⟨h.blocks.length + 1, 0, c.length⟩ ∧
      ((h.alloc b).1.alloc c).1.bytes ⟨h.blocks.length, 0, b.length⟩ = b ∧
      ((h.alloc b).1.alloc c).1.bytes ⟨h.blocks.length + 1, 0, c.length⟩ = c ∧
      ∀ v : View, v.mem < h.blocks.length → ((h.alloc b).1.alloc c).1.bytes v = h.bytes v := by
  obtain ⟨b1, b2, b3⟩ := alloc_view h b
  obtain ⟨c1, c2, c3⟩ := alloc_view (h.alloc b).1 c
  rw [b2] at c1
  rw [b1] at b3
  rw [c1] at c3
  have hb := bytes_alloc_new h b
  have hc := bytes_alloc_new (h.alloc b).1 c
  rw [b1] at hb
  rw [c1] at hc
  refine ⟨grows_trans (grows_alloc h b) (grows_alloc _ c),
    inside_grows b3 (grows_alloc _ c), c3, ?_, hc, fun v hv => ?_⟩
  · rw [bytes_alloc _ c _ b3.1, hb]
  · rw [bytes_alloc _ c _ (by rw [b2]; omega), bytes_alloc h b _ hv]

/-- What the `type` setter does to memory, for any outcome: it changes no field of `raw` (the
object), and writes nothing but the bytes of the type field. -/
theorem envelope_setType_effect (cs : Constants) {h : Memory} {e : Envelope} (n : String)
    (ht : e.raw.type.inside h) :
    (e.setType cs h n).envelope.raw = e.raw ∧ h.grows (e.setType cs h n).memory ∧
      ∀ v : View, v.apart e.raw.type → (e.setType cs h n).memory.bytes v = h.bytes v := by
  cases hl : Message.typesLookup cs n with
  | undefined =>
    have e1 : e.setType cs h n = ⟨h, e, some (.unknownType n)⟩ := by
      simp [Envelope.setType, hl]
    rw [e1]
    exact ⟨rfl, grows_refl h, fun _ _ => rfl⟩
  | number code =>
    by_cases h0 : code = 0
    · have e1 : e.setType cs h n = ⟨h, e, some (.unknownType n)⟩ := by
        simp [Envelope.setType, hl, h0]
      rw [e1]
      exact ⟨rfl, grows_refl h, fun _ _ => rfl⟩
    · cases hw : h.writeUInt32BE e.raw.type code with
      | ok h1 =>
        have e1 : e.setType cs h n = ⟨h1, { e with atType := some n }, none⟩ := by
          simp [Envelope.setType, hl, h0, hw]
        rw [e1]
        obtain ⟨_, _, g, _, f⟩ := memory_writeUInt32BE ht hw
        exact ⟨rfl, g, f⟩
      | error err =>
        have e1 : e.setType cs h n = ⟨h, { e with atType := some n }, some err⟩ := by
          simp [Envelope.setType, hl, h0, hw]
        rw [e1]
        exact ⟨rfl, grows_refl h, fun _ _ => rfl⟩
  | inherited =>
    cases hw : h.writeUInt32BENaN e.raw.type with
    | ok h1 =>
      have e1 : e.setType cs h n = ⟨h1, { e with atType := some n }, none⟩ := by
        simp [Envelope.setType, hl, hw]
      rw [e1]
      obtain ⟨_, g, _, f⟩ := memory_writeUInt32BENaN ht hw
      exact ⟨rfl, g, f⟩
    | error err =>
      have e1 : e.setType cs h n = ⟨h, { e with atType := some n }, some err⟩ := by
        simp [Envelope.setType, hl, hw]
      rw [e1]
      exact ⟨rfl, grows_refl h, fun _ _ => rfl⟩

/-- What the `data` setter does to memory, for any outcome: hash and payload become new
buffers, holding the digest and a copy of the value; nothing else is written but the bytes of
the size field, which hold the payload length when that fits 32 bits. -/
theorem envelope_setData_effect {h : Memory} {e : Envelope} (a : Arg)
    (hs : e.raw.size.inside h) :
    ((e.setData h a).envelope.atType = e.atType ∧
      (e.setData h a).envelope.raw.magic = e.raw.magic ∧
      (e.setData h a).envelope.raw.version = e.raw.version ∧
      (e.setData h a).envelope.raw.type = e.raw.type ∧
      (e.setData h a).envelope.raw.size = e.raw.size ∧
      (e.setData h a).envelope.raw.hash = ⟨h.blocks.length, 0, 32⟩ ∧
      (e.setData h a).envelope.raw.data =
        some ⟨h.blocks.length + 1, 0, (Buffer.ofValue (a.value h)).length⟩) ∧
    (h.grows (e.setData h a).memory ∧
      View.inside (e.setData h a).memory ⟨h.blocks.length, 0, 32⟩ ∧
      View.inside (e.setData h a).memory
        ⟨h.blocks.length + 1, 0, (Buffer.ofValue (a.value h)).length⟩) ∧
    ((e.setData h a).memory.bytes ⟨h.blocks.length, 0, 32⟩ =
        sha256 (utf8Write (a.value h).toStringUtf8) ∧
      (e.setData h a).memory.bytes
          ⟨h.blocks.length + 1, 0, (Buffer.ofValue (a.value h)).length⟩ =
        Buffer.ofValue (a.value h)) ∧
    (∀ v : View, v.mem < h.blocks.length → v.apart e.raw.size →
      (e.setData h a).memory.bytes v = h.bytes v) ∧
    (4 ≤ e.raw.size.len → (Buffer.ofValue (a.value h)).length < 4294967296 →
      (e.setData h a).thrown = none ∧
      (e.setData h a).memory.bytes e.raw.size =
        uint32BE (Buffer.ofValue (a.value h)).length ++ (h.bytes e.raw.size).drop 4) := by
  obtain ⟨g, i1, i2, b1, b2, old⟩ := alloc_two h (sha256 (utf8Write (a.value h).toStringUtf8))
    (Buffer.ofValue (a.value h))
  rw [sha256_length] at i1 b1
  have hs2 := inside_grows hs g
  have a1 : View.apart ⟨h.blocks.length, 0, 32⟩ e.raw.size :=
    Or.inl (by have := hs.1; show h.blocks.length ≠ _; omega)
  have a2 : View.apart ⟨h.blocks.length + 1, 0, (Buffer.ofValue (a.value h)).length⟩ e.raw.size :=
    Or.inl (by have := hs.1; show h.blocks.length + 1 ≠ _; omega)
  rw [envelope_setData_unfold]
  cases hw : ((h.alloc (sha256 (utf8Write (a.value h).toStringUtf8))).1.alloc
      (Buffer.ofValue (a.value h))).1.writeUInt32BE e.raw.size
      (Buffer.ofValue (a.value h)).length with
  | ok h1 =>
    obtain ⟨_, _, g1, w1, w2⟩ := memory_writeUInt32BE hs2 hw
    refine ⟨⟨rfl, rfl, rfl, rfl, rfl, rfl, rfl⟩,
      ⟨grows_trans g g1, inside_grows i1 g1, inside_grows i2 g1⟩,
      ⟨by show h1.bytes _ = _; rw [w2 _ a1, b1], by show h1.bytes _ = _; rw [w2 _ a2, b2]⟩,
      fun v hv hv2 => by show h1.bytes _ = _; rw [w2 _ hv2, old v hv],
      fun _ _ => ⟨rfl, by show h1.bytes _ = _; rw [w1, old _ hs.1]⟩⟩
  | error err =>
    refine ⟨⟨rfl, rfl, rfl, rfl, rfl, rfl, rfl⟩, ⟨g, i1, i2⟩, ⟨b1, b2⟩,
      fun v hv _ => old v hv, fun h4 hlt => ?_⟩
    obtain ⟨h1, hh⟩ := memory_writeUInt32BE_ok hs2 h4 hlt
    rw [hh] at hw
    cases hw

/-! ## The invariant of envelopes in memory -/

theorem framed_grows {h h1 : Memory} {e : Envelope} (w : Framed h e) (g : h.grows h1) :
    Framed h1 e := by
  obtain ⟨⟨a1, a2⟩, ⟨b1, b2⟩, ⟨c1, c2⟩, ⟨d1, d2⟩, f⟩ := w
  exact ⟨⟨inside_grows a1 g, a2⟩, ⟨inside_grows b1 g, b2⟩, ⟨inside_grows c1 g, c2⟩,
    ⟨inside_grows d1 g, d2⟩, f⟩

theorem wide_grows {h h1 : Memory} {e : Envelope} (w : Wide h e) (g : h.grows h1) :
    Wide h1 e := by
  obtain ⟨f, ⟨e1, e2⟩, k⟩ := w
  exact ⟨framed_grows f g, ⟨inside_grows e1 g, e2⟩,
    fun d hd => ⟨inside_grows (k d hd).1 g, (k d hd).2⟩⟩

theorem wide_setType (cs : Constants) {h : Memory} {e : Envelope} (n : String)
    (w : Wide h e) : Wide (e.setType cs h n).memory (e.setType cs h n).envelope := by
  obtain ⟨r, g, _⟩ := envelope_setType_effect cs n w.1.2.2.1.1
  have w1 := wide_grows w g
  unfold Wide Framed at w1 ⊢
  rw [r]
  exact w1

/-- After a `data =` assignment the invariant holds, whatever hash and payload were before. -/
theorem wide_setData {h : Memory} {e : Envelope} (a : Arg) (f : Framed h e) :
    Wide (e.setData h a).memory (e.setData h a).envelope := by
  obtain ⟨⟨_, r1, r2, r3, r4, r5, r6⟩, ⟨g, i1, i2⟩, _⟩ := envelope_setData_effect a f.2.2.2.1.1
  have f1 := framed_grows f g
  have ht := f.2.2.1.1.1
  have hs := f.2.2.2.1.1.1
  unfold Wide Framed at *
  rw [r1, r2, r3, r4, r5, r6]
  refine ⟨f1, ⟨i1, rfl, Or.inl ?_, Or.inl ?_⟩, fun d hd => ?_⟩
  · show h.blocks.length ≠ _
    omega
  · show h.blocks.length ≠ _
    omega
  · cases hd
    refine ⟨i2, Or.inl ?_, Or.inl ?_⟩
    · show h.blocks.length + 1 ≠ _
      omega
    · show h.blocks.length + 1 ≠ _
      omega

/-- Two buffers in different allocations share no byte. -/
theorem apart_of_mem {v w : View} (h : v.mem ≠ w.mem) : v.apart w := Or.inl h

/-- The constructor, when it returns: five buffers in new allocations, every buffer there was
left as it was, and the envelope reads as `Message.new` says. -/
theorem envelope_new_ok {cs : Constants} {h h1 : Memory} {e : Envelope}
    (made : Envelope.new cs h = .ok (h1, e)) :
    h.grows h1 ∧ Wide h1 e ∧ e.raw.data = none ∧ e.atType = none ∧
      (∀ v : View, v.mem < h.blocks.length → h1.bytes v = h.bytes v) ∧
      Message.new cs = .ok (e.snapshot h1) ∧
      (h.blocks.length ≤ e.raw.magic.mem ∧ h.blocks.length ≤ e.raw.version.mem ∧
        h.blocks.length ≤ e.raw.type.mem ∧ h.blocks.length ≤ e.raw.size.mem ∧
        h.blocks.length ≤ e.raw.hash.mem) := by
  obtain ⟨a1, a2, a3⟩ := alloc_view h (Buffer.alloc 4)
  obtain ⟨b1, b2, b3⟩ := alloc_view (h.alloc (Buffer.alloc 4)).1 (Buffer.alloc 4)
  obtain ⟨c1, c2, c3⟩ := alloc_view ((h.alloc (Buffer.alloc 4)).1.alloc (Buffer.alloc 4)).1
    (Buffer.alloc 4)
  obtain ⟨d1, d2, d3⟩ := alloc_view
    (((h.alloc (Buffer.alloc 4)).1.alloc (Buffer.alloc 4)).1.alloc (Buffer.alloc 4)).1
    (Buffer.alloc 4)
  obtain ⟨e1, e2, e3⟩ := alloc_view
    ((((h.alloc (Buffer.alloc 4)).1.alloc (Buffer.alloc 4)).1.alloc (Buffer.alloc 4)).1.alloc
      (Buffer.alloc 4)).1 (Buffer.alloc 32)
  have g1 := grows_alloc h (Buffer.alloc 4)
  have g2 := grows_alloc (h.alloc (Buffer.alloc 4)).1 (Buffer.alloc 4)
  have g3 := grows_alloc ((h.alloc (Buffer.alloc 4)).1.alloc (Buffer.alloc 4)).1 (Buffer.alloc 4)
  have g4 := grows_alloc
    (((h.alloc (Buffer.alloc 4)).1.alloc (Buffer.alloc 4)).1.alloc (Buffer.alloc 4)).1
    (Buffer.alloc 4)
  have g5 := grows_alloc
    ((((h.alloc (Buffer.alloc 4)).1.alloc (Buffer.alloc 4)).1.alloc (Buffer.alloc 4)).1.alloc
      (Buffer.alloc 4)).1 (Buffer.alloc 32)
  have n1 := bytes_alloc_new h (Buffer.alloc 4)
  have n2 := bytes_alloc_new (h.alloc (Buffer.alloc 4)).1 (Buffer.alloc 4)
  have n3 := bytes_alloc_new ((h.alloc (Buffer.alloc 4)).1.alloc (Buffer.alloc 4)).1
    (Buffer.alloc 4)
  have n4 := bytes_alloc_new
    (((h.alloc (Buffer.alloc 4)).1.alloc (Buffer.alloc 4)).1.alloc (Buffer.alloc 4)).1
    (Buffer.alloc 4)
  have n5 := bytes_alloc_new
    ((((h.alloc (Buffer.alloc 4)).1.alloc (Buffer.alloc 4)).1.alloc (Buffer.alloc 4)).1.alloc
      (Buffer.alloc 4)).1 (Buffer.alloc 32)
  have o1 := bytes_alloc h (Buffer.alloc 4)
  have o2 := bytes_alloc (h.alloc (Buffer.alloc 4)).1 (Buffer.alloc 4)
  have o3 := bytes_alloc ((h.alloc (Buffer.alloc 4)).1.alloc (Buffer.alloc 4)).1 (Buffer.alloc 4)
  have o4 := bytes_alloc
    (((h.alloc (Buffer.alloc 4)).1.alloc (Buffer.alloc 4)).1.alloc (Buffer.alloc 4)).1
    (Buffer.alloc 4)
  have o5 := bytes_alloc
    ((((h.alloc (Buffer.alloc 4)).1.alloc (Buffer.alloc 4)).1.alloc (Buffer.alloc 4)).1.alloc
      (Buffer.alloc 4)).1 (Buffer.alloc 32)
  unfold Envelope.new at made
  simp only [bind, Except.bind, pure, Except.pure] at made
  generalize h.alloc (Buffer.alloc 4) = m0 at *
  generalize m0.1.alloc (Buffer.alloc 4) = m1 at *
  generalize m1.1.alloc (Buffer.alloc 4) = m2 at *
  generalize m2.1.alloc (Buffer.alloc 4) = m3 at *
  generalize m3.1.alloc (Buffer.alloc 32) = m4 at *
  have i0 := inside_grows a3 (grows_trans g2 (grows_trans g3 (grows_trans g4 g5)))
  have i1 := inside_grows b3 (grows_trans g3 (grows_trans g4 g5))
  have i2 := inside_grows c3 (grows_trans g4 g5)
  have i3 := inside_grows d3 g5
  have k0 : m0.2.mem = h.blocks.length := by rw [a1]
  have k1 : m1.2.mem = h.blocks.length + 1 := by rw [b1, a2]
  have k2 : m2.2.mem = h.blocks.length + 2 := by rw [c1, b2, a2]
  have k3 : m3.2.mem = h.blocks.length + 3 := by rw [d1, c2, b2, a2]
  have k4 : m4.2.mem = h.blocks.length + 4 := by rw [e1, d2, c2, b2, a2]
  have l0 : m0.1.blocks.length = h.blocks.length + 1 := a2
  have l1 : m1.1.blocks.length = h.blocks.length + 2 := by rw [b2, a2]
  have l2 : m2.1.blocks.length = h.blocks.length + 3 := by rw [c2, b2, a2]
  have l3 : m3.1.blocks.length = h.blocks.length + 4 := by rw [d2, c2, b2, a2]
  have z0 : m4.1.bytes m0.2 = Buffer.alloc 4 := by
    rw [o5 _ (by omega), o4 _ (by omega), o3 _ (by omega), o2 _ (by omega), n1]
  have z1 : m4.1.bytes m1.2 = Buffer.alloc 4 := by
    rw [o5 _ (by omega), o4 _ (by omega), o3 _ (by omega), n2]
  have z2 : m4.1.bytes m2.2 = Buffer.alloc 4 := by
    rw [o5 _ (by omega), o4 _ (by omega), n3]
  have z3 : m4.1.bytes m3.2 = Buffer.alloc 4 := by
    rw [o5 _ (by omega), n4]
  have old : ∀ v : View, v.mem < h.blocks.length → m4.1.bytes v = h.bytes v := by
    intro v hv
    rw [o5 _ (by omega), o4 _ (by omega), o3 _ (by omega), o2 _ (by omega), o1 _ hv]
  cases hw1 : m4.1.writeUInt32BE m0.2 cs.MAGIC_BYTES with
  | error err => rw [hw1] at made; cases made
  | ok h6 =>
    rw [hw1] at made
    simp only at made
    obtain ⟨hm, _, q1, w1, f1⟩ := memory_writeUInt32BE i0 hw1
    cases hw2 : h6.writeUInt32BE m1.2 cs.VERSION_NUMBER with
    | error err => rw [hw2] at made; cases made
    | ok h7 =>
      rw [hw2] at made
      simp only [Except.ok.injEq, Prod.mk.injEq] at made
      obtain ⟨hv, _, q2, w2, f2⟩ := memory_writeUInt32BE (inside_grows i1 q1) hw2
      obtain ⟨p1, p2⟩ := made
      subst p1
      subst p2
      have q := grows_trans q1 q2
      have x0 : h7.bytes m0.2 = uint32BE cs.MAGIC_BYTES := by
        rw [f2 _ (apart_of_mem (by omega)), w1, z0]
        rfl
      have x1 : h7.bytes m1.2 = uint32BE cs.VERSION_NUMBER := by
        rw [w2, f1 _ (apart_of_mem (by omega)), z1]
        rfl
      have x2 : h7.bytes m2.2 = Buffer.alloc 4 := by
        rw [f2 _ (apart_of_mem (by omega)), f1 _ (apart_of_mem (by omega)), z2]
      have x3 : h7.bytes m3.2 = Buffer.alloc 4 := by
        rw [f2 _ (apart_of_mem (by omega)), f1 _ (apart_of_mem (by omega)), z3]
      have x4 : h7.bytes m4.2 = Buffer.alloc 32 := by
        rw [f2 _ (apart_of_mem (by omega)), f1 _ (apart_of_mem (by omega)), n5]
      refine ⟨grows_trans g1 (grows_trans g2 (grows_trans g3 (grows_trans g4
        (grows_trans g5 q)))), ?_, rfl, rfl, fun v hv => ?_, ?_, ?_⟩
      · refine ⟨⟨⟨inside_grows i0 q, by rw [a1]; rfl⟩, ⟨inside_grows i1 q, by rw [b1]; rfl⟩,
          ⟨inside_grows i2 q, by rw [c1]; rfl⟩, ⟨inside_grows i3 q, by rw [d1]; rfl⟩,
          ⟨apart_of_mem ?_, apart_of_mem ?_, apart_of_mem ?_⟩,
          ⟨apart_of_mem ?_, apart_of_mem ?_, apart_of_mem ?_⟩⟩,
          ⟨inside_grows e3 q, by rw [e1]; rfl, apart_of_mem ?_, apart_of_mem ?_⟩,
          fun d hd => by cases hd⟩
        all_goals dsimp only
        all_goals omega
      · rw [f2 _ (apart_of_mem (by omega)), f1 _ (apart_of_mem (by omega)), old v hv]
      · rw [new_eq cs hm hv]
        simp only [Envelope.snapshot, x0, x1, x2, x3, x4, Option.map]
      · dsimp only
        omega

/-- The steps of a `fromRaw` call that returned an envelope. -/
theorem envelope_fromRaw_ok {cs : Constants} {h h1 : Memory} {input : View} {e : Envelope}
    (made : Envelope.fromRaw cs h (some input) = .ok (h1, some e)) :
    ∃ h0 e0 s, Envelope.new cs h = .ok (h0, e0) ∧
      Buffer.readUInt32BE (h0.bytes (input.slice 12 16)) = .ok s ∧
      (Envelope.setData h0
        { raw := {
            magic := input.slice 0 4
            version := input.slice 4 8
            type := input.slice 8 12
            size := input.slice 12 16
            hash := input.slice 16 48
            data := none }
          atType := none }
        (.buffer (input.slice 48 (48 + s)))).thrown = none ∧
      h1 = (Envelope.setData h0
        { raw := {
            magic := input.slice 0 4
            version := input.slice 4 8
            type := input.slice 8 12
            size := input.slice 12 16
            hash := input.slice 16 48
            data := none }
          atType := none }
        (.buffer (input.slice 48 (48 + s)))).memory ∧
      e = (Envelope.setData h0
        { raw := {
            magic := input.slice 0 4
            version := input.slice 4 8
            type := input.slice 8 12
            size := input.slice 12 16
            hash := input.slice 16 48
            data := none }
          atType := none }
        (.buffer (input.slice 48 (48 + s)))).envelope := by
  unfold Envelope.fromRaw at made
  cases hnew : Envelope.new cs h with
  | error err => simp [hnew, bind, Except.bind] at made
  | ok r =>
    obtain ⟨h0, e0⟩ := r
    obtain ⟨_, _, _, hat, _, _⟩ := envelope_new_ok hnew
    simp only [hnew, bind, Except.bind, hat] at made
    cases hs : Buffer.readUInt32BE (h0.bytes (input.slice 12 16)) with
    | error err => simp [hs] at made
    | ok s =>
      simp only [hs, HEADER_SIZE] at made
      refine ⟨h0, e0, s, rfl, hs, ?_⟩
      split at made
      · rename_i hn
        simp only [pure, Except.pure, Except.ok.injEq, Prod.mk.injEq, Option.some.injEq] at made
        exact ⟨hn, made.1.symm, made.2.symm⟩
      · cases made

/-- The steps of a `fromVector` call that returned an envelope. -/
theorem envelope_fromVector_ok {cs : Constants} {h h1 : Memory} {n : String} {a : Arg}
    {e : Envelope} (made : Envelope.fromVector cs h n a = .ok (h1, e)) :
    ∃ h0 e0, Envelope.new cs h = .ok (h0, e0) ∧ (e0.setType cs h0 n).thrown = none ∧
      ((e0.setType cs h0 n).envelope.setData (e0.setType cs h0 n).memory a).thrown = none ∧
      h1 = ((e0.setType cs h0 n).envelope.setData (e0.setType cs h0 n).memory a).memory ∧
      e = ((e0.setType cs h0 n).envelope.setData (e0.setType cs h0 n).memory a).envelope := by
  unfold Envelope.fromVector at made
  cases hnew : Envelope.new cs h with
  | error err => simp [hnew, bind, Except.bind] at made
  | ok r =>
    obtain ⟨h0, e0⟩ := r
    simp only [hnew, bind, Except.bind] at made
    refine ⟨h0, e0, rfl, ?_⟩
    split at made
    · cases made
    · rename_i hn
      split at made
      · cases made
      · rename_i hn2
        simp only [pure, Except.pure, Except.ok.injEq, Prod.mk.injEq] at made
        exact ⟨hn, hn2, made.1.symm, made.2.symm⟩

/-- The four windows `fromRaw` takes at offsets 0, 4, 8 and 12 of an input of 16 bytes or
more. -/
theorem framed_slices {h : Memory} {input : View} (within : input.inside h)
    (h16 : 16 ≤ input.len) (hash : View) (data : Option View) (t : Option String) :
    input.slice 0 4 = ⟨input.mem, input.off, 4⟩ ∧
      input.slice 4 8 = ⟨input.mem, input.off + 4, 4⟩ ∧
      input.slice 8 12 = ⟨input.mem, input.off + 8, 4⟩ ∧
      input.slice 12 16 = ⟨input.mem, input.off + 12, 4⟩ ∧
      Framed h
        { raw := {
            magic := input.slice 0 4
            version := input.slice 4 8
            type := input.slice 8 12
            size := input.slice 12 16
            hash := hash
            data := data }
          atType := t } := by
  have s0 : input.slice 0 4 = ⟨input.mem, input.off, 4⟩ := by
    simp only [View.slice, View.mk.injEq, true_and]; omega
  have s4 : input.slice 4 8 = ⟨input.mem, input.off + 4, 4⟩ := by
    simp only [View.slice, View.mk.injEq, true_and]; omega
  have s8 : input.slice 8 12 = ⟨input.mem, input.off + 8, 4⟩ := by
    simp only [View.slice, View.mk.injEq, true_and]; omega
  have s12 : input.slice 12 16 = ⟨input.mem, input.off + 12, 4⟩ := by
    simp only [View.slice, View.mk.injEq, true_and]; omega
  have i0 := inside_slice within 0 4
  have i4 := inside_slice within 4 8
  have i8 := inside_slice within 8 12
  have i12 := inside_slice within 12 16
  refine ⟨s0, s4, s8, s12, ?_⟩
  unfold Framed
  dsimp only
  refine ⟨⟨i0, by rw [s0]⟩, ⟨i4, by rw [s4]⟩, ⟨i8, by rw [s8]⟩, ⟨i12, by rw [s12]⟩, ?_, ?_⟩
  · rw [s0, s4, s8, s12]
    refine ⟨Or.inr (Or.inl ?_), Or.inr (Or.inl ?_), Or.inr (Or.inr ?_)⟩ <;> dsimp only <;> omega
  · rw [s0, s4, s8, s12]
    refine ⟨Or.inr (Or.inl ?_), Or.inr (Or.inl ?_), Or.inr (Or.inl ?_)⟩ <;> dsimp only <;> omega

/-- The envelope `fromRaw` returns: its first four fields are the 4-byte windows at offsets
0, 4, 8 and 12 of the input, which therefore holds 16 bytes or more. -/
theorem wide_fromRaw {cs : Constants} {h h1 : Memory} {input : View} {e : Envelope}
    (within : input.inside h)
    (made : Envelope.fromRaw cs h (some input) = .ok (h1, some e)) :
    Wide h1 e ∧ h.grows h1 ∧ 16 ≤ input.len ∧
      e.raw.magic = ⟨input.mem, input.off, 4⟩ ∧ e.raw.version = ⟨input.mem, input.off + 4, 4⟩ ∧
      e.raw.type = ⟨input.mem, input.off + 8, 4⟩ ∧ e.raw.size = ⟨input.mem, input.off + 12, 4⟩ := by
  obtain ⟨h0, e0, s, hnew, hs, _, q1, q2⟩ := envelope_fromRaw_ok made
  obtain ⟨g, _⟩ := envelope_new_ok hnew
  have w0 := inside_grows within g
  have hl := readUInt32BE_length hs
  rw [bytes_length (inside_slice w0 12 16)] at hl
  have h16 : 16 ≤ input.len := by
    have : (input.slice 12 16).len = min 16 input.len - min 12 input.len := rfl
    omega
  obtain ⟨s0, s4, s8, s12, f⟩ := framed_slices w0 h16 (input.slice 16 48) none none
  have w := wide_setData (.buffer (input.slice 48 (48 + s))) f
  obtain ⟨⟨_, r1, r2, r3, r4, _⟩, ⟨g2, _⟩, _⟩ := envelope_setData_effect
    (e := { raw := {
              magic := input.slice 0 4
              version := input.slice 4 8
              type := input.slice 8 12
              size := input.slice 12 16
              hash := input.slice 16 48
              data := none }
            atType := none })
    (.buffer (input.slice 48 (48 + s))) f.2.2.2.1.1
  rw [← q1, ← q2] at w
  rw [← q1] at g2
  rw [← q2] at r1 r2 r3 r4
  exact ⟨w, grows_trans g g2, h16, by rw [r1, s0], by rw [r2, s4], by rw [r3, s8], by rw [r4, s12]⟩

theorem wide_fromVector {cs : Constants} {h h1 : Memory} {n : String} {a : Arg} {e : Envelope}
    (made : Envelope.fromVector cs h n a = .ok (h1, e)) : Wide h1 e ∧ h.grows h1 := by
  obtain ⟨h0, e0, hnew, _, _, q1, q2⟩ := envelope_fromVector_ok made
  obtain ⟨g, w0, _⟩ := envelope_new_ok hnew
  have w1 := wide_setType cs n w0
  have w2 := wide_setData a w1.1
  obtain ⟨_, g1, _⟩ := envelope_setType_effect cs n w0.1.2.2.1.1
  obtain ⟨_, ⟨g2, _⟩, _⟩ := envelope_setData_effect
    (e := (e0.setType cs h0 n).envelope) (h := (e0.setType cs h0 n).memory) a w1.1.2.2.2.1.1
  rw [← q1, ← q2] at w2
  rw [← q1] at g2
  exact ⟨w2, grows_trans g (grows_trans g1 g2)⟩

/-- Every envelope, in every memory it can find itself in, has its fields within their
allocations and of the fixed widths. -/
theorem live_wide {cs : Constants} {guard : Envelope → List View} {h : Memory} {e : Envelope}
    (alive : Live cs guard h e) : Wide h e := by
  induction alive with
  | new made => exact (envelope_new_ok made).2.1
  | fromVector _ made => exact (wide_fromVector made).1
  | fromRaw within made => exact (wide_fromRaw within made).1
  | setType n _ ih => exact wide_setType cs n ih
  | setData a _ _ ih => exact wide_setData a ih.1
  | elsewhere _ grown _ ih => exact wide_grows ih grown

theorem live_mono {cs : Constants} {g1 g2 : Envelope → List View} {h : Memory} {e : Envelope}
    (sub : ∀ e v, v ∈ g2 e → v ∈ g1 e) (alive : Live cs g1 h e) : Live cs g2 h e := by
  induction alive with
  | new made => exact Live.new made
  | fromVector typed made => exact Live.fromVector typed made
  | fromRaw within made => exact Live.fromRaw within made
  | setType n _ ih => exact Live.setType n ih
  | setData a typed _ ih => exact Live.setData a typed ih
  | elsewhere _ grown kept ih => exact Live.elsewhere ih grown (fun v hv => kept v (sub _ v hv))

theorem fixedWidth_snapshot {h : Memory} {e : Envelope} (w : Wide h e) :
    FixedWidth (e.snapshot h) := by
  obtain ⟨⟨⟨a1, a2⟩, ⟨b1, b2⟩, ⟨c1, c2⟩, ⟨d1, d2⟩, _⟩, ⟨e1, e2, _⟩, _⟩ := w
  exact ⟨by rw [← a2]; exact bytes_length a1, by rw [← b2]; exact bytes_length b1,
    by rw [← c2]; exact bytes_length c1, by rw [← d2]; exact bytes_length d1,
    by rw [← e2]; exact bytes_length e1⟩

/-! ## What the data setter leaves in size and hash -/

theorem utf8Write_arg (h : Memory) (a : Arg) (typed : a.valid h) :
    utf8Write (a.value h).toStringUtf8 = utf8Write (utf8Slice (Buffer.ofValue (a.value h))) := by
  cases a with
  | undefined => rfl
  | string s => exact (utf8Write_utf8Slice_utf8Write s typed).symm
  | buffer v => rfl

/-- After a `data =` assignment the size field holds the payload length, when it fits. -/
theorem sized_setData {h : Memory} {e : Envelope} (a : Arg)
    (hs : e.raw.size.inside h ∧ e.raw.size.len = 4) (d : View)
    (hd : (e.setData h a).envelope.raw.data = some d) (hlt : d.len < 4294967296) :
    (e.setData h a).memory.bytes (e.setData h a).envelope.raw.size = uint32BE d.len := by
  obtain ⟨⟨_, _, _, _, r4, _, r6⟩, _, _, _, done⟩ := envelope_setData_effect (e := e) a hs.1
  rw [r6] at hd
  cases hd
  rw [r4, (done (by omega) hlt).2, List.drop_eq_nil_of_le (by rw [bytes_length hs.1]; omega),
    List.append_nil]

/-- After a `data =` assignment the hash field holds the digest of the payload's text form. -/
theorem digest_setData {h : Memory} {e : Envelope} (a : Arg) (typed : a.valid h)
    (hs : e.raw.size.inside h) (d : View)
    (hd : (e.setData h a).envelope.raw.data = some d) :
    (e.setData h a).memory.bytes (e.setData h a).envelope.raw.hash =
      sha256 (utf8Write (utf8Slice ((e.setData h a).memory.bytes d))) := by
  obtain ⟨⟨_, _, _, _, _, r5, r6⟩, _, ⟨b1, b2⟩, _⟩ := envelope_setData_effect (e := e) a hs
  rw [r6] at hd
  cases hd
  rw [r5, b1, b2, utf8Write_arg h a typed]

/-- While nothing else writes its size field, an envelope's size field holds the length of its
payload (when that fits 32 bits). -/
theorem live_sized {cs : Constants} {guard : Envelope → List View} {h : Memory} {e : Envelope}
    (hg : ∀ e : Envelope, e.raw.size ∈ guard e) (alive : Live cs guard h e) :
    ∀ d, e.raw.data = some d → d.len < 4294967296 → h.bytes e.raw.size = uint32BE d.len := by
  induction alive with
  | new made =>
    intro d hd
    rw [(envelope_new_ok made).2.2.1] at hd
    cases hd
  | @fromVector h h1 n a e _ made =>
    obtain ⟨h0, e0, hnew, _, _, q1, q2⟩ := envelope_fromVector_ok made
    have w1 := wide_setType cs n (envelope_new_ok hnew).2.1
    subst q1
    subst q2
    exact sized_setData a w1.1.2.2.2.1
  | @fromRaw h h1 input e within made =>
    obtain ⟨h0, e0, s, hnew, _, _, q1, q2⟩ := envelope_fromRaw_ok made
    obtain ⟨_, _, h16, _⟩ := wide_fromRaw within made
    have i12 := inside_slice (inside_grows within (envelope_new_ok hnew).1) 12 16
    have l12 : (input.slice 12 16).len = 4 := by
      show min 16 input.len - min 12 input.len = 4
      omega
    subst q1
    subst q2
    exact sized_setData _ ⟨i12, l12⟩
  | setType n before ih =>
    have w := live_wide before
    obtain ⟨r, _, f⟩ := envelope_setType_effect cs n w.1.2.2.1.1
    rw [r, f _ w.1.2.2.2.2.1.2.2]
    exact ih
  | setData a _ before _ =>
    exact sized_setData a (live_wide before).1.2.2.2.1
  | elsewhere _ _ kept ih =>
    rw [kept _ (hg _)]
    exact ih

/-- While nothing else writes its hash field and its payload, an envelope's hash field holds
the digest the `data` setter derived from the payload. -/
theorem live_digest {cs : Constants} {guard : Envelope → List View} {h : Memory} {e : Envelope}
    (hg : ∀ e : Envelope, e.raw.hash ∈ guard e ∧ ∀ d, e.raw.data = some d → d ∈ guard e)
    (alive : Live cs guard h e) :
    ∀ d, e.raw.data = some d →
      h.bytes e.raw.hash = sha256 (utf8Write (utf8Slice (h.bytes d))) := by
  induction alive with
  | new made =>
    intro d hd
    rw [(envelope_new_ok made).2.2.1] at hd
    cases hd
  | @fromVector h h1 n a e typed made =>
    obtain ⟨h0, e0, hnew, _, _, q1, q2⟩ := envelope_fromVector_ok made
    obtain ⟨g0, w0, _⟩ := envelope_new_ok hnew
    have w1 := wide_setType cs n w0
    obtain ⟨_, g1, _⟩ := envelope_setType_effect cs n w0.1.2.2.1.1
    have t1 : a.valid (e0.setType cs h0 n).memory := by
      cases a with
      | undefined => trivial
      | string s => exact typed
      | buffer v => exact inside_grows typed (grows_trans g0 g1)
    subst q1
    subst q2
    exact digest_setData a t1 w1.1.2.2.2.1.1
  | @fromRaw h h1 input e within made =>
    obtain ⟨h0, e0, s, hnew, _, _, q1, q2⟩ := envelope_fromRaw_ok made
    have w0 := inside_grows within (envelope_new_ok hnew).1
    subst q1
    subst q2
    exact digest_setData _ (inside_slice w0 48 (48 + s)) (inside_slice w0 12 16)
  | setType n before ih =>
    have w := live_wide before
    obtain ⟨r, _, f⟩ := envelope_setType_effect cs n w.1.2.2.1.1
    intro d hd
    rw [r] at hd ⊢
    rw [f _ w.2.1.2.2.1, f _ (w.2.2 d hd).2.1]
    exact ih d hd
  | setData a typed before _ =>
    exact digest_setData a typed (live_wide before).1.2.2.2.1.1
  | elsewhere _ _ kept ih =>
    intro d hd
    rw [kept _ (hg _).1, kept _ ((hg _).2 d hd)]
    exact ih d hd

/-! ## One envelope at a time: memory against values

Each operation on an envelope in memory, read through `Envelope.snapshot`, is the operation
of the same name on `Message`. -/

/-- The `type` setter in memory is the `type` setter on what the envelope reads as. -/
theorem snapshot_setType (cs : Constants) {h : Memory} {e : Envelope} (n : String)
    (w : Wide h e) :
    (e.setType cs h n).envelope.snapshot (e.setType cs h n).memory =
        ((e.snapshot h).setType cs n).message ∧
      (e.setType cs h n).thrown = ((e.snapshot h).setType cs n).thrown := by
  obtain ⟨⟨_, _, ⟨ti, _⟩, _, ⟨mt, vt, st⟩, _⟩, ⟨_, _, ht, _⟩, k⟩ := w
  have frame (h1 : Memory) (t : Bytes) (a : Option String) (ht1 : h1.bytes e.raw.type = t)
      (f : ∀ v : View, v.apart e.raw.type → h1.bytes v = h.bytes v) :
      Envelope.snapshot h1 { e with atType := a } =
        { raw := { (e.snapshot h).raw with type := t }, atType := a } := by
    simp only [Envelope.snapshot, f _ mt, f _ vt, f _ st, f _ ht, ht1]
    congr 2
    cases hd : e.raw.data with
    | none => rfl
    | some d => simp only [Option.map, f _ (k d hd).2.1]
  cases hl : Message.typesLookup cs n with
  | undefined =>
    have e1 : e.setType cs h n = ⟨h, e, some (.unknownType n)⟩ := by
      simp [Envelope.setType, hl]
    have e2 : (e.snapshot h).setType cs n = ⟨e.snapshot h, some (.unknownType n)⟩ := by
      simp [Message.setType, hl]
    rw [e1, e2]
    exact ⟨rfl, rfl⟩
  | number code =>
    by_cases h0 : code = 0
    · have e1 : e.setType cs h n = ⟨h, e, some (.unknownType n)⟩ := by
        simp [Envelope.setType, hl, h0]
      have e2 : (e.snapshot h).setType cs n = ⟨e.snapshot h, some (.unknownType n)⟩ := by
        simp [Message.setType, hl, h0]
      rw [e1, e2]
      exact ⟨rfl, rfl⟩
    · cases hb : Buffer.writeUInt32BE (h.bytes e.raw.type) code with
      | ok b =>
        have hw : h.writeUInt32BE e.raw.type code = .ok (h.put e.raw.type b) := by
          simp [Memory.writeUInt32BE, hb]
        have e1 : e.setType cs h n = ⟨h.put e.raw.type b, { e with atType := some n }, none⟩ := by
          simp [Envelope.setType, hl, h0, hw]
        have e2 : (e.snapshot h).setType cs n =
            ⟨{ raw := { (e.snapshot h).raw with type := b }, atType := some n }, none⟩ := by
          have hb2 : Buffer.writeUInt32BE (e.snapshot h).raw.type code = .ok b := hb
          simp [Message.setType, hl, h0, hb2]
        obtain ⟨_, _, _, w1, f⟩ := memory_writeUInt32BE ti hw
        rw [e1, e2]
        refine ⟨frame _ _ _ ?_ f, rfl⟩
        rw [w1]
        exact (writeUInt32BE_inv hb).2.2.symm
      | error err =>
        have hw : h.writeUInt32BE e.raw.type code = .error err := by
          simp [Memory.writeUInt32BE, hb]
        have e1 : e.setType cs h n = ⟨h, { e with atType := some n }, some err⟩ := by
          simp [Envelope.setType, hl, h0, hw]
        have e2 : (e.snapshot h).setType cs n =
            ⟨{ (e.snapshot h) with atType := some n }, some err⟩ := by
          have hb2 : Buffer.writeUInt32BE (e.snapshot h).raw.type code = .error err := hb
          simp [Message.setType, hl, h0, hb2]
        rw [e1, e2]
        exact ⟨rfl, rfl⟩
  | inherited =>
    cases hb : Buffer.writeUInt32BENaN (h.bytes e.raw.type) with
    | ok b =>
      have hw : h.writeUInt32BENaN e.raw.type = .ok (h.put e.raw.type b) := by
        simp [Memory.writeUInt32BENaN, hb]
      have e1 : e.setType cs h n = ⟨h.put e.raw.type b, { e with atType := some n }, none⟩ := by
        simp [Envelope.setType, hl, hw]
      have e2 : (e.snapshot h).setType cs n =
          ⟨{ raw := { (e.snapshot h).raw with type := b }, atType := some n }, none⟩ := by
        have hb2 : Buffer.writeUInt32BENaN (e.snapshot h).raw.type = .ok b := hb
        simp [Message.setType, hl, hb2]
      obtain ⟨_, _, w1, f⟩ := memory_writeUInt32BENaN ti hw
      rw [e1, e2]
      refine ⟨frame _ _ _ ?_ f, rfl⟩
      rw [w1]
      exact (writeUInt32BENaN_inv hb).2.symm
    | error err =>
      have hw : h.writeUInt32BENaN e.raw.type = .error err := by
        simp [Memory.writeUInt32BENaN, hb]
      have e1 : e.setType cs h n = ⟨h, { e with atType := some n }, some err⟩ := by
        simp [Envelope.setType, hl, hw]
      have e2 : (e.snapshot h).setType cs n =
          ⟨{ (e.snapshot h) with atType := some n }, some err⟩ := by
        have hb2 : Buffer.writeUInt32BENaN (e.snapshot h).raw.type = .error err := hb
        simp [Message.setType, hl, hb2]
      rw [e1, e2]
      exact ⟨rfl, rfl⟩

/-- The `data` setter in memory is the `data` setter on what the envelope reads as, given what
the argument reads as. -/
theorem snapshot_setData {h : Memory} {e : Envelope} (a : Arg) (f : Framed h e) :
    (e.setData h a).envelope.snapshot (e.setData h a).memory =
        ((e.snapshot h).setData (a.value h)).message ∧
      (e.setData h a).thrown = ((e.snapshot h).setData (a.value h)).thrown := by
  obtain ⟨⟨mi, _⟩, ⟨vi, _⟩, ⟨ti, _⟩, ⟨si, _⟩, _, ⟨ms, vs, ts⟩⟩ := f
  obtain ⟨g, i1, i2, b1, b2, old⟩ := alloc_two h (sha256 (utf8Write (a.value h).toStringUtf8))
    (Buffer.ofValue (a.value h))
  rw [sha256_length] at i1 b1
  have si2 := inside_grows si g
  have a1 : View.apart ⟨h.blocks.length, 0, 32⟩ e.raw.size :=
    Or.inl (by have := si.1; show h.blocks.length ≠ _; omega)
  have a2 : View.apart ⟨h.blocks.length + 1, 0, (Buffer.ofValue (a.value h)).length⟩ e.raw.size :=
    Or.inl (by have := si.1; show h.blocks.length + 1 ≠ _; omega)
  rw [envelope_setData_unfold, setData_unfold]
  cases hb : Buffer.writeUInt32BE (h.bytes e.raw.size) (Buffer.ofValue (a.value h)).length with
  | ok b =>
    have hw : ((h.alloc (sha256 (utf8Write (a.value h).toStringUtf8))).1.alloc
        (Buffer.ofValue (a.value h))).1.writeUInt32BE e.raw.size
        (Buffer.ofValue (a.value h)).length = .ok
          (((h.alloc (sha256 (utf8Write (a.value h).toStringUtf8))).1.alloc
            (Buffer.ofValue (a.value h))).1.put e.raw.size b) := by
      simp [Memory.writeUInt32BE, old _ si.1, hb]
    have hb2 : Buffer.writeUInt32BE (e.snapshot h).raw.size (Buffer.ofValue (a.value h)).length
        = .ok b := hb
    obtain ⟨_, _, _, w1, w2⟩ := memory_writeUInt32BE si2 hw
    rw [hw, hb2]
    refine ⟨?_, rfl⟩
    simp only [Envelope.snapshot, Option.map, w2 _ ms, w2 _ vs, w2 _ ts, w2 _ a1, w2 _ a2,
      old _ mi.1, old _ vi.1, old _ ti.1, b1, b2, w1, old _ si.1,
      ← (writeUInt32BE_inv hb).2.2]
  | error err =>
    have hw : ((h.alloc (sha256 (utf8Write (a.value h).toStringUtf8))).1.alloc
        (Buffer.ofValue (a.value h))).1.writeUInt32BE e.raw.size
        (Buffer.ofValue (a.value h)).length = .error err := by
      simp [Memory.writeUInt32BE, old _ si.1, hb]
    have hb2 : Buffer.writeUInt32BE (e.snapshot h).raw.size (Buffer.ofValue (a.value h)).length
        = .error err := hb
    rw [hw, hb2]
    refine ⟨?_, rfl⟩
    simp only [Envelope.snapshot, Option.map, old _ mi.1, old _ vi.1, old _ ti.1, old _ si.1,
      b1, b2]

/-- The constructor returns whenever magic and version fit 32 bits. -/
theorem envelope_new_some (cs : Constants) (h : Memory) (hm : cs.MAGIC_BYTES < 4294967296)
    (hv : cs.VERSION_NUMBER < 4294967296) : ∃ h1 e, Envelope.new cs h = .ok (h1, e) := by
  obtain ⟨a1, a2, a3⟩ := alloc_view h (Buffer.alloc 4)
  obtain ⟨b1, b2, b3⟩ := alloc_view (h.alloc (Buffer.alloc 4)).1 (Buffer.alloc 4)
  have g2 := grows_alloc (h.alloc (Buffer.alloc 4)).1 (Buffer.alloc 4)
  have g3 := grows_alloc ((h.alloc (Buffer.alloc 4)).1.alloc (Buffer.alloc 4)).1 (Buffer.alloc 4)
  have g4 := grows_alloc
    (((h.alloc (Buffer.alloc 4)).1.alloc (Buffer.alloc 4)).1.alloc (Buffer.alloc 4)).1
    (Buffer.alloc 4)
  have g5 := grows_alloc
    ((((h.alloc (Buffer.alloc 4)).1.alloc (Buffer.alloc 4)).1.alloc (Buffer.alloc 4)).1.alloc
      (Buffer.alloc 4)).1 (Buffer.alloc 32)
  unfold Envelope.new
  simp only [bind, Except.bind, pure, Except.pure]
  generalize h.alloc (Buffer.alloc 4) = m0 at *
  generalize m0.1.alloc (Buffer.alloc 4) = m1 at *
  generalize m1.1.alloc (Buffer.alloc 4) = m2 at *
  generalize m2.1.alloc (Buffer.alloc 4) = m3 at *
  generalize m3.1.alloc (Buffer.alloc 32) = m4 at *
  have i0 := inside_grows a3 (grows_trans g2 (grows_trans g3 (grows_trans g4 g5)))
  have i1 := inside_grows b3 (grows_trans g3 (grows_trans g4 g5))
  obtain ⟨h6, hw1⟩ := memory_writeUInt32BE_ok i0 (by rw [a1]; exact Nat.le_refl 4) hm
  obtain ⟨_, _, q1, _, _⟩ := memory_writeUInt32BE i0 hw1
  obtain ⟨h7, hw2⟩ := memory_writeUInt32BE_ok (inside_grows i1 q1)
    (by rw [b1]; exact Nat.le_refl 4) hv
  rw [hw1]
  simp only
  rw [hw2]
  exact ⟨_, _, rfl⟩

theorem memory_writeUInt32BE_error {h : Memory} {v : View} {n : Nat} {e : Error}
    (hw : h.writeUInt32BE v n = .error e) : e = .rangeError := by
  unfold Memory.writeUInt32BE at hw
  cases hb : Buffer.writeUInt32BE (h.bytes v) n with
  | ok b => rw [hb] at hw; cases hw
  | error e2 =>
    rw [hb] at hw
    rw [← Except.error.inj hw]
    exact writeUInt32BE_error hb

theorem envelope_new_error {cs : Constants} {h : Memory} {err : Error}
    (hnew : Envelope.new cs h = .error err) : err = .rangeError := by
  unfold Envelope.new at hnew
  simp only [bind, Except.bind, pure, Except.pure] at hnew
  generalize h.alloc (Buffer.alloc 4) = m0 at *
  generalize m0.1.alloc (Buffer.alloc 4) = m1 at *
  generalize m1.1.alloc (Buffer.alloc 4) = m2 at *
  generalize m2.1.alloc (Buffer.alloc 4) = m3 at *
  generalize m3.1.alloc (Buffer.alloc 32) = m4 at *
  cases hw1 : m4.1.writeUInt32BE m0.2 cs.MAGIC_BYTES with
  | error e1 =>
    rw [hw1] at hnew
    rw [← Except.error.inj hnew]
    exact memory_writeUInt32BE_error hw1
  | ok h6 =>
    rw [hw1] at hnew
    simp only at hnew
    cases hw2 : h6.writeUInt32BE m1.2 cs.VERSION_NUMBER with
    | error e2 =>
      rw [hw2] at hnew
      rw [← Except.error.inj hnew]
      exact memory_writeUInt32BE_error hw2
    | ok h7 =>
      rw [hw2] at hnew
      cases hnew

/-- The constructor in memory is the constructor on values. -/
theorem snapshot_new (cs : Constants) (h : Memory) :
    (Envelope.new cs h).map (fun r => r.2.snapshot r.1) = Message.new cs := by
  cases hnew : Envelope.new cs h with
  | ok r =>
    obtain ⟨h1, e⟩ := r
    rw [(envelope_new_ok hnew).2.2.2.2.2.1]
    rfl
  | error err =>
    cases hval : Message.new cs with
    | ok m =>
      obtain ⟨hm, hv, _⟩ := new_ok hval
      obtain ⟨h1, e, he⟩ := envelope_new_some cs h hm hv
      rw [he] at hnew
      cases hnew
    | error err2 =>
      rw [new_error cs err2 hval, envelope_new_error hnew]
      rfl

/-- The method `fromRaw` in memory, read through `snapshot`, is `fromRaw` on the bytes of the
input: same exception, or the envelope returned reads as the value `Message.fromRaw` gives. -/
theorem snapshot_fromRaw (cs : Constants) (h : Memory) (input : View)
    (within : input.inside h) :
    (Envelope.fromRaw cs h (some input)).map (fun r => r.2.map (Envelope.snapshot r.1)) =
      Message.fromRaw cs (some (h.bytes input)) := by
  have hval := snapshot_new cs h
  cases hnew : Envelope.new cs h with
  | error err =>
    rw [hnew] at hval
    have hv2 : Message.new cs = .error err := hval.symm
    simp [Envelope.fromRaw, Message.fromRaw, hnew, hv2, bind, Except.bind, Except.map]
  | ok r =>
    obtain ⟨h0, e0⟩ := r
    obtain ⟨g, _, _, hat, old, hv2, _⟩ := envelope_new_ok hnew
    have w0 := inside_grows within g
    have sl (a b : Nat) : h0.bytes (input.slice a b) = Buffer.slice (h.bytes input) a b := by
      rw [bytes_slice, old _ within.1]
    cases hs : Buffer.readUInt32BE (Buffer.slice (h.bytes input) 12 16) with
    | error err =>
      simp [Envelope.fromRaw, Message.fromRaw, hnew, hv2, bind, Except.bind, Except.map, sl, hs]
    | ok s =>
      have hl := readUInt32BE_length hs
      rw [← sl, bytes_length (inside_slice w0 12 16)] at hl
      have h16 : 16 ≤ input.len := by
        have : (input.slice 12 16).len = min 16 input.len - min 12 input.len := rfl
        omega
      obtain ⟨_, _, _, _, f⟩ := framed_slices w0 h16 (input.slice 16 48) none none
      obtain ⟨r1, r2⟩ := snapshot_setData (.buffer (input.slice 48 (48 + s))) f
      have hpre : Envelope.snapshot h0
          { raw := {
              magic := input.slice 0 4
              version := input.slice 4 8
              type := input.slice 8 12
              size := input.slice 12 16
              hash := input.slice 16 48
              data := none }
            atType := none } =
          { raw := {
              magic := Buffer.slice (h.bytes input) 0 4
              version := Buffer.slice (h.bytes input) 4 8
              type := Buffer.slice (h.bytes input) 8 12
              size := Buffer.slice (h.bytes input) 12 16
              hash := Buffer.slice (h.bytes input) 16 48
              data := none }
            atType := none } := by
        simp only [Envelope.snapshot, sl, Option.map]
      have harg : Arg.value h0 (.buffer (input.slice 48 (48 + s))) =
          .buffer (Buffer.slice (h.bytes input) 48 (48 + s)) := by
        simp only [Arg.value, sl]
      have hat2 : (Envelope.snapshot h0 e0).atType = none := hat
      rw [hpre, harg] at r1 r2
      simp only [Envelope.fromRaw, Message.fromRaw, hnew, hv2, bind, Except.bind, sl, hs, hat,
        hat2, HEADER_SIZE]
      generalize Envelope.setData h0 _ _ = eff at r1 r2 ⊢
      generalize Message.setData _ _ = out at r1 r2 ⊢
      unfold Outcome.result
      rw [← r2]
      cases eff.thrown with
      | none =>
        simp only [Except.map, pure, Except.pure, Option.map, r1]
      | some err => rfl

/-- The method `fromVector` in memory, read through `snapshot`, is `fromVector` on what the
payload argument reads as. -/
theorem snapshot_fromVector (cs : Constants) (h : Memory) (n : String) (a : Arg)
    (typed : a.valid h) :
    (Envelope.fromVector cs h n a).map (fun r => r.2.snapshot r.1) =
      Message.fromVector cs n (a.value h) := by
  have hval := snapshot_new cs h
  cases hnew : Envelope.new cs h with
  | error err =>
    rw [hnew] at hval
    have hv2 : Message.new cs = .error err := hval.symm
    simp [Envelope.fromVector, Message.fromVector, hnew, hv2, bind, Except.bind, Except.map]
  | ok r =>
    obtain ⟨h0, e0⟩ := r
    obtain ⟨g, w0, _, _, old, hv2, _, _, fresh, _⟩ := envelope_new_ok hnew
    obtain ⟨t1, t2⟩ := snapshot_setType cs n w0
    have w1 := wide_setType cs n w0
    obtain ⟨_, g1, f1⟩ := envelope_setType_effect cs n w0.1.2.2.1.1
    obtain ⟨d1, d2⟩ := snapshot_setData (h := (e0.setType cs h0 n).memory)
      (e := (e0.setType cs h0 n).envelope) a w1.1
    have harg : a.value (e0.setType cs h0 n).memory = a.value h := by
      cases a with
      | undefined => rfl
      | string s => rfl
      | buffer v =>
        have hv : v.mem < h.blocks.length := typed.1
        have ha : v.apart e0.raw.type := Or.inl (by omega)
        simp only [Arg.value, f1 _ ha, old _ hv]
    rw [harg, t1] at d1
    rw [harg, t1] at d2
    simp only [Envelope.fromVector, Message.fromVector, hnew, hv2, bind, Except.bind]
    generalize Envelope.setType cs h0 e0 n = eff1 at *
    generalize Message.setType cs (Envelope.snapshot h0 e0) n = out1 at *
    generalize Envelope.setData eff1.memory eff1.envelope a = eff2 at *
    unfold Outcome.result
    rw [← t2]
    cases eff1.thrown with
    | some err => rfl
    | none =>
      simp only
      rw [← d2]
      cases eff2.thrown with
      | some err => rfl
      | none => simp only [Except.map, pure, Except.pure, d1]

/-! ## What sharing does -/

/-- Every envelope, whatever other code writes, has a header of exactly 48 bytes. -/
theorem live_header_length {cs : Constants} {guard : Envelope → List View} {h : Memory}
    {e : Envelope} (alive : Live cs guard h e) : (e.snapshot h).header.length = 48 := by
  obtain ⟨f1, f2, f3, f4, f5⟩ := fixedWidth_snapshot (live_wide alive)
  simp only [Message.header, List.length_append, f1, f2, f3, f4, f5]

set_option maxRecDepth 100000 in
/-- The method `fromRaw` writes into the buffer it is given: on the 20-byte `sampleShort`,
whose bytes 12..15 declare size 5 and which carries no byte from offset 48 on, the envelope
returned has an empty payload, and bytes 12..15 of the caller's buffer read 0 afterwards. -/
theorem fromRaw_writes_input :
    ∃ h1 r, Envelope.fromRaw sampleConstants ⟨[sampleShort]⟩ (some ⟨0, 0, 20⟩) = .ok (h1, some r) ∧
      Memory.bytes ⟨[sampleShort]⟩ ⟨0, 12, 4⟩ = [0, 0, 0, 5] ∧
      h1.bytes ⟨0, 12, 4⟩ = [0, 0, 0, 0] ∧ r.raw.size = ⟨0, 12, 4⟩ ∧
      (r.snapshot h1).raw.data = some [] := by
  refine ⟨_, _, rfl, ?_⟩
  decide

set_option maxRecDepth 100000 in
/-- The hash field can be written by other code too: after `m = fromVector(['Ping', 'hello'])`,
the call `fromRaw(m.raw.hash)` takes bytes 12..15 of the digest for a size field and writes 0
there, so that `m`, and an envelope `m2` made by the same `fromVector` call afterwards, agree
on magic, version, type field, size field and payload, and have different ids. -/
theorem hash_written_elsewhere :
    ∃ h1 m h2 r h3 m2,
      Envelope.fromVector sampleConstants ⟨[]⟩ "Ping" (.string sampleHello) = .ok (h1, m) ∧
      Envelope.fromRaw sampleConstants h1 (some m.raw.hash) = .ok (h2, some r) ∧
      Envelope.fromVector sampleConstants h2 "Ping" (.string sampleHello) = .ok (h3, m2) ∧
      h3.bytes m.raw.hash ≠ h1.bytes m.raw.hash ∧
      (m.snapshot h3).raw.magic = (m2.snapshot h3).raw.magic ∧
      (m.snapshot h3).raw.version = (m2.snapshot h3).raw.version ∧
      (m.snapshot h3).raw.type = (m2.snapshot h3).raw.type ∧
      (m.snapshot h3).raw.size = (m2.snapshot h3).raw.size ∧
      (m.snapshot h3).raw.data = (m2.snapshot h3).raw.data ∧
      (m.snapshot h3).id ≠ (m2.snapshot h3).id := by
  refine ⟨_, _, _, _, _, _, rfl, rfl, rfl, ?_⟩
  decide

set_option maxRecDepth 100000 in
/-- The payload can be written by other code as well: after
`m = fromVector(['Ping', p])` with `p` sixteen bytes `01`, the call `fromRaw(m.raw.data)`
writes 0 into bytes 12..15 of the payload of `m`, whose hash field still holds the digest of
`p`; an envelope `m2` made afterwards with the payload `m` now holds agrees with `m` on
magic, version, type field, size field and payload, and has a different id. -/
theorem payload_written_elsewhere :
    ∃ h1 m d h2 r h3 m2,
      Envelope.fromVector sampleConstants ⟨[]⟩ "Ping" (.string (List.replicate 16 1))
        = .ok (h1, m) ∧
      m.raw.data = some d ∧
      Envelope.fromRaw sampleConstants h1 (some d) = .ok (h2, some r) ∧
      Envelope.fromVector sampleConstants h2 "Ping"
        (.string (List.replicate 12 1 ++ List.replicate 4 0)) = .ok (h3, m2) ∧
      h1.bytes d = List.replicate 16 1 ∧
      h3.bytes d = List.replicate 12 1 ++ List.replicate 4 0 ∧
      (m.snapshot h3).raw.magic = (m2.snapshot h3).raw.magic ∧
      (m.snapshot h3).raw.version = (m2.snapshot h3).raw.version ∧
      (m.snapshot h3).raw.type = (m2.snapshot h3).raw.type ∧
      (m.snapshot h3).raw.size = (m2.snapshot h3).raw.size ∧
      (m.snapshot h3).raw.data = (m2.snapshot h3).raw.data ∧
      (m.snapshot h3).id ≠ (m2.snapshot h3).id := by
  refine ⟨_, _, _, _, _, _, _, rfl, rfl, rfl, rfl, ?_⟩
  decide

/-! ## Wire forms of envelopes in memory -/

theorem snapshot_data {h : Memory} {e : Envelope} {d : View} (hd : e.raw.data = some d) :
    (e.snapshot h).raw.data = some (h.bytes d) := by
  simp [Envelope.snapshot, hd]

/-- Two wire forms with headers of the fixed widths are equal only if every field is. -/
theorem header_append_inj {m1 m2 : Message} {d1 d2 : Bytes} (s1 : FixedWidth m1)
    (s2 : FixedWidth m2) (h : m1.header ++ d1 = m2.header ++ d2) :
    m1.raw.magic = m2.raw.magic ∧ m1.raw.version = m2.raw.version ∧
      m1.raw.type = m2.raw.type ∧ m1.raw.size = m2.raw.size ∧ m1.raw.hash = m2.raw.hash ∧
      d1 = d2 := by
  obtain ⟨a1, a2, a3, a4, a5⟩ := s1
  obtain ⟨b1, b2, b3, b4, b5⟩ := s2
  unfold Message.header at h
  obtain ⟨h5, hd⟩ := List.append_inj h (by simp [a1, a2, a3, a4, a5, b1, b2, b3, b4, b5])
  obtain ⟨h4, hh⟩ := List.append_inj h5 (by simp [a1, a2, a3, a4, b1, b2, b3, b4])
  obtain ⟨h3, hs⟩ := List.append_inj h4 (by simp [a1, a2, a3, b1, b2, b3])
  obtain ⟨h2, ht⟩ := List.append_inj h3 (by simp [a1, a2, b1, b2])
  obtain ⟨hm, hv⟩ := List.append_inj h2 (by simp [a1, b1])
  exact ⟨hm, hv, ht, hs, hh, hd⟩

/-! ## The claims, continued -/

/-- C11 (truncated input), as stated, fails on a one-byte input: it is not empty and shorter
than the header, and `fromRaw` raises a `RangeError`, because the size slice holds fewer than
4 bytes. -/
theorem fromRaw_one_byte_throws :
    ([1] : Bytes) ≠ [] ∧ ([1] : Bytes).length < 48 ∧
      Message.fromRaw sampleConstants (some [1]) = .error .rangeError := by
  decide

/-- C11 (truncated input), amended. For every input from which a size `s` can be read at
offset 12 (it then has at least 16 bytes) and that has fewer than `48 + s` bytes, be it
shorter than the 48-byte header or not, `fromRaw` raises no error and returns an envelope
built from the short slices: magic, version and type are the positional slices, the payload is
whatever follows offset 48, and `size` reads the length of that payload. -/
theorem fromRaw_truncated (cs : Constants) (input : Bytes) (s : Nat)
    (hm : cs.MAGIC_BYTES < 4294967296) (hv : cs.VERSION_NUMBER < 4294967296)
    (hb : IsBytes input) (hs : Buffer.readUInt32BE (input.drop 12) = .ok s)
    (htrunc : input.length < 48 + s) :
    ∃ r, Message.fromRaw cs (some input) = .ok (some r) ∧
      r.raw.magic = Buffer.slice input 0 4 ∧ r.raw.version = Buffer.slice input 4 8 ∧
      r.raw.type = Buffer.slice input 8 12 ∧ r.raw.data = some (input.drop 48) ∧
      r.size = .ok (input.length - 48) := by
  have hs' : Buffer.readUInt32BE (Buffer.slice input 12 16) = .ok s := by
    rw [readUInt32BE_slice]; exact hs
  have hlt : s < 4294967296 := readUInt32BE_lt (isBytes_slice hb 12 16) hs'
  have hpay : Buffer.slice input 48 (48 + s) = input.drop 48 := by
    rw [slice_drop]
    exact List.take_of_length_le (by rw [List.length_drop]; omega)
  have hp : (Buffer.slice input 48 (48 + s)).length < 4294967296 := by
    rw [hpay, List.length_drop]; omega
  refine ⟨_, fromRaw_eq cs input s hm hv hs' hp, rfl, rfl, rfl, congrArg some hpay, ?_⟩
  show Buffer.readUInt32BE (uint32BE (Buffer.slice input 48 (48 + s)).length) = _
  rw [hpay, List.length_drop]
  have := readUInt32BE_uint32BE (input.length - 48) [] (by omega)
  simpa using this

theorem fromRaw_truncated_witness :
    ∃ r, Message.fromRaw sampleConstants (some sampleShort) = .ok (some r) ∧
      r.raw.magic = Buffer.slice sampleShort 0 4 ∧ r.raw.version = Buffer.slice sampleShort 4 8 ∧
      r.raw.type = Buffer.slice sampleShort 8 12 ∧ r.raw.data = some (sampleShort.drop 48) ∧
      r.size = .ok (sampleShort.length - 48) :=
  fromRaw_truncated sampleConstants sampleShort 5 (by decide) (by decide) (by decide) (by decide)
    (by decide)

/-- C12 (header encoding). For every envelope built by the constructor and completed `type =`
and `data =` assignments, `header` is, in this order, the big-endian `MAGIC_BYTES`, the
big-endian `VERSION_NUMBER`, the big-endian type code (the registry code of the name last
assigned, 0 before any assignment and for a name found on `Object.prototype`), the big-endian
payload length (0 while there is no payload) and the 32-byte hash field (the digest the `data`
setter derived from the payload, zero bytes while there is no payload). -/
theorem header_encoding (cs : Constants) (m : Message) (h : Built cs m) :
    ∃ code, code < 4294967296 ∧ Buffer.readUInt32BE m.raw.type = .ok code ∧
      (match m.atType with
        | none => code = 0
        | some n => Message.typesLookup cs n = .number code ∨
            (Message.typesLookup cs n = .inherited ∧ code = 0)) ∧
      (match m.raw.data with
        | none => m.raw.hash = Buffer.alloc 32
        | some d => m.raw.hash = sha256 (utf8Write (utf8Slice d))) ∧
      m.raw.hash.length = 32 ∧
      m.header = uint32BE cs.MAGIC_BYTES ++ uint32BE cs.VERSION_NUMBER ++ uint32BE code ++
        uint32BE (m.raw.data.getD []).length ++ m.raw.hash := by
  obtain ⟨h1, h2, ⟨code, hlt, ht, hlink⟩, h4, h5, h6⟩ := built_fields h
  refine ⟨code, hlt, ?_, hlink, h6, h5, ?_⟩
  · rw [ht]
    simpa using readUInt32BE_uint32BE code [] hlt
  · unfold Message.header
    rw [h1, h2, ht, h4]

theorem header_encoding_witness :
    ∃ code, code < 4294967296 ∧ Buffer.readUInt32BE samplePing.raw.type = .ok code ∧
      (match samplePing.atType with
        | none => code = 0
        | some n => Message.typesLookup sampleConstants n = .number code ∨
            (Message.typesLookup sampleConstants n = .inherited ∧ code = 0)) ∧
      (match samplePing.raw.data with
        | none => samplePing.raw.hash = Buffer.alloc 32
        | some d => samplePing.raw.hash = sha256 (utf8Write (utf8Slice d))) ∧
      samplePing.raw.hash.length = 32 ∧
      samplePing.header = uint32BE sampleConstants.MAGIC_BYTES ++
        uint32BE sampleConstants.VERSION_NUMBER ++ uint32BE code ++
        uint32BE (samplePing.raw.data.getD []).length ++ samplePing.raw.hash :=
  header_encoding sampleConstants samplePing samplePing_built

/-- C13 (header length). Every envelope returned by the constructor, by `fromVector` or by
`fromRaw` (short inputs included), and every envelope such a one becomes under `type =` and
`data =` assignments, completed or not, has a header of exactly 48 bytes. -/
theorem header_length (cs : Constants) (m : Message) (h : Reachable cs m) :
    m.header.length = 48 := by
  obtain ⟨h1, h2, h3, h4, h5, _⟩ := reachable_sound h
  simp [Message.header, h1, h2, h3, h4, h5]

theorem header_length_witness :
    ∃ r, Message.fromRaw sampleConstants (some sampleShort) = .ok (some r) ∧
      sampleShort.length = 20 ∧ r.header.length = 48 ∧
      (r.setType sampleConstants "Pong").message.header.length = 48 :=
  ⟨_, sampleShort_fromRaw, rfl,
    header_length sampleConstants _ (Reachable.fromRaw sampleShort_fromRaw),
    header_length sampleConstants _
      (Reachable.setType "Pong" (Reachable.fromRaw sampleShort_fromRaw))⟩

set_option maxRecDepth 100000 in
/-- C14 (whole-message serialization), as stated, fails on an envelope that shares the buffer
it was parsed from. After `r1 = fromRaw(w)`, `r2 = fromRaw(w)` and `r1.data = 'hi'`, with `w`
a 53-byte buffer (size 5, payload `'hello'`), `r2` has its data set and still holds the
5-byte payload, so `r2.asRaw()` is 53 bytes long; but `r2.size` reads 2, which `r1` wrote
through the shared buffer: 53 is not 48 + 2. -/
theorem asRaw_length_shared :
    ∃ h1 r1 h2 r2,
      Envelope.fromRaw sampleConstants sampleMemory (some sampleInput) = .ok (h1, some r1) ∧
      Envelope.fromRaw sampleConstants h1 (some sampleInput) = .ok (h2, some r2) ∧
      (r1.setData h2 (.string [0x68, 0x69])).thrown = none ∧
      (r2.snapshot (r1.setData h2 (.string [0x68, 0x69])).memory).raw.data = some sampleHello ∧
      (r2.snapshot (r1.setData h2 (.string [0x68, 0x69])).memory).asRaw.map List.length
        = .ok 53 ∧
      (r2.snapshot (r1.setData h2 (.string [0x68, 0x69])).memory).size = .ok 2 ∧
      53 ≠ 48 + 2 := by
  refine ⟨_, _, _, _, rfl, rfl, ?_⟩
  decide

/-- C14 (whole-message serialization), amended. For every envelope whose data has been set, to
a payload that fits the 32-bit size field, and whose size field nothing but its own `data`
setter has written since the envelope was made (other code may write anything else, and may
hold the buffer the envelope was parsed from): `asRaw()` is the header followed by the
payload, `size` reads the payload length, and the length of `asRaw()` is 48 plus that size. -/
theorem asRaw_header_payload (cs : Constants) (h : Memory) (e : Envelope) (d : View)
    (alive : Live cs Envelope.sizeField h e) (hd : e.raw.data = some d)
    (hlt : (h.bytes d).length < 4294967296) :
    (e.snapshot h).asRaw = .ok ((e.snapshot h).header ++ h.bytes d) ∧
      (e.snapshot h).size = .ok (h.bytes d).length ∧
      ((e.snapshot h).header ++ h.bytes d).length = 48 + (h.bytes d).length := by
  have w := live_wide alive
  have hin := (w.2.2 d hd).1
  have hl := bytes_length hin
  have hs := live_sized (fun e => List.mem_singleton.mpr rfl) alive d hd (by rw [← hl]; exact hlt)
  obtain ⟨f1, f2, f3, f4, f5⟩ := fixedWidth_snapshot w
  refine ⟨?_, ?_, ?_⟩
  · simp [Message.asRaw, snapshot_data hd]
  · show Buffer.readUInt32BE (h.bytes e.raw.size) = _
    rw [hs, hl]
    have := readUInt32BE_uint32BE d.len [] (by rw [← hl]; exact hlt)
    simpa using this
  · simp only [Message.header, List.length_append, f1, f2, f3, f4, f5]

set_option maxRecDepth 100000 in
theorem asRaw_header_payload_witness :
    (∃ h e d, Envelope.fromVector sampleConstants ⟨[]⟩ "Ping" (.string sampleHello) = .ok (h, e) ∧
      e.raw.data = some d ∧ h.bytes d = sampleHello ∧
      (e.snapshot h).asRaw = .ok ((e.snapshot h).header ++ h.bytes d) ∧
      (e.snapshot h).size = .ok (h.bytes d).length ∧
      ((e.snapshot h).header ++ h.bytes d).length = 48 + (h.bytes d).length) ∧
    (∃ h1 r1 h2 r2 d,
      Envelope.fromRaw sampleConstants sampleMemory (some sampleInput) = .ok (h1, some r1) ∧
      Envelope.fromRaw sampleConstants h1 (some sampleInput) = .ok (h2, some r2) ∧
      (r1.setData h2 (.string [0x68, 0x69])).envelope.raw.data = some d ∧
      (r1.setData h2 (.string [0x68, 0x69])).memory.bytes d = [0x68, 0x69] ∧
      ((r1.setData h2 (.string [0x68, 0x69])).envelope.snapshot
          (r1.setData h2 (.string [0x68, 0x69])).memory).asRaw =
        .ok (((r1.setData h2 (.string [0x68, 0x69])).envelope.snapshot
          (r1.setData h2 (.string [0x68, 0x69])).memory).header ++
            (r1.setData h2 (.string [0x68, 0x69])).memory.bytes d) ∧
      ((r1.setData h2 (.string [0x68, 0x69])).envelope.snapshot
          (r1.setData h2 (.string [0x68, 0x69])).memory).size =
        .ok ((r1.setData h2 (.string [0x68, 0x69])).memory.bytes d).length ∧
      (((r1.setData h2 (.string [0x68, 0x69])).envelope.snapshot
          (r1.setData h2 (.string [0x68, 0x69])).memory).header ++
            (r1.setData h2 (.string [0x68, 0x69])).memory.bytes d).length =
        48 + ((r1.setData h2 (.string [0x68, 0x69])).memory.bytes d).length) :=
  ⟨⟨_, _, _, rfl, rfl, by decide,
    asRaw_header_payload sampleConstants _ _ _
      (@Live.fromVector sampleConstants Envelope.sizeField ⟨[]⟩ _ "Ping" (.string sampleHello) _
        (by decide) rfl) rfl (by decide)⟩,
   ⟨_, _, _, _, _, rfl, rfl, rfl, by decide,
    asRaw_header_payload sampleConstants _ _ _
      (Live.setData (.string [0x68, 0x69]) (by decide)
        (Live.elsewhere
          (@Live.fromRaw sampleConstants Envelope.sizeField sampleMemory _ sampleInput _
            (by decide) rfl)
          (by decide) (by decide)))
      rfl (by decide)⟩⟩

/-- C15 (identifier), as stated, fails on a freshly constructed envelope: its payload is
`null`, `Buffer.concat` in `asRaw()` raises a `TypeError`, and so does reading `id`. -/
theorem id_fresh_throws :
    ∃ m, Message.new sampleConstants = .ok m ∧ m.raw.data = none ∧
      m.id = .error .typeError :=
  ⟨sampleFresh, sampleFresh_new, rfl, rfl⟩

/-- C15 (identifier), amended. For every envelope whose data has been set, reading `id`
succeeds and returns the hexadecimal SHA-256 of the header followed by the payload. -/
theorem id_recomputable (m : Message) (d : Bytes) (hd : m.raw.data = some d) :
    m.asRaw = .ok (m.header ++ d) ∧ m.id = .ok (hex (sha256 (m.header ++ d))) :=
  ⟨by simp [Message.asRaw, hd], id_eq hd⟩

theorem id_recomputable_witness :
    samplePing.asRaw = .ok (samplePing.header ++ sampleHello) ∧
      samplePing.id = .ok (hex (sha256 (samplePing.header ++ sampleHello))) :=
  id_recomputable samplePing sampleHello samplePing_data

set_option maxRecDepth 100000 in
/-- C16 (identifier sensitivity), as stated, fails in two ways. Parsed from two buffers that
differ only in the magic bytes, which `fromRaw` does not validate, two envelopes have their
data set, the same type field (and the same `type` reading) and the same payload, yet
different ids. And after `r1 = fromRaw(w)`, `r2 = fromRaw(w)`, `r1.data = 'hi'`, the envelope
`r2` and an envelope `r3` parsed from a second buffer with the bytes `w` had agree on magic,
version, type field and payload, yet have different ids: `r1` rewrote the size field of `r2`
through the buffer they share. -/
theorem id_differs_on_magic_or_shared_size :
    (∃ h1 r1 h2 r2,
      Envelope.fromRaw sampleConstants sampleMagics (some ⟨0, 0, 48⟩) = .ok (h1, some r1) ∧
      Envelope.fromRaw sampleConstants h1 (some ⟨1, 0, 48⟩) = .ok (h2, some r2) ∧
      (r1.snapshot h2).raw.type = (r2.snapshot h2).raw.type ∧
      (r1.snapshot h2).getType sampleConstants = (r2.snapshot h2).getType sampleConstants ∧
      (r1.snapshot h2).raw.data = some [] ∧ (r2.snapshot h2).raw.data = some [] ∧
      (r1.snapshot h2).id ≠ (r2.snapshot h2).id) ∧
    (∃ h1 r1 h2 r2 h3 r3,
      Envelope.fromRaw sampleConstants sampleMemory (some sampleInput) = .ok (h1, some r1) ∧
      Envelope.fromRaw sampleConstants h1 (some sampleInput) = .ok (h2, some r2) ∧
      (r1.setData h2 (.string [0x68, 0x69])).thrown = none ∧
      Envelope.fromRaw sampleConstants (r1.setData h2 (.string [0x68, 0x69])).memory
        (some sampleCopy) = .ok (h3, some r3) ∧
      (r2.snapshot h3).raw.magic = (r3.snapshot h3).raw.magic ∧
      (r2.snapshot h3).raw.version = (r3.snapshot h3).raw.version ∧
      (r2.snapshot h3).raw.type = (r3.snapshot h3).raw.type ∧
      (r2.snapshot h3).raw.data = some sampleHello ∧
      (r3.snapshot h3).raw.data = some sampleHello ∧
      (r2.snapshot h3).id ≠ (r3.snapshot h3).id) := by
  refine ⟨⟨_, _, _, _, rfl, rfl, ?_⟩, ⟨_, _, _, _, _, _, rfl, rfl, ?_, rfl, ?_⟩⟩
  · decide
  · decide
  · decide

/-- C16 (identifier sensitivity), amended. For any two envelopes with data set: if the size
field, the hash field and the payload of each have been written by nothing but its own `data`
setter since it was made, the payload fits the 32-bit size field, and the two have the same
magic, version, type field and payload, then their ids are equal; and if the two differ in any
header field or in the payload, whatever else has written their buffers, then the byte strings
hashed to form their ids differ, so their ids differ whenever SHA-256 does not collide on
those two strings. -/
theorem id_sensitivity (cs : Constants) (h1 h2 : Memory) (e1 e2 : Envelope) (d1 d2 : View)
    (hd1 : e1.raw.data = some d1) (hd2 : e2.raw.data = some d2) :
    (Live cs Envelope.dataFields h1 e1 → Live cs Envelope.dataFields h2 e2 →
      (h1.bytes d1).length < 4294967296 →
      (e1.snapshot h1).raw.magic = (e2.snapshot h2).raw.magic →
      (e1.snapshot h1).raw.version = (e2.snapshot h2).raw.version →
      (e1.snapshot h1).raw.type = (e2.snapshot h2).raw.type →
      h1.bytes d1 = h2.bytes d2 → (e1.snapshot h1).id = (e2.snapshot h2).id) ∧
    (Live cs Envelope.noField h1 e1 → Live cs Envelope.noField h2 e2 →
      ((e1.snapshot h1).raw.magic ≠ (e2.snapshot h2).raw.magic ∨
        (e1.snapshot h1).raw.version ≠ (e2.snapshot h2).raw.version ∨
        (e1.snapshot h1).raw.type ≠ (e2.snapshot h2).raw.type ∨
        (e1.snapshot h1).raw.size ≠ (e2.snapshot h2).raw.size ∨
        (e1.snapshot h1).raw.hash ≠ (e2.snapshot h2).raw.hash ∨
        h1.bytes d1 ≠ h2.bytes d2) →
      (e1.snapshot h1).header ++ h1.bytes d1 ≠ (e2.snapshot h2).header ++ h2.bytes d2 ∧
        (sha256 ((e1.snapshot h1).header ++ h1.bytes d1) ≠
            sha256 ((e2.snapshot h2).header ++ h2.bytes d2) →
          (e1.snapshot h1).id ≠ (e2.snapshot h2).id)) := by
  constructor
  · intro own1 own2 hlt hm hv ht hd
    have w1 := live_wide own1
    have w2 := live_wide own2
    have l1 := bytes_length (w1.2.2 d1 hd1).1
    have l2 := bytes_length (w2.2.2 d2 hd2).1
    have hlen : d1.len = d2.len := by rw [← l1, ← l2, hd]
    have hgs : ∀ e : Envelope, e.raw.size ∈ e.dataFields := fun e => by
      simp [Envelope.dataFields]
    have hs1 := live_sized hgs own1 d1 hd1 (by rw [← l1]; exact hlt)
    have hs2 := live_sized hgs own2 d2 hd2 (by rw [← hlen, ← l1]; exact hlt)
    have hg : ∀ e : Envelope, e.raw.hash ∈ e.dataFields ∧
        ∀ d, e.raw.data = some d → d ∈ e.dataFields := by
      intro e
      refine ⟨by simp [Envelope.dataFields], fun d hd => ?_⟩
      simp [Envelope.dataFields, hd]
    have hh1 := live_digest hg own1 d1 hd1
    have hh2 := live_digest hg own2 d2 hd2
    rw [id_eq (snapshot_data hd1), id_eq (snapshot_data hd2)]
    have hsz : (e1.snapshot h1).raw.size = (e2.snapshot h2).raw.size := by
      show h1.bytes e1.raw.size = h2.bytes e2.raw.size
      rw [hs1, hs2, hlen]
    have hhs : (e1.snapshot h1).raw.hash = (e2.snapshot h2).raw.hash := by
      show h1.bytes e1.raw.hash = h2.bytes e2.raw.hash
      rw [hh1, hh2, hd]
    unfold Message.header
    rw [hm, hv, ht, hsz, hhs, hd]
  · intro alive1 alive2 hne
    have s1 := fixedWidth_snapshot (live_wide alive1)
    have s2 := fixedWidth_snapshot (live_wide alive2)
    constructor
    · intro heq
      obtain ⟨a, b, c, d, e, f⟩ := header_append_inj s1 s2 heq
      rcases hne with h | h | h | h | h | h
      · exact h a
      · exact h b
      · exact h c
      · exact h d
      · exact h e
      · exact h f
    · intro hsha hid
      rw [id_eq (snapshot_data hd1), id_eq (snapshot_data hd2)] at hid
      exact hsha (hex_injective _ _ (sha256_isBytes _) (sha256_isBytes _) (Except.ok.inj hid))

set_option maxRecDepth 100000 in
theorem id_sensitivity_witness :
    ∃ h1 e1 d1 h2 e2 d2 h3 e3 d3,
      Envelope.fromVector sampleConstants ⟨[]⟩ "Ping" (.string sampleHello) = .ok (h1, e1) ∧
      e1.raw.data = some d1 ∧
      Envelope.fromRaw sampleConstants sampleMemory (some sampleInput) = .ok (h2, some e2) ∧
      e2.raw.data = some d2 ∧
      Envelope.fromVector sampleConstants ⟨[]⟩ "Pong" (.string sampleHello) = .ok (h3, e3) ∧
      e3.raw.data = some d3 ∧
      e1 ≠ e2 ∧ (e1.snapshot h1).id = (e2.snapshot h2).id ∧
      (e1.snapshot h1).raw.type ≠ (e3.snapshot h3).raw.type ∧
      (e1.snapshot h1).header ++ h1.bytes d1 ≠ (e3.snapshot h3).header ++ h3.bytes d3 :=
  ⟨_, _, _, _, _, _, _, _, _, rfl, rfl, rfl, rfl, rfl, rfl, by decide,
    (id_sensitivity sampleConstants _ _ _ _ _ _ rfl rfl).1
      (@Live.fromVector sampleConstants Envelope.dataFields ⟨[]⟩ _ "Ping" (.string sampleHello) _
        (by decide) rfl)
      (@Live.fromRaw sampleConstants Envelope.dataFields sampleMemory _ sampleInput _
        (by decide) rfl)
      (by decide) (by decide) (by decide) (by decide) (by decide),
    by decide,
    ((id_sensitivity sampleConstants _ _ _ _ _ _ rfl rfl).2
      (@Live.fromVector sampleConstants Envelope.noField ⟨[]⟩ _ "Ping" (.string sampleHello) _
        (by decide) rfl)
      (@Live.fromVector sampleConstants Envelope.noField ⟨[]⟩ _ "Pong" (.string sampleHello) _
        (by decide) rfl)
      (Or.inr (Or.inr (Or.inl (by decide))))).1⟩

/-- C17 (text accessor). For every well-formed text string `s` whose UTF-8 form fits the
32-bit size field, on an envelope whose size field holds at least 4 bytes, `data = s`
completes and reading `data` then returns `s`; and on an envelope whose payload was never
set (`raw.data` is `null`), reading `data` returns the empty string. -/
theorem getData_text (m m0 : Message) (s : JSString) (hs : isWellFormed s = true)
    (hsize : 4 ≤ m.raw.size.length) (hlen : (utf8Write s).length < 4294967296)
    (h0 : m0.raw.data = none) :
    (m.setData (.string s)).thrown = none ∧ (m.setData (.string s)).message.getData = s ∧
      m0.getData = [] := by
  obtain ⟨_, _, _, _, _, f6, _, f8⟩ := setData_frame m (.string s)
  refine ⟨(f8 hsize hlen).1, ?_, ?_⟩
  · unfold Message.getData
    rw [f6]
    exact utf8Slice_utf8Write s hs
  · unfold Message.getData
    rw [h0]

theorem getData_text_witness :
    (sampleFresh.setData (.string [0x68, 0xE9, 0x20AC, 0xD83D, 0xDE00])).thrown = none ∧
      (sampleFresh.setData (.string [0x68, 0xE9, 0x20AC, 0xD83D, 0xDE00])).message.getData
        = [0x68, 0xE9, 0x20AC, 0xD83D, 0xDE00] ∧
      sampleFresh.getData = [] :=
  getData_text sampleFresh sampleFresh [0x68, 0xE9, 0x20AC, 0xD83D, 0xDE00] (by decide)
    (by decide) (by decide) rfl

/-- C18 (the wire hash is ignored). For any two inputs that agree on their first 16 bytes and
from offset 48 on (so they differ at most in bytes 16..47), `fromRaw` gives the same result:
the same error, or the same envelope, hence the same header bytes and payload. Whenever it
returns an envelope, the hash field is the digest the `data` setter derives from the payload
slice held and the size field is the length of that slice; neither is taken from the input. -/
theorem fromRaw_ignores_hash (cs : Constants) (i1 i2 : Bytes)
    (hhead : i1.take 16 = i2.take 16) (htail : i1.drop 48 = i2.drop 48) :
    Message.fromRaw cs (some i1) = Message.fromRaw cs (some i2) ∧
      ∀ r, Message.fromRaw cs (some i1) = .ok (some r) →
        ∃ p, r.raw.data = some p ∧ r.raw.hash = sha256 (utf8Write (utf8Slice p)) ∧
          r.raw.size = uint32BE p.length ∧ r.header.length = 48 := by
  have e (a b : Nat) (hb : b ≤ 16) : Buffer.slice i1 a b = Buffer.slice i2 a b := by
    rw [← slice_take i1 a b 16 hb, ← slice_take i2 a b 16 hb, hhead]
  have ep (s : Nat) : Buffer.slice i1 48 (48 + s) = Buffer.slice i2 48 (48 + s) := by
    rw [slice_drop, slice_drop, htail]
  constructor
  · rw [fromRaw_some, fromRaw_some, e 0 4 (by omega), e 4 8 (by omega), e 8 12 (by omega),
      e 12 16 (by omega)]
    simp only [ep]
  · intro r hr
    have hsound := sound_fromRaw hr
    obtain ⟨s, _, _, _, _, _, er⟩ := fromRaw_ok hr
    subst er
    refine ⟨_, rfl, rfl, rfl, ?_⟩
    obtain ⟨h1, h2, h3, h4, h5, _⟩ := hsound
    simp only [Message.header, List.length_append, h1, h2, h3, h4, h5]

theorem fromRaw_ignores_hash_witness :
    Message.fromRaw sampleConstants (some (List.replicate 16 0 ++ List.replicate 32 0xAA ++ [0x68]))
        = Message.fromRaw sampleConstants
          (some (List.replicate 16 0 ++ List.replicate 32 0xBB ++ [0x68])) ∧
      ∀ r, Message.fromRaw sampleConstants
          (some (List.replicate 16 0 ++ List.replicate 32 0xAA ++ [0x68])) = .ok (some r) →
        ∃ p, r.raw.data = some p ∧ r.raw.hash = sha256 (utf8Write (utf8Slice p)) ∧
          r.raw.size = uint32BE p.length ∧ r.header.length = 48 :=
  fromRaw_ignores_hash sampleConstants _ _ (by decide) (by decide)

/-- C19 (setter frames). A `type = name` assignment, whatever its outcome, leaves magic,
version, size, hash and payload unchanged (it can change only the type field and `'@type'`);
one that fails leaves every field of `raw` unchanged, and the whole object when it fails with
the unknown-type error; a `data = p` assignment, whatever its outcome, leaves magic, version,
the type field and `'@type'` unchanged. -/
theorem setter_frames (cs : Constants) (m : Message) (n : String) (p : Value) :
    ((m.setType cs n).message.raw.magic = m.raw.magic ∧
      (m.setType cs n).message.raw.version = m.raw.version ∧
      (m.setType cs n).message.raw.size = m.raw.size ∧
      (m.setType cs n).message.raw.hash = m.raw.hash ∧
      (m.setType cs n).message.raw.data = m.raw.data) ∧
    ((m.setType cs n).thrown ≠ none → (m.setType cs n).message.raw = m.raw) ∧
    (∀ x, (m.setType cs n).thrown = some (.unknownType x) → (m.setType cs n).message = m) ∧
    ((m.setData p).message.raw.magic = m.raw.magic ∧
      (m.setData p).message.raw.version = m.raw.version ∧
      (m.setData p).message.raw.type = m.raw.type ∧
      (m.setData p).message.atType = m.atType) := by
  obtain ⟨⟨t, e, _⟩, g2, g3⟩ := setType_frame cs m n
  obtain ⟨f1, f2, f3, f4, _⟩ := setData_frame m p
  refine ⟨?_, g2, g3, f1, f2, f3, f4⟩
  rw [e]
  exact ⟨rfl, rfl, rfl, rfl, rfl⟩

theorem setter_frames_witness :
    (samplePing.setType sampleConstants "NoSuchType").thrown ≠ none ∧
      (samplePing.setType sampleConstants "NoSuchType").message.raw = samplePing.raw ∧
      (samplePing.setType sampleConstants "NoSuchType").message = samplePing :=
  ⟨by decide,
    (setter_frames sampleConstants samplePing "NoSuchType" .undefined).2.1 (by decide),
    (setter_frames sampleConstants samplePing "NoSuchType" .undefined).2.2.1 "NoSuchType"
      (by decide)⟩

end Fabric
